import Mathlib

/-!
Verification of the pcc-lite envelope verifier (`src/verifier.py`, `src/run_vectors.py`).

The source operates on values produced by `json.load`: `None`, booleans,
numbers, strings, lists, and string-keyed dictionaries.  We embed those values
as the inductive type `JValue` below (numbers are restricted to integers; the
data model of this repository uses only integer numbers).  Python dictionaries
are modelled as association lists in insertion order; dictionaries produced by
`json.load` have pairwise-distinct keys.

Operations of the source that can raise a Python exception (iterating a
non-iterable, calling `.get` on a non-dictionary, hashing an unhashable value
for a set-membership test) are embedded in the `Except String` monad, with the
error string describing the exception.  Total operations are plain functions.
-/

namespace PccLite

inductive JValue where
  | null
  | bool (b : Bool)
  | int (n : Int)
  | str (s : String)
  | arr (xs : List JValue)
  | obj (kvs : List (String × JValue))

/-- Python `isinstance(v, str)`. -/
def isStr : JValue → Bool
  | .str _ => true
  | _ => false

/-- Python `isinstance(v, int)`.  Note that Python's `bool` is a subclass of
`int`, so booleans satisfy this test as well. -/
def isPyInt : JValue → Bool
  | .int _ => true
  | .bool _ => true
  | _ => false

/-- Python `isinstance(v, dict)`. -/
def isDict : JValue → Bool
  | .obj _ => true
  | _ => false

/-- Python `isinstance(v, list)`. -/
def isList : JValue → Bool
  | .arr _ => true
  | _ => false

/-- The integer value of a Python `int` (booleans count as `1` / `0`);
other values are never passed to this. -/
def pyIntVal : JValue → Int
  | .int n => n
  | .bool b => if b then 1 else 0
  | _ => 0

-- Python `==` on json-loaded values.  Mixed `bool`/`int` comparisons follow
-- Python (`True == 1`, `False == 0`); lists compare pointwise; dictionaries
-- compare as key-value sets (`len` equal and every key of the left side
-- present on the right with an equal value — for the distinct-key
-- dictionaries produced by `json.load` this is Python's dictionary equality).
mutual

def pyEq : JValue → JValue → Bool
  | .null, .null => true
  | .bool a, .bool b => a == b
  | .bool a, .int n => (if a then (1 : Int) else 0) == n
  | .int n, .bool a => n == (if a then (1 : Int) else 0)
  | .int m, .int n => m == n
  | .str a, .str b => a == b
  | .arr xs, .arr ys => pyEqList xs ys
  | .obj a, .obj b => a.length == b.length && pyEqObj a b
  | _, _ => false
termination_by a b => sizeOf a + sizeOf b
decreasing_by all_goals (simp_arith)

def pyEqList : List JValue → List JValue → Bool
  | [], [] => true
  | x :: xs, y :: ys => pyEq x y && pyEqList xs ys
  | _, _ => false
termination_by xs ys => sizeOf xs + sizeOf ys
decreasing_by all_goals (simp_arith)

def pyEqObj : List (String × JValue) → List (String × JValue) → Bool
  | [], _ => true
  | (k, v) :: rest, b => pyEqFind k v b && pyEqObj rest b
termination_by a b => sizeOf a + sizeOf b
decreasing_by all_goals (simp_arith)

def pyEqFind : String → JValue → List (String × JValue) → Bool
  | _, _, [] => false
  | k, v, (k2, v2) :: rest => if k == k2 then pyEq v v2 else pyEqFind k v rest
termination_by _ v b => sizeOf v + sizeOf b
decreasing_by all_goals (simp_arith)

end

/-- First-occurrence lookup in an association list (the lookup of a Python
dictionary; keys are pairwise distinct for dictionaries of the source). -/
def alget (kvs : List (String × JValue)) (k : String) : Option JValue :=
  match kvs.find? (fun p => p.1 == k) with
  | some p => some p.2
  | none => none

/-- Python `d.get(k, dflt)` for a dictionary value; raises `AttributeError`
on non-dictionaries. -/
def pyGetD (v : JValue) (k : String) (dflt : JValue) : Except String JValue :=
  match v with
  | .obj kvs => .ok ((alget kvs k).getD dflt)
  | _ => .error "AttributeError: object has no attribute get"

/-- Python `d.get(k)` (default `None`). -/
def pyGet (v : JValue) (k : String) : Except String JValue :=
  pyGetD v k .null

/-- Total counterpart of `d.get(k)`: `None` when the receiver is not a
dictionary.  Used on the specification side of the claims. -/
def getT (v : JValue) (k : String) : JValue :=
  match v with
  | .obj kvs => (alget kvs k).getD .null
  | _ => .null

/-- Python dictionary subscript `d[k]` as used inside the schema probe
(failure means an exception, which `_basic_schema_ok` catches). -/
def subscr (v : JValue) (k : String) : Option JValue :=
  match v with
  | .obj kvs => alget kvs k
  | _ => none

/-- Python iteration `for x in v`: lists yield their elements, dictionaries
their keys, strings their characters; other values raise `TypeError`. -/
def pyIter : JValue → Except String (List JValue)
  | .arr xs => .ok xs
  | .obj kvs => .ok (kvs.map (fun p => .str p.1))
  | .str s => .ok (s.data.map (fun c => .str (String.singleton c)))
  | _ => .error "TypeError: object is not iterable"

/-! ### CanonicalHasher: `_canonical_json_bytes`, `_sha256_hex`, `compute_witness_hash`

`json.dumps(obj, sort_keys=True, separators=(",", ":"), ensure_ascii=False)`:
object keys in lexicographic order, no inserted whitespace, non-ASCII emitted
literally, the usual JSON escapes for `"` `\` and control characters. -/

/-- One lowercase hexadecimal digit. -/
def hexDigit (n : Nat) : Char :=
  if n < 10 then Char.ofNat (48 + n) else Char.ofNat (87 + n)

/-- Four lowercase hexadecimal digits, as in Python's `'\\u%04x'`. -/
def hex4 (n : Nat) : String :=
  String.mk [hexDigit (n / 4096 % 16), hexDigit (n / 256 % 16),
             hexDigit (n / 16 % 16), hexDigit (n % 16)]

/-- The escaping `json.dumps` applies inside string literals (with
`ensure_ascii=False`): `"` and `\` are escaped, control characters below
`0x20` use the short escapes or a `\\u00xx` escape, everything else is
emitted literally. -/
def jsonEscapeChar (c : Char) : String :=
  if c = '"' then "\\\""
  else if c = '\\' then "\\\\"
  else if c = '\n' then "\\n"
  else if c = '\t' then "\\t"
  else if c = '\r' then "\\r"
  else if c = Char.ofNat 8 then "\\b"
  else if c = Char.ofNat 12 then "\\f"
  else if c.toNat < 32 then "\\u" ++ hex4 c.toNat
  else String.singleton c

def jsonQuote (s : String) : String :=
  "\"" ++ String.join (s.data.map jsonEscapeChar) ++ "\""

/-- Sort the items of a dictionary by key (`sort_keys=True`); Python's string
order is lexicographic on code points, as is Lean's `String` order. -/
def sortKVs (kvs : List (String × JValue)) : List (String × JValue) :=
  kvs.mergeSort (fun a b => decide (a.1 ≤ b.1))

theorem sizeOf_sortKVs (kvs : List (String × JValue)) :
    sizeOf (sortKVs kvs) = sizeOf kvs :=
  (List.mergeSort_perm kvs _).sizeOf_eq_sizeOf

mutual

def canonicalJson : JValue → String
  | .null => "null"
  | .bool b => if b then "true" else "false"
  | .int n => toString n
  | .str s => jsonQuote s
  | .arr xs => "[" ++ String.intercalate "," (canonicalJsonList xs) ++ "]"
  | .obj kvs =>
      "\x7b" ++ String.intercalate "," (canonicalJsonItems (sortKVs kvs)) ++ "\x7d"
termination_by v => sizeOf v
decreasing_by all_goals (simp_arith [sizeOf_sortKVs])

def canonicalJsonList : List JValue → List String
  | [] => []
  | x :: xs => canonicalJson x :: canonicalJsonList xs
termination_by xs => sizeOf xs
decreasing_by all_goals simp_arith

def canonicalJsonItems : List (String × JValue) → List String
  | [] => []
  | (k, v) :: rest => (jsonQuote k ++ ":" ++ canonicalJson v) :: canonicalJsonItems rest
termination_by l => sizeOf l
decreasing_by all_goals simp_arith

end

/-- Standard UTF-8 encoding of a unicode code point. -/
def utf8Char (c : Nat) : List Nat :=
  if c < 128 then [c]
  else if c < 2048 then [192 + c / 64, 128 + c % 64]
  else if c < 65536 then [224 + c / 4096, 128 + c / 64 % 64, 128 + c % 64]
  else [240 + c / 262144, 128 + c / 4096 % 64, 128 + c / 64 % 64, 128 + c % 64]

def utf8Bytes (s : String) : List Nat :=
  (s.data.map (fun c => utf8Char c.toNat)).flatten

/-- `_canonical_json_bytes`: deterministic JSON encoding of a value. -/
def canonicalJsonBytes (obj : JValue) : List Nat :=
  utf8Bytes (canonicalJson obj)

/-! SHA-256, on bytes represented as `Nat` below 256, words as `Nat` reduced
modulo `2 ^ 32`. -/

def m32 (x : Nat) : Nat := x % 4294967296

def rotr32 (x n : Nat) : Nat := m32 (x / 2 ^ n + x % 2 ^ n * 2 ^ (32 - n))

def xor32 (a b : Nat) : Nat := a ^^^ b

def and32 (a b : Nat) : Nat := a &&& b

def not32 (a : Nat) : Nat := 4294967295 - a

def shaS0 (x : Nat) : Nat := xor32 (rotr32 x 2) (xor32 (rotr32 x 13) (rotr32 x 22))

def shaS1 (x : Nat) : Nat := xor32 (rotr32 x 6) (xor32 (rotr32 x 11) (rotr32 x 25))

def shas0 (x : Nat) : Nat := xor32 (rotr32 x 7) (xor32 (rotr32 x 18) (x / 2 ^ 3))

def shas1 (x : Nat) : Nat := xor32 (rotr32 x 17) (xor32 (rotr32 x 19) (x / 2 ^ 10))

def shaCh (e f g : Nat) : Nat := xor32 (and32 e f) (and32 (not32 e) g)

def shaMaj (a b c : Nat) : Nat := xor32 (and32 a b) (xor32 (and32 a c) (and32 b c))

def shaK : List Nat :=
  [1116352408, 1899447441, 3049323471, 3921009573,
   961987163, 1508970993, 2453635748, 2870763221,
   3624381080, 310598401, 607225278, 1426881987,
   1925078388, 2162078206, 2614888103, 3248222580,
   3835390401, 4022224774, 264347078, 604807628,
   770255983, 1249150122, 1555081692, 1996064986,
   2554220882, 2821834349, 2952996808, 3210313671,
   3336571891, 3584528711, 113926993, 338241895,
   666307205, 773529912, 1294757372, 1396182291,
   1695183700, 1986661051, 2177026350, 2456956037,
   2730485921, 2820302411, 3259730800, 3345764771,
   3516065817, 3600352804, 4094571909, 275423344,
   430227734, 506948616, 659060556, 883997877,
   958139571, 1322822218, 1537002063, 1747873779,
   1955562222, 2024104815, 2227730452, 2361852424,
   2428436474, 2756734187, 3204031479, 3329325298]

def shaInit : List Nat :=
  [1779033703, 3144134277, 1013904242, 2773480762,
   1359893119, 2600822924, 528734635, 1541459225]

/-- Split a byte list into chunks of `n` bytes (`n > 0`). -/
def chunksOf (n : Nat) (hn : 0 < n) : List Nat → List (List Nat)
  | [] => []
  | b :: rest => (b :: rest).take n :: chunksOf n hn ((b :: rest).drop n)
termination_by l => l.length
decreasing_by simp [List.length_drop]; omega

/-- Big-endian 32-bit words from a list of bytes. -/
def beWords : List Nat → List Nat
  | b0 :: b1 :: b2 :: b3 :: rest =>
      (b0 * 16777216 + b1 * 65536 + b2 * 256 + b3) :: beWords rest
  | _ => []

def beBytes8 (n : Nat) : List Nat :=
  [n / 2 ^ 56 % 256, n / 2 ^ 48 % 256, n / 2 ^ 40 % 256, n / 2 ^ 32 % 256,
   n / 2 ^ 24 % 256, n / 2 ^ 16 % 256, n / 2 ^ 8 % 256, n % 256]

def wordBytes (w : Nat) : List Nat :=
  [w / 2 ^ 24 % 256, w / 2 ^ 16 % 256, w / 2 ^ 8 % 256, w % 256]

/-- Extend the 16 words of a block to the 64-entry message schedule. -/
def shaSchedule (w : List Nat) (i : Nat) : List Nat :=
  match i with
  | 0 => w
  | j + 1 =>
      let prev := shaSchedule w j
      let t := 16 + j
      prev ++ [m32 (shas1 (prev.getD (t - 2) 0) + prev.getD (t - 7) 0 +
                    shas0 (prev.getD (t - 15) 0) + prev.getD (t - 16) 0)]

/-- One round of the SHA-256 compression function. -/
def shaRound (w : List Nat) (st : List Nat) (i : Nat) : List Nat :=
  match st with
  | [a, b, c, d, e, f, g, h] =>
      let t1 := m32 (h + shaS1 e + shaCh e f g + shaK.getD i 0 + w.getD i 0)
      let t2 := m32 (shaS0 a + shaMaj a b c)
      [m32 (t1 + t2), a, b, c, m32 (d + t1), e, f, g]
  | other => other

def shaCompress (st : List Nat) (block : List Nat) : List Nat :=
  let w := shaSchedule (beWords block) 48
  let fin := (List.range 64).foldl (shaRound w) st
  (st.zip fin).map (fun p => m32 (p.1 + p.2))

def sha256Bytes (msg : List Nat) : List Nat :=
  let padLen := (64 + 55 - msg.length % 64) % 64
  let padded := msg ++ [128] ++ List.replicate padLen 0 ++ beBytes8 (8 * msg.length)
  let blocks := chunksOf 64 (by omega) padded
  ((blocks.foldl shaCompress shaInit).map wordBytes).flatten

def toHexString (bytes : List Nat) : String :=
  String.join (bytes.map (fun b => String.mk [hexDigit (b / 16 % 16), hexDigit (b % 16)]))

/-- `_sha256_hex`: lowercase hex SHA-256 digest of a byte string. -/
def sha256Hex (b : List Nat) : String := toHexString (sha256Bytes b)

/-- `compute_witness_hash`: canonical hash of the envelope with
`witness_hash` removed. -/
def compute_witness_hash (env_without_witness : JValue) : String :=
  sha256Hex (canonicalJsonBytes env_without_witness)

/-! ### GraphBuilder: `_build_graph` -/

/-- Adjacency mapping, node id to ordered successor list, in insertion
order (a Python dictionary). -/
abbrev Adj := List (String × List String)

/-- `adj.get(x, [])`. -/
def adjGet (adj : Adj) (x : String) : List String :=
  ((adj.find? (fun p => p.1 == x)).map (fun p => p.2)).getD []

/-- `adj.setdefault(k, [])` (insert an empty successor list if absent). -/
def adjSetdefault (adj : Adj) (k : String) : Adj :=
  if (adj.find? (fun p => p.1 == k)).isSome then adj else adj ++ [(k, [])]

/-- `adj.setdefault(a, []).append(b)`.  The update touches the entry with
key `a`; the construction below only ever creates one entry per key. -/
def adjAppend (adj : Adj) (a b : String) : Adj :=
  if (adj.find? (fun p => p.1 == a)).isSome then
    adj.map (fun p => if p.1 == a then (p.1, p.2 ++ [b]) else p)
  else adj ++ [(a, [b])]

/-- `nodeset.add(x)`: a Python set, modelled as a duplicate-free list in
insertion order (Python's set iteration order is unspecified; every use of
the set below is insensitive to its order). -/
def setAdd (s : List String) (x : String) : List String :=
  if x ∈ s then s else s ++ [x]

/-- One step of the declared-node loop of `_build_graph`: record the id if
it is a non-empty string. -/
def buildNodeStep (st : Adj × List String) (n : JValue) : Except String (Adj × List String) := do
  let nid ← pyGet n "id"
  match nid with
  | .str s => if s ≠ "" then pure (adjSetdefault st.1 s, setAdd st.2 s) else pure st
  | _ => pure st

/-- One step of the edge loop of `_build_graph`: add the edge and both
endpoints when `from` and `to` are non-empty strings. -/
def buildEdgeStep (st : Adj × List String) (e : JValue) : Except String (Adj × List String) := do
  let a ← pyGet e "from"
  let b ← pyGet e "to"
  match a, b with
  | .str sa, .str sb =>
      if sa ≠ "" ∧ sb ≠ "" then
        pure (adjAppend st.1 sa sb, setAdd (setAdd st.2 sa) sb)
      else pure st
  | _, _ => pure st

/-- `_build_graph`: adjacency mapping and full node-id set.  Iterating a
non-list `nodes`/`edges` value, or reading a field of a non-dictionary
entry, raises — exactly where the source would. -/
def buildGraph (tcc : JValue) : Except String (Adj × List String) := do
  let nodesV ← pyGetD tcc "nodes" (.arr [])
  let nodes ← pyIter nodesV
  let st1 ← nodes.foldlM buildNodeStep (([] : Adj), ([] : List String))
  let edgesV ← pyGetD tcc "edges" (.arr [])
  let edges ← pyIter edgesV
  let st2 ← edges.foldlM buildEdgeStep st1
  pure (st2.2.foldl adjSetdefault st2.1, st2.2)

/-! ### TopologyValidator: `_is_dag` (Kahn) and `_reachable` (DFS) -/

/-- Lookup in the in-degree dictionary. -/
def ilook (indeg : List (String × Int)) (y : String) : Option Int :=
  (indeg.find? (fun p => p.1 == y)).map (fun p => p.2)

/-- `indeg[b] += 1 if b in indeg else indeg[b] = 1`. -/
def incrIndeg (indeg : List (String × Int)) (b : String) : List (String × Int) :=
  if (indeg.find? (fun p => p.1 == b)).isSome then
    indeg.map (fun p => if p.1 == b then (p.1, p.2 + 1) else p)
  else indeg ++ [(b, 1)]

/-- `indeg[y] -= 1`. -/
def decIndeg (indeg : List (String × Int)) (y : String) : List (String × Int) :=
  indeg.map (fun p => if p.1 == y then (p.1, p.2 - 1) else p)

/-- `{n: 0 for n in nodes}`: one zero entry per distinct node. -/
def zeroStep (m : List (String × Int)) (n : String) : List (String × Int) :=
  if (m.find? (fun p => p.1 == n)).isSome then m else m ++ [(n, (0 : Int))]

/-- The in-degree table of `_is_dag`: `{n: 0 for n in nodes}` then one
increment per edge occurrence. -/
def buildIndeg (adj : Adj) (nodes : List String) : List (String × Int) :=
  adj.foldl (fun m p => p.2.foldl incrIndeg m) (nodes.foldl zeroStep [])

/-- Process the successor list of a popped node: decrement each successor's
in-degree and enqueue it when it reaches zero.  A successor absent from the
table would be a `KeyError` in the source; it cannot occur because the
in-degree pass keys every edge target, so it is skipped here. -/
def kahnProcess : List (String × Int) → List String → List String →
    List (String × Int) × List String
  | indeg, queue, [] => (indeg, queue)
  | indeg, queue, y :: ys =>
      match ilook indeg y with
      | some _ =>
          let i2 := decIndeg indeg y
          let q2 := if ilook i2 y = some 0 then y :: queue else queue
          kahnProcess i2 q2 ys
      | none => kahnProcess indeg queue ys

/-- Sum of the positive in-degrees, the potential used for termination. -/
def intSum (indeg : List (String × Int)) : Nat :=
  (indeg.map (fun p => p.2.toNat)).sum

theorem intSum_cons (p : String × Int) (l : List (String × Int)) :
    intSum (p :: l) = p.2.toNat + intSum l := by
  simp [intSum]

theorem decIndeg_cons (p : String × Int) (l : List (String × Int)) (y : String) :
    decIndeg (p :: l) y = (if p.1 == y then (p.1, p.2 - 1) else p) :: decIndeg l y := by
  simp [decIndeg]

theorem ilook_cons (p : String × Int) (l : List (String × Int)) (y : String) :
    ilook (p :: l) y = if p.1 == y then some p.2 else ilook l y := by
  by_cases hk : (p.1 == y) = true
  · simp [ilook, List.find?_cons_of_pos, hk]
  · simp only [Bool.not_eq_true] at hk
    simp [ilook, List.find?_cons_of_neg, hk]

theorem intSum_decIndeg_le (indeg : List (String × Int)) (y : String) :
    intSum (decIndeg indeg y) ≤ intSum indeg := by
  induction indeg with
  | nil => simp [decIndeg, intSum]
  | cons p rest ih =>
      rw [decIndeg_cons, intSum_cons, intSum_cons]
      by_cases hk : (p.1 == y) = true
      · simp only [hk, if_true]
        have : (p.2 - 1).toNat ≤ p.2.toNat := by omega
        omega
      · rw [Bool.not_eq_true] at hk
        simp only [hk, Bool.false_eq_true, if_false]
        omega

theorem intSum_decIndeg_lt (indeg : List (String × Int)) (y : String)
    (h : ilook (decIndeg indeg y) y = some 0) :
    intSum (decIndeg indeg y) < intSum indeg := by
  induction indeg with
  | nil => simp [decIndeg, ilook] at h
  | cons p rest ih =>
      rw [decIndeg_cons] at h ⊢
      rw [intSum_cons, intSum_cons]
      by_cases hk : (p.1 == y) = true
      · rw [ilook_cons] at h
        simp only [hk, if_true] at h ⊢
        have h2 : p.2 - 1 = 0 := by simpa using h
        have hle := intSum_decIndeg_le rest y
        omega
      · rw [Bool.not_eq_true] at hk
        rw [ilook_cons] at h
        simp only [hk, Bool.false_eq_true, if_false] at h ⊢
        have := ih h
        omega

theorem kahnProcess_measure (ys : List String) :
    ∀ indeg queue, (kahnProcess indeg queue ys).2.length + intSum (kahnProcess indeg queue ys).1 ≤
      queue.length + intSum indeg := by
  induction ys with
  | nil => intro indeg queue; simp [kahnProcess]
  | cons y ys ih =>
      intro indeg queue
      rw [kahnProcess]
      cases hl : ilook indeg y with
      | none => simpa using ih indeg queue
      | some v =>
          simp only
          split
          · have h0 : ilook (decIndeg indeg y) y = some 0 := by assumption
            have hlt := intSum_decIndeg_lt indeg y h0
            have := ih (decIndeg indeg y) (y :: queue)
            simp only [List.length_cons] at this ⊢
            omega
          · have hle := intSum_decIndeg_le indeg y
            have := ih (decIndeg indeg y) queue
            omega

/-- The `while queue` loop of `_is_dag`.  The Python list is used as a
stack (`pop()` from the tail, `append` to the tail); it is modelled with
the head as the stack top — the same LIFO discipline, and the loop's
result does not depend on the pop order. -/
def kahnLoop (adj : Adj) : List (String × Int) → List String → Nat → Bool
  | indeg, [], seen => seen == indeg.length
  | indeg, x :: queue, seen =>
      let st := kahnProcess indeg queue (adjGet adj x)
      kahnLoop adj st.1 st.2 (seen + 1)
termination_by indeg queue _ => queue.length + intSum indeg
decreasing_by
  have := kahnProcess_measure (adjGet adj x) indeg queue
  simp only [List.length_cons]
  omega

/-- `_is_dag`: Kahn topological sort; true iff every node of the in-degree
table is eventually removed. -/
def is_dag (adj : Adj) (nodes : List String) : Bool :=
  let indeg := buildIndeg adj nodes
  let queue := (indeg.filter (fun p => p.2 == 0)).map (fun p => p.1)
  kahnLoop adj indeg queue 0

/-- Every id occurring in the adjacency mapping (keys and edge targets);
used only for the termination measure of the DFS below. -/
def allNodes (adj : Adj) : List String :=
  adj.foldr (fun p acc => p.1 :: p.2 ++ acc) []

theorem adjGet_of_not_mem_allNodes (adj : Adj) (x : String)
    (h : x ∉ allNodes adj) : adjGet adj x = [] := by
  induction adj with
  | nil => rfl
  | cons p rest ih =>
      simp only [allNodes, List.foldr_cons, List.mem_cons, List.mem_append] at h
      push_neg at h
      have hx : (p.1 == x) = false := by
        simp only [beq_eq_false_iff_ne, ne_eq]
        intro hh; exact h.1.1 hh.symm
      have hrest : x ∉ allNodes rest := h.2
      have := ih hrest
      simp only [adjGet, List.find?_cons_of_neg, hx] at this ⊢
      rw [List.find?_cons_of_neg _ (by simp [hx])]
      exact this

theorem length_filter_mono {p q : String → Bool} (l : List String)
    (h : ∀ a, p a = true → q a = true) :
    (l.filter p).length ≤ (l.filter q).length := by
  induction l with
  | nil => simp
  | cons a l ih =>
      by_cases hp : p a = true
      · simp [List.filter_cons, hp, h a hp]; omega
      · simp only [List.filter_cons, hp, if_false]
        by_cases hq : q a = true
        · simp [hq]; omega
        · simp [hq, ih]

theorem length_filter_strict {p q : String → Bool} (l : List String)
    (h : ∀ a, p a = true → q a = true) (a : String) (ha : a ∈ l)
    (hqa : q a = true) (hpa : p a = false) :
    (l.filter p).length < (l.filter q).length := by
  induction l with
  | nil => simp at ha
  | cons b l ih =>
      rcases List.mem_cons.mp ha with hb | hb
      · subst hb
        simp only [List.filter_cons, hpa, hqa, if_true, if_false, Bool.false_eq_true]
        have := length_filter_mono l h
        simp; omega
      · by_cases hp : p b = true
        · simp [List.filter_cons, hp, h b hp]
          exact ih hb
        · simp only [List.filter_cons, hp, if_false, Bool.false_eq_true]
          by_cases hq : q b = true
          · simp only [hq, if_true, List.length_cons]
            have := ih hb
            omega
          · simp only [hq, if_false, Bool.false_eq_true]
            exact ih hb

/-- The `while stack` loop of `_reachable`: depth-first traversal from the
stack contents, succeeding when `sink` is visited.  As in `kahnLoop` the
Python tail-stack is modelled with the head as the stack top. -/
def reachLoop (adj : Adj) (sink : String) : List String → List String → Bool
  | [], _ => false
  | x :: stack, seen =>
      if x ∈ seen then reachLoop adj sink stack seen
      else
        let seen2 := x :: seen
        if x = sink then true
        else reachLoop adj sink (adjGet adj x ++ stack) seen2
termination_by stack seen =>
  (((allNodes adj).filter (fun n => decide (¬ n ∈ seen))).length, stack.length)
decreasing_by
  · apply Prod.Lex.right
    simp_arith
  · by_cases hx : x ∈ allNodes adj
    · apply Prod.Lex.left
      apply length_filter_strict _ ?_ x hx ?_ ?_
      · intro a ha
        simp only [decide_eq_true_eq, List.mem_cons, not_or] at ha ⊢
        exact ha.2
      · simpa using ‹¬ x ∈ seen›
      · simp
    · have hempty : adjGet adj x = [] := adjGet_of_not_mem_allNodes adj x hx
      have heq : ((allNodes adj).filter (fun n => decide (¬ n ∈ (x :: seen)))).length =
          ((allNodes adj).filter (fun n => decide (¬ n ∈ seen))).length := by
        apply congrArg
        apply List.filter_congr
        intro a ha
        have hax : a ≠ x := fun hh => hx (hh ▸ ha)
        simp [List.mem_cons, hax]
      rw [heq, hempty]
      apply Prod.Lex.right
      simp_arith

/-- `_reachable`: DFS from `root` following edges, true iff `sink` is
visited. -/
def reachable (adj : Adj) (root sink : String) : Bool :=
  reachLoop adj sink [root] []

/-! ### `_find_nodes_by_type` and the gate chain -/

/-- `_find_nodes_by_type`: the nodes of the certificate whose `type` field
equals the given type (a list comprehension; reading `.get` of a
non-dictionary entry raises, as in the source). -/
def findNodesByType (tcc : JValue) (node_type : String) : Except String (List JValue) := do
  let nodesV ← pyGetD tcc "nodes" (.arr [])
  let nodes ← pyIter nodesV
  nodes.foldlM
    (fun acc n => do
      let t ← pyGet n "type"
      pure (if pyEq t (.str node_type) then acc ++ [n] else acc))
    []

/-- Frozen reason codes (`REASON` in the source). -/
def REASON_CODES : List String :=
  ["schema_invalid", "invalid_tcc_topology", "missing_or_invalid_targetref",
   "outdated_or_missing_constitution_anchor", "outdated_or_missing_energy_anchor",
   "missing_gatevector_coverage", "egl_budget_exceeded", "witness_mismatch"]

/-- `REQ_GATES_MIN` (a Python set literal; its iteration order is
unspecified and every use below is order-insensitive). -/
def REQ_GATES_MIN : List String :=
  ["G_TOPO", "G_TARGETREF", "G_ANCHOR_CONST", "G_ANCHOR_ENERGY", "G_BUDGET"]

/-- `ALLOWED_ACTIONS`. -/
def ALLOWED_ACTIONS : List String := ["FAST", "MID", "HEAVY", "EXTERNAL"]

/-- `action_class in ALLOWED_ACTIONS`: a set-membership test, which hashes
the candidate; lists and dictionaries are unhashable and raise `TypeError`. -/
def pyInActions (v : JValue) : Except String Bool :=
  match v with
  | .arr _ => .error "TypeError: unhashable type: list"
  | .obj _ => .error "TypeError: unhashable type: dict"
  | .str s => .ok (s ∈ ALLOWED_ACTIONS)
  | _ => .ok false

/-- `_basic_schema_ok`: probe the required fields by subscript inside
`try`/`except`; any failure yields `False`. -/
def basic_schema_ok (env : JValue) : Bool :=
  (do
    let _ ← subscr env "proposal_digest"
    let _ ← subscr env "action_class"
    let _ ← subscr env "energy_est_uj"
    let tcc0 ← subscr env "tcc"
    let _ ← subscr env "witness_hash"
    let _ ← subscr tcc0 "root"
    let _ ← subscr tcc0 "receipt"
    let _ ← subscr tcc0 "nodes"
    let _ ← subscr tcc0 "edges"
    pure ()).isSome

/-- `isinstance(v, str) and v` (a non-empty string). -/
def isNonEmptyStr : JValue → Bool
  | .str s => s ≠ ""
  | _ => false

def strVal : JValue → String
  | .str s => s
  | _ => ""

def arrVal : JValue → List JValue
  | .arr xs => xs
  | _ => []

/-- The *passed* set of the gate-coverage stage: one `setAdd` per entry
that is a mapping with a string `gate_id` and `output == 0` (Python `==`,
so `False` also counts as `0`). -/
def gatePassed (gate_outputs : List JValue) : List String :=
  gate_outputs.foldl
    (fun passed it =>
      if isDict it then
        match getT it "gate_id" with
        | .str gid => if pyEq (getT it "output") (.int 0) then setAdd passed gid else passed
        | _ => passed
      else passed)
    []

/-- Python `str(...)` of a list of strings, `['a', 'b']`.  The simple
quoting is exact for the gate-id constants it is applied to (subsets of
`REQ_GATES_MIN`). -/
def pyListRepr (l : List String) : String :=
  "[" ++ String.intercalate ", " (l.map (fun s => "'" ++ s ++ "'")) ++ "]"

/-- Python `str(...)` of a value known to satisfy `isinstance(v, int)`
(an integer or a boolean) — the only values formatted by the f-strings of
the budget stage. -/
def pyStrIntBool : JValue → String
  | .int n => toString n
  | .bool b => if b then "True" else "False"
  | _ => ""

/-- `sorted(...)` on strings (Python sorts strings lexicographically by
code point, as does Lean's `String` order). -/
def sortStrings (l : List String) : List String :=
  l.mergeSort (fun a b => decide (a ≤ b))

/-- `dict(env)` — a shallow copy; raises on a non-dictionary. -/
def pyDictItems : JValue → Except String (List (String × JValue))
  | .obj kvs => .ok kvs
  | _ => .error "TypeError: dict() argument is not a dict"

/-- `d.pop(k, None)`: remove the entry with the given key (the first
occurrence; keys are pairwise distinct for the source's dictionaries). -/
def eraseKey (kvs : List (String × JValue)) (k : String) : List (String × JValue) :=
  kvs.eraseP (fun p => p.1 == k)

def dbgS (stage : String) : JValue := .obj [("stage", .str stage)]

def dbgD (stage det : String) : JValue :=
  .obj [("stage", .str stage), ("detail", .str det)]

/-- `verify`: the ordered, short-circuiting gate chain.  Returns
`(ok, reason_code or "OK", debug_info)`; a raised Python exception is the
`Except.error` case. -/
def verify (env : JValue) (anchors : JValue) : Except String (Bool × String × JValue) := do
  if ¬ basic_schema_ok env then
    return (false, "schema_invalid", dbgS "schema")
  let proposal_digest ← pyGet env "proposal_digest"
  let action_class ← pyGet env "action_class"
  let energy_est_uj ← pyGet env "energy_est_uj"
  let tcc ← pyGet env "tcc"
  let witness_hash ← pyGet env "witness_hash"
  if ¬ isNonEmptyStr proposal_digest then
    return (false, "schema_invalid", dbgD "schema" "invalid proposal_digest")
  let actIn ← pyInActions action_class
  if ¬ actIn then
    return (false, "schema_invalid", dbgD "schema" "invalid action_class")
  if ¬ (isPyInt energy_est_uj && 0 ≤ pyIntVal energy_est_uj) then
    return (false, "schema_invalid", dbgD "schema" "invalid energy_est_uj")
  if ¬ isDict tcc then
    return (false, "schema_invalid", dbgD "schema" "tcc not dict")
  -- 1) Topology Gate
  let st ← buildGraph tcc
  let adj := st.1
  let nodeset := st.2
  let root ← pyGet tcc "root"
  let receipt ← pyGet tcc "receipt"
  if ¬ (isNonEmptyStr root && isNonEmptyStr receipt) then
    return (false, "invalid_tcc_topology", dbgD "topology" "missing root/receipt")
  if ¬ is_dag adj nodeset then
    return (false, "invalid_tcc_topology", dbgD "topology" "not a DAG")
  if ¬ reachable adj (strVal root) (strVal receipt) then
    return (false, "invalid_tcc_topology", dbgD "topology" "receipt not reachable from root")
  -- 2) TargetRef Gate
  let tnodes ← findNodesByType tcc "TargetRef"
  if tnodes.length ≠ 1 then
    return (false, "missing_or_invalid_targetref",
      dbgD "targetref" ("TargetRef count=" ++ toString tnodes.length))
  let tpayload ← pyGetD (tnodes.headD .null) "payload" (.obj [])
  let td ← pyGet tpayload "target_digest"
  if ¬ pyEq td proposal_digest then
    return (false, "missing_or_invalid_targetref",
      dbgD "targetref" "target_digest != proposal_digest")
  -- 3) Two Anchors Gate
  let anodes ← findNodesByType tcc "IntentAnchor"
  if anodes.length ≠ 1 then
    return (false, "schema_invalid",
      dbgD "anchor" ("IntentAnchor count=" ++ toString anodes.length))
  let payloadA ← pyGetD (anodes.headD .null) "payload" (.obj [])
  let hc ← pyGet payloadA "h_constitution"
  let he ← pyGet payloadA "h_energy_policy"
  let anchC ← pyGet anchors "constitution_hash_current"
  if ¬ pyEq hc anchC then
    return (false, "outdated_or_missing_constitution_anchor",
      dbgD "anchor_const" "h_constitution mismatch")
  let anchE ← pyGet anchors "energy_policy_hash_current"
  if ¬ pyEq he anchE then
    return (false, "outdated_or_missing_energy_anchor",
      dbgD "anchor_energy" "h_energy_policy mismatch")
  -- 4) Minimal GateVector Coverage
  let gnodes ← findNodesByType tcc "GateVector"
  if gnodes.length ≠ 1 then
    return (false, "schema_invalid",
      dbgD "gatevector" ("GateVector count=" ++ toString gnodes.length))
  let gpayload ← pyGetD (gnodes.headD .null) "payload" (.obj [])
  let gate_outputs ← pyGetD gpayload "gate_outputs" (.arr [])
  if ¬ isList gate_outputs then
    return (false, "schema_invalid", dbgD "gatevector" "gate_outputs not list")
  let passed := gatePassed (arrVal gate_outputs)
  if ¬ REQ_GATES_MIN.all (fun g => g ∈ passed) then
    let missing := sortStrings (REQ_GATES_MIN.filter (fun g => ¬ g ∈ passed))
    return (false, "missing_gatevector_coverage",
      dbgD "coverage" ("missing=" ++ pyListRepr missing))
  -- 5) Budget Gate (demo)
  let budget_map ← pyGetD anchors "energy_budget_uj" (.obj [])
  let budget ← pyGet budget_map (strVal action_class)
  if ¬ isPyInt budget then
    return (false, "schema_invalid", dbgD "budget" "missing budget")
  if pyIntVal energy_est_uj > pyIntVal budget then
    return (false, "egl_budget_exceeded",
      dbgD "budget" ("est=" ++ pyStrIntBool energy_est_uj ++ " > budget=" ++ pyStrIntBool budget))
  -- 6) Witness Gate
  let envItems ← pyDictItems env
  let env_wo := JValue.obj (eraseKey envItems "witness_hash")
  let expected := compute_witness_hash env_wo
  if ¬ pyEq witness_hash (.str expected) then
    return (false, "witness_mismatch", dbgD "witness" "witness_hash mismatch")
  return (true, "OK", dbgS "ok")

/-! ### Specification-side total counterparts

The claims speak about the envelope's certificate graph, its nodes and its
fields independently of whether the verifier happens to fault first.  The
following total functions compute the same artefacts as the monadic code
wherever that code succeeds (bridging lemmas below), and skip malformed
entries otherwise. -/

/-- Total iteration: the elements the `for` loop would see, `[]` for
non-iterables. -/
def iterT : JValue → List JValue
  | .arr xs => xs
  | .obj kvs => kvs.map (fun p => .str p.1)
  | .str s => s.data.map (fun c => .str (String.singleton c))
  | _ => []

/-- Total `v.get(k, dflt)`. -/
def getTD (v : JValue) (k : String) (dflt : JValue) : JValue :=
  match v with
  | .obj kvs => (alget kvs k).getD dflt
  | _ => dflt

/-- Total `_find_nodes_by_type`. -/
def findNodesT (tcc : JValue) (node_type : String) : List JValue :=
  (iterT (getTD tcc "nodes" (.arr []))).filter (fun n => pyEq (getT n "type") (.str node_type))

def buildNodeStepT (st : Adj × List String) (n : JValue) : Adj × List String :=
  match getT n "id" with
  | .str s => if s ≠ "" then (adjSetdefault st.1 s, setAdd st.2 s) else st
  | _ => st

def buildEdgeStepT (st : Adj × List String) (e : JValue) : Adj × List String :=
  match getT e "from", getT e "to" with
  | .str sa, .str sb =>
      if sa ≠ "" ∧ sb ≠ "" then
        (adjAppend st.1 sa sb, setAdd (setAdd st.2 sa) sb)
      else st
  | _, _ => st

/-- Total `_build_graph`. -/
def buildGraphT (tcc : JValue) : Adj × List String :=
  let st1 := (iterT (getTD tcc "nodes" (.arr []))).foldl buildNodeStepT ([], [])
  let st2 := (iterT (getTD tcc "edges" (.arr []))).foldl buildEdgeStepT st1
  (st2.2.foldl adjSetdefault st2.1, st2.2)

/-- The edge relation of an adjacency mapping. -/
def Edge (adj : Adj) (x y : String) : Prop := y ∈ adjGet adj x

/-- A directed cycle: a nonempty path from some node to itself. -/
def HasCycle (adj : Adj) : Prop := ∃ a, Relation.TransGen (Edge adj) a a

/-! Bridging lemmas: the monadic code equals the total counterpart whenever
it succeeds. -/

theorem exc_bind_ok {α β : Type} (a : α) (f : α → Except String β) :
    ((Except.ok a : Except String α) >>= f) = f a := rfl

theorem exc_bind_error {α β : Type} (e : String) (f : α → Except String β) :
    ((Except.error e : Except String α) >>= f) = .error e := rfl

theorem exc_pure {α : Type} (a : α) : (pure a : Except String α) = .ok a := rfl

theorem pyGet_obj (kvs : List (String × JValue)) (k : String) :
    pyGet (.obj kvs) k = .ok (getT (.obj kvs) k) := rfl

theorem pyGetD_ok {v : JValue} {k : String} {dflt x : JValue}
    (h : pyGetD v k dflt = .ok x) : x = getTD v k dflt := by
  cases v <;> simp [pyGetD, getTD] at h ⊢
  all_goals exact h.symm

theorem pyIter_ok {v : JValue} {l : List JValue} (h : pyIter v = .ok l) :
    l = iterT v := by
  cases v <;> simp [pyIter, iterT] at h ⊢ <;> exact h.symm

theorem buildNodeStep_ok {st st2 : Adj × List String} {n : JValue}
    (h : buildNodeStep st n = .ok st2) : st2 = buildNodeStepT st n := by
  cases n <;>
    simp [buildNodeStep, buildNodeStepT, pyGet, pyGetD, getT, exc_bind_ok, exc_bind_error,
      exc_pure] at h ⊢
  case obj kvs =>
    cases hv : (alget kvs "id").getD .null <;> simp [hv] at h ⊢ <;> try exact h.symm
    case str s =>
      by_cases hs : s = "" <;> simp [hs] at h ⊢ <;> exact h.symm

theorem buildEdgeStep_ok {st st2 : Adj × List String} {e : JValue}
    (h : buildEdgeStep st e = .ok st2) : st2 = buildEdgeStepT st e := by
  cases e <;>
    simp [buildEdgeStep, buildEdgeStepT, pyGet, pyGetD, getT, exc_bind_ok, exc_bind_error,
      exc_pure] at h ⊢
  case obj kvs =>
    cases ha : (alget kvs "from").getD .null <;>
      cases hb : (alget kvs "to").getD .null <;> simp [ha, hb] at h ⊢ <;> try exact h.symm
    case str.str sa sb =>
      by_cases hsa : sa = "" <;> by_cases hsb : sb = "" <;> simp [hsa, hsb] at h ⊢ <;>
        exact h.symm

theorem foldlM_ok {α : Type} {f : α → JValue → Except String α} {g : α → JValue → α}
    (hfg : ∀ a x a2, f a x = .ok a2 → a2 = g a x) :
    ∀ (l : List JValue) (a : α) (r : α), l.foldlM f a = .ok r → r = l.foldl g a := by
  intro l
  induction l with
  | nil =>
      intro a r h
      simp only [List.foldlM_nil, exc_pure, Except.ok.injEq] at h
      simp [h.symm]
  | cons x xs ih =>
      intro a r h
      rw [List.foldlM_cons] at h
      cases hx : f a x with
      | error e => rw [hx] at h; simp [exc_bind_error] at h
      | ok a2 =>
          rw [hx, exc_bind_ok] at h
          have := hfg a x a2 hx
          subst this
          simpa [List.foldl_cons] using ih _ _ h

theorem buildGraph_ok {tcc : JValue} {st : Adj × List String}
    (h : buildGraph tcc = .ok st) : st = buildGraphT tcc := by
  rw [buildGraph] at h
  cases h1 : pyGetD tcc "nodes" (.arr []) with
  | error e => rw [h1] at h; simp [exc_bind_error] at h
  | ok nodesV =>
      rw [h1, exc_bind_ok] at h
      cases h2 : pyIter nodesV with
      | error e => rw [h2] at h; simp [exc_bind_error] at h
      | ok nodes =>
          rw [h2, exc_bind_ok] at h
          cases h3 : nodes.foldlM buildNodeStep (([] : Adj), ([] : List String)) with
          | error e => rw [h3] at h; simp [exc_bind_error] at h
          | ok st1 =>
              rw [h3, exc_bind_ok] at h
              cases h4 : pyGetD tcc "edges" (.arr []) with
              | error e => rw [h4] at h; simp [exc_bind_error] at h
              | ok edgesV =>
                  rw [h4, exc_bind_ok] at h
                  cases h5 : pyIter edgesV with
                  | error e => rw [h5] at h; simp [exc_bind_error] at h
                  | ok edges =>
                      rw [h5, exc_bind_ok] at h
                      cases h6 : edges.foldlM buildEdgeStep st1 with
                      | error e => rw [h6] at h; simp [exc_bind_error] at h
                      | ok st2 =>
                          rw [h6, exc_bind_ok, exc_pure] at h
                          have e1 := pyGetD_ok h1
                          have e2 := pyIter_ok h2
                          have e3 := foldlM_ok (fun a x a2 => buildNodeStep_ok) nodes _ _ h3
                          have e4 := pyGetD_ok h4
                          have e5 := pyIter_ok h5
                          have e6 := foldlM_ok (fun a x a2 => buildEdgeStep_ok) edges _ _ h6
                          subst e1 e2 e4 e5
                          rw [e3] at e6
                          cases h
                          rw [buildGraphT, e6]

theorem findNodesByType_ok {tcc : JValue} {ty : String} {l : List JValue}
    (h : findNodesByType tcc ty = .ok l) : l = findNodesT tcc ty := by
  rw [findNodesByType] at h
  cases h1 : pyGetD tcc "nodes" (.arr []) with
  | error e => rw [h1] at h; simp [exc_bind_error] at h
  | ok nodesV =>
      rw [h1, exc_bind_ok] at h
      cases h2 : pyIter nodesV with
      | error e => rw [h2] at h; simp [exc_bind_error] at h
      | ok nodes =>
          rw [h2, exc_bind_ok] at h
          have e1 := pyGetD_ok h1
          have e2 := pyIter_ok h2
          subst e1 e2
          have hstep : ∀ (acc : List JValue) (n : JValue) (a2 : List JValue),
              (do
                let t ← pyGet n "type"
                pure (if pyEq t (.str ty) then acc ++ [n] else acc)) = .ok a2 →
              a2 = (if pyEq (getT n "type") (.str ty) then acc ++ [n] else acc) := by
            intro acc n a2 hh
            cases n <;> simp [pyGet, pyGetD, getT, exc_bind_ok, exc_bind_error, exc_pure] at hh ⊢
            all_goals exact hh.symm
          have := foldlM_ok hstep _ _ _ h
          rw [this, findNodesT]
          clear h this hstep
          induction iterT (getTD tcc "nodes" (.arr [])) using List.reverseRecOn with
          | nil => simp
          | append_singleton xs x ih =>
              rw [List.foldl_append, List.filter_append, ih]
              by_cases hx : pyEq (getT x "type") (.str ty) = true <;> simp [hx]

/-! ### Correctness of `_reachable`: the DFS visits `sink` iff there is a
path of edges from `root` to `sink`. -/

/-- The visited set is closed: every visited node is not the sink and all
its successors are visited or pending on the stack. -/
def Closed (adj : Adj) (sink : String) (stack seen : List String) : Prop :=
  ∀ s ∈ seen, s ≠ sink ∧ ∀ y ∈ adjGet adj s, y ∈ seen ∨ y ∈ stack

theorem escape_lemma (adj : Adj) (sink : String) (stack seen : List String)
    (hC : Closed adj sink stack seen) (hs : sink ∉ seen) :
    ∀ x, Relation.ReflTransGen (Edge adj) x sink → x ∈ seen →
      ∃ z ∈ stack, z ∉ seen ∧ Relation.ReflTransGen (Edge adj) z sink := by
  intro x hx
  induction hx using Relation.ReflTransGen.head_induction_on with
  | refl => intro hmem; exact absurd hmem hs
  | @head a c h' hsteps ih =>
      intro hmem
      rcases (hC _ hmem).2 _ h' with hcs | hcs
      · exact ih hcs
      · by_cases hcseen : c ∈ seen
        · exact ih hcseen
        · exact ⟨c, hcs, hcseen, hsteps⟩

theorem reachLoop_iff (adj : Adj) (sink : String) :
    ∀ stack seen, Closed adj sink stack seen → sink ∉ seen →
      (reachLoop adj sink stack seen = true ↔
        ∃ x ∈ stack, Relation.ReflTransGen (Edge adj) x sink) := by
  intro stack seen
  induction stack, seen using reachLoop.induct adj sink with
  | case1 seen =>
      intro _ _
      rw [reachLoop]
      simp
  | case2 x stack seen hxseen ih =>
      intro hC hs
      have hC2 : Closed adj sink stack seen := by
        intro s hsm
        refine ⟨(hC s hsm).1, fun y hy => ?_⟩
        rcases (hC s hsm).2 y hy with hys | hys
        · exact Or.inl hys
        · rcases List.mem_cons.mp hys with rfl | hys2
          · exact Or.inl hxseen
          · exact Or.inr hys2
      rw [reachLoop]
      simp only [if_pos hxseen]
      rw [ih hC2 hs]
      constructor
      · rintro ⟨z, hz, hr⟩
        exact ⟨z, List.mem_cons_of_mem _ hz, hr⟩
      · rintro ⟨z, hz, hr⟩
        rcases List.mem_cons.mp hz with rfl | hz2
        · rcases escape_lemma adj sink stack seen hC2 hs z hr hxseen with ⟨w, hw, hwn, hwr⟩
          exact ⟨w, hw, hwr⟩
        · exact ⟨z, hz2, hr⟩
  | case3 stack seen hs0 =>
      intro _ _
      rw [reachLoop]
      simp only [if_neg hs0, if_pos rfl]
      constructor
      · intro _
        exact ⟨sink, List.mem_cons_self _ _, Relation.ReflTransGen.refl⟩
      · intro _
        rfl
  | case4 x stack seen hxs seen2 hxsink ih =>
      intro hC hs
      have hC2 : Closed adj sink (adjGet adj x ++ stack) (x :: seen) := by
        intro s hsm
        rcases List.mem_cons.mp hsm with rfl | hsm2
        · exact ⟨hxsink, fun y hy => Or.inr (List.mem_append_left _ hy)⟩
        · refine ⟨(hC s hsm2).1, fun y hy => ?_⟩
          rcases (hC s hsm2).2 y hy with hys | hys
          · exact Or.inl (List.mem_cons_of_mem _ hys)
          · rcases List.mem_cons.mp hys with rfl | hys2
            · exact Or.inl (List.mem_cons_self _ _)
            · exact Or.inr (List.mem_append_right _ hys2)
      have hs2 : sink ∉ x :: seen := by
        intro hmem
        rcases List.mem_cons.mp hmem with rfl | hmem2
        · exact hxsink rfl
        · exact hs hmem2
      rw [reachLoop]
      simp only [if_neg hxs, if_neg hxsink]
      rw [ih hC2 hs2]
      constructor
      · rintro ⟨z, hz, hr⟩
        rcases List.mem_append.mp hz with hz2 | hz2
        · exact ⟨x, List.mem_cons_self _ _, Relation.ReflTransGen.head hz2 hr⟩
        · exact ⟨z, List.mem_cons_of_mem _ hz2, hr⟩
      · rintro ⟨z, hz, hr⟩
        rcases List.mem_cons.mp hz with rfl | hz2
        · rcases Relation.ReflTransGen.cases_head hr with rfl | ⟨c, hc, hcr⟩
          · exact absurd rfl hxsink
          · exact ⟨c, List.mem_append_left _ hc, hcr⟩
        · exact ⟨z, List.mem_append_right _ hz2, hr⟩

/-- `_reachable` is sound and complete for edge-path reachability. -/
theorem reachable_iff (adj : Adj) (root sink : String) :
    reachable adj root sink = true ↔ Relation.ReflTransGen (Edge adj) root sink := by
  have h := reachLoop_iff adj sink [root] []
    (by intro s hs; simp at hs) (by simp)
  rw [reachable, h]
  simp

/-! ### Correctness of `_is_dag`: Kahn's algorithm removes every node iff
the graph is acyclic.

Generic lemmas about key-based `find?` on association lists. -/

theorem find_key_isSome {β : Type} (l : List (String × β)) (k : String) :
    (l.find? (fun p => p.1 == k)).isSome ↔ k ∈ l.map Prod.fst := by
  rw [List.find?_isSome]
  constructor
  · rintro ⟨p, hp, hpk⟩
    simp only [beq_iff_eq] at hpk
    exact hpk ▸ List.mem_map_of_mem _ hp
  · intro hk
    rcases List.mem_map.mp hk with ⟨p, hp, hpk⟩
    exact ⟨p, hp, by simp [hpk]⟩

theorem find_key_mem {β : Type} {l : List (String × β)} {k : String} {p : String × β}
    (h : l.find? (fun p => p.1 == k) = some p) : p ∈ l ∧ p.1 = k := by
  refine ⟨List.mem_of_find?_eq_some h, ?_⟩
  have := List.find?_some h
  simpa using this

theorem find_key_of_mem_nodup {β : Type} {l : List (String × β)} {k : String} {v : β}
    (hn : (l.map Prod.fst).Nodup) (hm : (k, v) ∈ l) :
    l.find? (fun p => p.1 == k) = some (k, v) := by
  induction l with
  | nil => simp at hm
  | cons q rest ih =>
      rcases List.mem_cons.mp hm with rfl | hm2
      · rw [List.find?_cons_of_pos _ (by simp)]
      · simp only [List.map_cons, List.nodup_cons] at hn
        have hq : (q.1 == k) = false := by
          simp only [beq_eq_false_iff_ne, ne_eq]
          intro hh
          exact hn.1 (hh ▸ List.mem_map_of_mem _ hm2)
        rw [List.find?_cons, hq]
        exact ih hn.2 hm2

theorem ilook_isSome (l : List (String × Int)) (k : String) :
    (ilook l k).isSome ↔ k ∈ l.map Prod.fst := by
  have h : (ilook l k).isSome = (l.find? (fun p => p.1 == k)).isSome := by
    rw [ilook]
    cases l.find? (fun p => p.1 == k) <;> rfl
  rw [h]
  exact find_key_isSome l k

theorem ilook_mem {l : List (String × Int)} {k : String} {v : Int}
    (h : ilook l k = some v) : (k, v) ∈ l := by
  rw [ilook] at h
  cases hf : l.find? (fun p => p.1 == k) with
  | none => rw [hf] at h; exact absurd h (by simp)
  | some p =>
      rw [hf] at h
      have hpv : p.2 = v := by simpa using h
      rcases find_key_mem hf with ⟨hpl, hpk⟩
      have : p = (k, v) := by cases p; simp_all
      exact this ▸ hpl

theorem ilook_of_mem_nodup {l : List (String × Int)} {k : String} {v : Int}
    (hn : (l.map Prod.fst).Nodup) (hm : (k, v) ∈ l) : ilook l k = some v := by
  rw [ilook, find_key_of_mem_nodup hn hm]
  rfl

theorem ilook_append (l1 l2 : List (String × Int)) (k : String) :
    ilook (l1 ++ l2) k = ((ilook l1 k).or (ilook l2 k)) := by
  rw [ilook, ilook, ilook, List.find?_append]
  cases l1.find? (fun p => p.1 == k) <;> simp

/-- `decIndeg` reads/writes through `ilook`. -/
theorem ilook_decIndeg (indeg : List (String × Int)) (y z : String) :
    ilook (decIndeg indeg y) z =
      if z = y then (ilook indeg y).map (fun v => v - 1) else ilook indeg z := by
  induction indeg with
  | nil => by_cases hzy : z = y <;> simp [decIndeg, ilook, hzy]
  | cons p rest ih =>
      rw [decIndeg_cons]
      by_cases hpy : (p.1 == y) = true
      · have hy : p.1 = y := by simpa using hpy
        rw [if_pos hpy, ilook_cons]
        by_cases hpz : (p.1 == z) = true
        · have hz : p.1 = z := by simpa using hpz
          have hzy : z = y := by rw [← hz, hy]
          rw [if_pos hpz, if_pos hzy, ilook_cons, if_pos hpy]
          rfl
        · have hz : ¬ p.1 = z := by simpa using hpz
          have hzy : ¬ z = y := fun hh => hz (by rw [hy, hh])
          rw [if_neg hpz, ih, if_neg hzy, if_neg hzy, ilook_cons, if_neg hpz]
      · rw [if_neg hpy, ilook_cons]
        have hyne : ¬ p.1 = y := by simpa using hpy
        by_cases hpz : (p.1 == z) = true
        · have hz : p.1 = z := by simpa using hpz
          have hzy : ¬ z = y := fun hh => hyne (by rw [hz, hh])
          rw [if_pos hpz, if_neg hzy, ilook_cons, if_pos hpz]
        · rw [if_neg hpz, ih,
            show ilook (p :: rest) y = ilook rest y by rw [ilook_cons, if_neg hpy],
            show ilook (p :: rest) z = ilook rest z by rw [ilook_cons, if_neg hpz]]

theorem keysOf_decIndeg (indeg : List (String × Int)) (y : String) :
    (decIndeg indeg y).map Prod.fst = indeg.map Prod.fst := by
  induction indeg with
  | nil => rfl
  | cons p rest ih =>
      rw [decIndeg_cons]
      simp only [List.map_cons, ih]
      by_cases hpy : (p.1 == y) = true <;> simp [hpy]

theorem kahnProcess_cons_some {indeg : List (String × Int)} {queue : List String}
    {y : String} {ys : List String} {v : Int} (hv : ilook indeg y = some v) :
    kahnProcess indeg queue (y :: ys) =
      kahnProcess (decIndeg indeg y)
        (if ilook (decIndeg indeg y) y = some 0 then y :: queue else queue) ys := by
  rw [kahnProcess, hv]

/-- Full specification of processing one successor list, under the invariant
facts that every processed id is a key and no in-degree can drop below the
number of its remaining occurrences: keys are preserved, each value drops by
the occurrence count, and the queue gains exactly the ids that reach zero. -/
theorem kahnProcess_spec (ys : List String) :
    ∀ (indeg : List (String × Int)) (queue : List String),
      (∀ y ∈ ys, (ilook indeg y).isSome) →
      (∀ y v, ilook indeg y = some v → ((ys.count y : Int) ≤ v)) →
      (∀ z ∈ queue, ilook indeg z = some 0) →
      queue.Nodup →
      ((kahnProcess indeg queue ys).1.map Prod.fst = indeg.map Prod.fst ∧
       (∀ y v, ilook indeg y = some v →
         ilook (kahnProcess indeg queue ys).1 y = some (v - ys.count y)) ∧
       (∀ z, z ∈ (kahnProcess indeg queue ys).2 ↔
         z ∈ queue ∨ ∃ v, ilook indeg z = some v ∧ v = (ys.count z : Int) ∧ 1 ≤ v) ∧
       (kahnProcess indeg queue ys).2.Nodup ∧
       (∀ z ∈ (kahnProcess indeg queue ys).2,
         ilook (kahnProcess indeg queue ys).1 z = some 0)) := by
  induction ys with
  | nil =>
      intro indeg queue hkeys hge hq0 hqn
      rw [kahnProcess]
      refine ⟨rfl, ?_, ?_, hqn, hq0⟩
      · intro y v hv
        simpa [List.count_nil] using hv
      · intro z
        constructor
        · exact fun h => Or.inl h
        · rintro (h | ⟨v, hv, hveq, hvge⟩)
          · exact h
          · exfalso
            rw [List.count_nil] at hveq
            omega
  | cons y ys ih =>
      intro indeg queue hkeys hge hq0 hqn
      have hySome : (ilook indeg y).isSome := hkeys y (List.mem_cons_self _ _)
      rcases Option.isSome_iff_exists.mp hySome with ⟨v, hv⟩
      have hcnty : (y :: ys).count y = ys.count y + 1 := by
        simp [List.count_cons]
      have hcntz : ∀ z, z ≠ y → (y :: ys).count z = ys.count z := by
        intro z hz
        simp [List.count_cons, Ne.symm hz]
      have hvge1 : 1 ≤ v := by
        have := hge y v hv
        rw [hcnty] at this
        push_cast at this
        omega
      have hv2 : ilook (decIndeg indeg y) y = some (v - 1) := by
        rw [ilook_decIndeg, if_pos rfl, hv]
        rfl
      have hunch : ∀ z, z ≠ y → ilook (decIndeg indeg y) z = ilook indeg z := by
        intro z hz
        rw [ilook_decIndeg, if_neg hz]
      have hkeq : (decIndeg indeg y).map Prod.fst = indeg.map Prod.fst :=
        keysOf_decIndeg indeg y
      have hkeys2 : ∀ y2 ∈ ys, (ilook (decIndeg indeg y) y2).isSome := by
        intro y2 hy2
        rw [ilook_isSome, hkeq, ← ilook_isSome]
        exact hkeys y2 (List.mem_cons_of_mem _ hy2)
      rw [kahnProcess_cons_some hv]
      by_cases h0 : ilook (decIndeg indeg y) y = some 0
      · -- the successor reaches in-degree zero and is enqueued
        have hveq1 : v = 1 := by
          rw [hv2] at h0
          have := Option.some.inj h0
          omega
        have hcnt0 : ys.count y = 0 := by
          have := hge y v hv
          rw [hcnty] at this
          push_cast at this
          omega
        have hynq : y ∉ queue := by
          intro hmem
          have := hq0 y hmem
          rw [hv] at this
          have := Option.some.inj this
          omega
        have hge2 : ∀ z w, ilook (decIndeg indeg y) z = some w → ((ys.count z : Int) ≤ w) := by
          intro z w hw
          by_cases hz : z = y
          · subst hz
            rw [hv2] at hw
            have := Option.some.inj hw
            rw [hcnt0]
            omega
          · rw [hunch z hz] at hw
            have := hge z w hw
            rw [hcntz z hz] at this
            exact this
        have hq02 : ∀ z ∈ y :: queue, ilook (decIndeg indeg y) z = some 0 := by
          intro z hz
          rcases List.mem_cons.mp hz with rfl | hz2
          · exact h0
          · have hzy : z ≠ y := fun hh => hynq (hh ▸ hz2)
            rw [hunch z hzy]
            exact hq0 z hz2
        have hqn2 : (y :: queue).Nodup := List.nodup_cons.mpr ⟨hynq, hqn⟩
        rw [if_pos h0]
        obtain ⟨C1, C2, C3, C4, C5⟩ := ih (decIndeg indeg y) (y :: queue) hkeys2 hge2 hq02 hqn2
        refine ⟨by rw [C1, hkeq], ?_, ?_, C4, C5⟩
        · intro z w hw
          by_cases hz : z = y
          · rw [hz] at hw ⊢
            have hwv : w = v := by
              rw [hv] at hw
              exact (Option.some.inj hw).symm
            rw [C2 y (v - 1) hv2, hwv, hcnty]
            congr 1
            push_cast
            ring
          · have := C2 z w ((hunch z hz) ▸ hw)
            rw [this, hcntz z hz]
        · intro z
          rw [C3 z]
          by_cases hz : z = y
          · rw [hz]
            constructor
            · intro _
              refine Or.inr ⟨v, hv, ?_, hvge1⟩
              rw [hcnty, hveq1, hcnt0]
              norm_num
            · intro _
              exact Or.inl (List.mem_cons_self _ _)
          · constructor
            · rintro (hm | ⟨w, hw, hweq, hwge⟩)
              · rcases List.mem_cons.mp hm with rfl | hm2
                · exact absurd rfl hz
                · exact Or.inl hm2
              · rw [hunch z hz] at hw
                refine Or.inr ⟨w, hw, ?_, hwge⟩
                rw [hcntz z hz]
                exact hweq
            · rintro (hm | ⟨w, hw, hweq, hwge⟩)
              · exact Or.inl (List.mem_cons_of_mem _ hm)
              · refine Or.inr ⟨w, ?_, ?_, hwge⟩
                · rw [hunch z hz]
                  exact hw
                · rw [← hcntz z hz]
                  exact hweq
      · -- the successor stays positive
        have hvne1 : v ≠ 1 := by
          intro hh
          apply h0
          rw [hv2, hh]
          norm_num
        have hvge2 : 2 ≤ v := by omega
        have hynq : y ∉ queue := by
          intro hmem
          have := hq0 y hmem
          rw [hv] at this
          have := Option.some.inj this
          omega
        have hge2 : ∀ z w, ilook (decIndeg indeg y) z = some w → ((ys.count z : Int) ≤ w) := by
          intro z w hw
          by_cases hz : z = y
          · subst hz
            rw [hv2] at hw
            have hwv := Option.some.inj hw
            have hgz := hge z v hv
            rw [hcnty] at hgz
            push_cast at hgz
            omega
          · rw [hunch z hz] at hw
            have := hge z w hw
            rw [hcntz z hz] at this
            exact this
        have hq02 : ∀ z ∈ queue, ilook (decIndeg indeg y) z = some 0 := by
          intro z hz2
          have hzy : z ≠ y := fun hh => hynq (hh ▸ hz2)
          rw [hunch z hzy]
          exact hq0 z hz2
        rw [if_neg h0]
        obtain ⟨C1, C2, C3, C4, C5⟩ := ih (decIndeg indeg y) queue hkeys2 hge2 hq02 hqn
        refine ⟨by rw [C1, hkeq], ?_, ?_, C4, C5⟩
        · intro z w hw
          by_cases hz : z = y
          · rw [hz] at hw ⊢
            have hwv : w = v := by
              rw [hv] at hw
              exact (Option.some.inj hw).symm
            rw [C2 y (v - 1) hv2, hwv, hcnty]
            congr 1
            push_cast
            ring
          · have := C2 z w ((hunch z hz) ▸ hw)
            rw [this, hcntz z hz]
        · intro z
          rw [C3 z]
          by_cases hz : z = y
          · rw [hz]
            constructor
            · rintro (hm | ⟨w, hw, hweq, hwge⟩)
              · exact Or.inl hm
              · rw [hv2] at hw
                have hwv := Option.some.inj hw
                refine Or.inr ⟨v, hv, ?_, hvge1⟩
                rw [hcnty]
                push_cast at hweq ⊢
                omega
            · rintro (hm | ⟨w, hw, hweq, hwge⟩)
              · exact Or.inl hm
              · have hwv : w = v := by
                  rw [hv] at hw
                  exact (Option.some.inj hw).symm
                refine Or.inr ⟨v - 1, hv2, ?_, ?_⟩
                · rw [hcnty] at hweq
                  push_cast at hweq ⊢
                  omega
                · omega
          · constructor
            · rintro (hm | ⟨w, hw, hweq, hwge⟩)
              · exact Or.inl hm
              · rw [hunch z hz] at hw
                rw [hcntz z hz]
                exact Or.inr ⟨w, hw, hweq, hwge⟩
            · rintro (hm | ⟨w, hw, hweq, hwge⟩)
              · exact Or.inl hm
              · rw [hcntz z hz] at hweq
                refine Or.inr ⟨w, ?_, hweq, hwge⟩
                rw [hunch z hz]
                exact hw

/-! Characterization of the in-degree table built by `_is_dag`. -/

/-- Total number of edge occurrences targeting `y`. -/
def totCount (adj : Adj) (y : String) : Nat :=
  (adj.map (fun p => p.2.count y)).sum

/-- Edge occurrences targeting `y` from sources not yet popped. -/
def remCount (adj : Adj) (P : List String) (y : String) : Nat :=
  ((adj.filter (fun p => decide (¬ p.1 ∈ P))).map (fun p => p.2.count y)).sum

/-- Add `c` further in-edges to an optional in-degree entry. -/
def addCount (o : Option Int) (c : Nat) : Option Int :=
  match o with
  | some v => some (v + c)
  | none => if 0 < c then some (c : Int) else none

theorem addCount_addCount (o : Option Int) (c1 c2 : Nat) :
    addCount (addCount o c1) c2 = addCount o (c1 + c2) := by
  cases o with
  | some v =>
      simp only [addCount]
      congr 1
      push_cast
      ring
  | none =>
      by_cases h1 : 0 < c1
      · simp only [addCount, if_pos h1, if_pos (by omega : 0 < c1 + c2)]
        all_goals congr 1
      · have hc1 : c1 = 0 := by omega
        subst hc1
        simp [addCount]

theorem ilook_zeroStep (acc : List (String × Int)) (n y : String) :
    ilook (zeroStep acc n) y =
      match ilook acc y with
      | some v => some v
      | none => if y = n then some 0 else none := by
  rw [zeroStep]
  by_cases hp : (acc.find? (fun p => p.1 == n)).isSome
  · rw [if_pos hp]
    cases hl : ilook acc y with
    | some v => rfl
    | none =>
        by_cases hyn : y = n
        · subst hyn
          have h1 : (ilook acc y).isSome := by
            rw [ilook_isSome, ← find_key_isSome]
            exact hp
          rw [hl] at h1
          simp at h1
        · simp [hyn]
  · rw [if_neg hp, ilook_append]
    cases hl : ilook acc y with
    | some v => rfl
    | none =>
        simp only [Option.none_or]
        by_cases hyn : y = n
        · subst hyn
          rw [ilook_cons]
          simp
        · rw [ilook_cons]
          simp only [ilook]
          have : ¬ ((n, (0 : Int)).1 == y) = true := by simpa using fun hh => hyn hh.symm
          simp [this, hyn]

theorem ilook_zeroFold (nodes : List String) :
    ∀ acc y, ilook (nodes.foldl zeroStep acc) y =
      match ilook acc y with
      | some v => some v
      | none => if y ∈ nodes then some 0 else none := by
  induction nodes with
  | nil =>
      intro acc y
      rw [List.foldl_nil]
      cases hl : ilook acc y <;> simp [hl]
  | cons n ns ih =>
      intro acc y
      rw [List.foldl_cons, ih, ilook_zeroStep]
      cases hl : ilook acc y with
      | some v => rfl
      | none =>
          by_cases hyn : y = n
          · simp [hyn]
          · simp [hyn, List.mem_cons]

theorem ilook_mapAdd (m : List (String × Int)) (b y : String) :
    ilook (m.map (fun p => if p.1 == b then (p.1, p.2 + 1) else p)) y =
      if y = b then (ilook m y).map (fun v => v + 1) else ilook m y := by
  induction m with
  | nil => by_cases hyb : y = b <;> simp [ilook, hyb]
  | cons p rest ih =>
      rw [List.map_cons]
      by_cases hpb : (p.1 == b) = true
      · have hb : p.1 = b := by simpa using hpb
        rw [if_pos hpb, ilook_cons]
        by_cases hpy : (p.1 == y) = true
        · have hy : p.1 = y := by simpa using hpy
          have hyb : y = b := by rw [← hy, hb]
          rw [if_pos hpy, if_pos hyb, ilook_cons, if_pos hpy]
          rfl
        · rw [if_neg hpy, ih,
            show ilook (p :: rest) y = ilook rest y by rw [ilook_cons, if_neg hpy]]
      · rw [if_neg hpb, ilook_cons]
        by_cases hpy : (p.1 == y) = true
        · have hy : p.1 = y := by simpa using hpy
          have hyb : ¬ y = b := by
            intro hh
            exact (by simpa using hpb : ¬ p.1 = b) (by rw [hy, hh])
          rw [if_pos hpy, if_neg hyb, ilook_cons, if_pos hpy]
        · rw [if_neg hpy, ih,
            show ilook (p :: rest) y = ilook rest y by rw [ilook_cons, if_neg hpy]]

theorem ilook_incrIndeg (m : List (String × Int)) (b y : String) :
    ilook (incrIndeg m b) y = if y = b then addCount (ilook m y) 1 else ilook m y := by
  rw [incrIndeg]
  by_cases hp : (m.find? (fun p => p.1 == b)).isSome
  · rw [if_pos hp, ilook_mapAdd]
    by_cases hyb : y = b
    · subst hyb
      have h1 : (ilook m y).isSome := by
        rw [ilook_isSome, ← find_key_isSome]
        exact hp
      rcases Option.isSome_iff_exists.mp h1 with ⟨v, hv⟩
      rw [if_pos rfl, if_pos rfl, hv]
      simp [addCount]
    · rw [if_neg hyb, if_neg hyb]
  · rw [if_neg hp, ilook_append]
    by_cases hyb : y = b
    · subst hyb
      have h1 : ¬ (ilook m y).isSome := by
        rw [ilook_isSome, ← find_key_isSome]
        exact hp
      have h2 : ilook m y = none := by
        cases hl : ilook m y
        · rfl
        · rw [hl] at h1; simp at h1
      rw [if_pos rfl, h2]
      simp only [Option.none_or]
      rw [ilook_cons]
      simp [addCount, ilook]
    · rw [if_neg hyb]
      cases hl : ilook m y with
      | some v => simp
      | none =>
          simp only [Option.none_or]
          rw [ilook_cons]
          have : ¬ ((b, (1 : Int)).1 == y) = true := by
            simpa using fun hh => hyb hh.symm
          simp [this, ilook]

theorem ilook_incrFold (bs : List String) :
    ∀ m y, ilook (bs.foldl incrIndeg m) y = addCount (ilook m y) (bs.count y) := by
  induction bs with
  | nil =>
      intro m y
      rw [List.foldl_nil, List.count_nil]
      cases ilook m y <;> simp [addCount]
  | cons b bs ih =>
      intro m y
      rw [List.foldl_cons, ih, ilook_incrIndeg]
      by_cases hyb : y = b
      · rw [if_pos hyb, addCount_addCount]
        congr 1
        subst hyb
        simp [List.count_cons]
        omega
      · rw [if_neg hyb]
        congr 1
        rw [List.count_cons]
        have hby : ¬ (y == b) = true := by simpa using hyb
        have hby2 : ¬ b = y := fun hh => hyb hh.symm
        simp [hby, hby2]

theorem ilook_adjFold (adj : Adj) :
    ∀ m y, ilook (adj.foldl (fun m p => p.2.foldl incrIndeg m) m) y =
      addCount (ilook m y) (totCount adj y) := by
  induction adj with
  | nil =>
      intro m y
      rw [List.foldl_nil]
      cases ilook m y <;> simp [addCount, totCount]
  | cons p rest ih =>
      intro m y
      rw [List.foldl_cons, ih, ilook_incrFold, addCount_addCount]
      congr 1

/-- The value of the finished in-degree table. -/
theorem ilook_buildIndeg (adj : Adj) (nodes : List String) (y : String) :
    ilook (buildIndeg adj nodes) y =
      addCount (if y ∈ nodes then some 0 else none) (totCount adj y) := by
  rw [buildIndeg, ilook_adjFold, ilook_zeroFold]
  congr 1

/-- Pairwise-distinct keys of an adjacency mapping (Python dictionaries
cannot repeat keys; `_build_graph` creates one entry per id). -/
def NodupKeys (adj : Adj) : Prop := (adj.map Prod.fst).Nodup

theorem keysOf_zeroStep (m : List (String × Int)) (n : String) :
    (zeroStep m n).map Prod.fst =
      if (m.find? (fun p => p.1 == n)).isSome then m.map Prod.fst
      else m.map Prod.fst ++ [n] := by
  rw [zeroStep]
  split <;> simp

theorem nodup_keys_zeroStep {m : List (String × Int)} (n : String)
    (h : (m.map Prod.fst).Nodup) : ((zeroStep m n).map Prod.fst).Nodup := by
  rw [keysOf_zeroStep]
  split
  · exact h
  · rename_i hp
    have hn : n ∉ m.map Prod.fst := by
      rw [← find_key_isSome]
      simpa using hp
    simp [List.nodup_append, h, hn]

theorem nodup_keys_zeroFold (nodes : List String) :
    ∀ acc, (acc.map Prod.fst).Nodup → ((nodes.foldl zeroStep acc).map Prod.fst).Nodup := by
  induction nodes with
  | nil => intro acc h; simpa using h
  | cons n ns ih =>
      intro acc h
      rw [List.foldl_cons]
      exact ih _ (nodup_keys_zeroStep n h)

theorem keysOf_incrIndeg (m : List (String × Int)) (b : String) :
    (incrIndeg m b).map Prod.fst =
      if (m.find? (fun p => p.1 == b)).isSome then m.map Prod.fst
      else m.map Prod.fst ++ [b] := by
  rw [incrIndeg]
  split
  · rw [List.map_map]
    apply List.map_congr_left
    intro p _
    by_cases hp : p.1 = b <;> simp [hp]
  · simp

theorem nodup_keys_incrIndeg {m : List (String × Int)} (b : String)
    (h : (m.map Prod.fst).Nodup) : ((incrIndeg m b).map Prod.fst).Nodup := by
  rw [keysOf_incrIndeg]
  split
  · exact h
  · rename_i hp
    have hn : b ∉ m.map Prod.fst := by
      rw [← find_key_isSome]
      simpa using hp
    simp [List.nodup_append, h, hn]

theorem nodup_keys_incrFold (bs : List String) :
    ∀ m, (m.map Prod.fst).Nodup → ((bs.foldl incrIndeg m).map Prod.fst).Nodup := by
  induction bs with
  | nil => intro m h; simpa using h
  | cons b bs ih =>
      intro m h
      rw [List.foldl_cons]
      exact ih _ (nodup_keys_incrIndeg b h)

theorem nodup_keys_buildIndeg (adj : Adj) (nodes : List String) :
    ((buildIndeg adj nodes).map Prod.fst).Nodup := by
  rw [buildIndeg]
  have h0 : ((nodes.foldl zeroStep []).map Prod.fst).Nodup :=
    nodup_keys_zeroFold nodes [] (by simp)
  revert h0
  generalize nodes.foldl zeroStep [] = m0
  intro h0
  induction adj generalizing m0 with
  | nil => simpa using h0
  | cons p rest ih =>
      rw [List.foldl_cons]
      exact ih _ (nodup_keys_incrFold p.2 m0 h0)

theorem remCount_nil_pops (adj : Adj) (y : String) :
    remCount adj [] y = totCount adj y := by
  rw [remCount, totCount]
  congr 1
  apply congrArg
  apply List.filter_eq_self.mpr
  intro p _
  simp

theorem remCount_cons (p : String × List String) (rest : Adj) (P : List String) (y : String) :
    remCount (p :: rest) P y =
      (if p.1 ∈ P then 0 else p.2.count y) + remCount rest P y := by
  rw [remCount, remCount, List.filter_cons]
  by_cases hp : p.1 ∈ P <;> simp [hp]

theorem adjGet_eq_of_mem {adj : Adj} (hnk : NodupKeys adj) {p : String × List String}
    (hp : p ∈ adj) : adjGet adj p.1 = p.2 := by
  rw [adjGet, find_key_of_mem_nodup hnk (show (p.1, p.2) ∈ adj by simpa using hp)]
  rfl

theorem adjGet_of_not_key {adj : Adj} {x : String} (h : x ∉ adj.map Prod.fst) :
    adjGet adj x = [] := by
  rw [adjGet]
  cases hf : adj.find? (fun p => p.1 == x) with
  | none => rfl
  | some p =>
      rcases find_key_mem hf with ⟨hpm, hpk⟩
      exact absurd (hpk ▸ List.mem_map_of_mem _ hpm) h

theorem remCount_congr_notkey (rest : Adj) (P : List String) (x : String) (y : String)
    (hxk : x ∉ rest.map Prod.fst) :
    remCount rest (P ++ [x]) y = remCount rest P y := by
  rw [remCount, remCount]
  congr 1
  apply congrArg
  apply List.filter_congr
  intro q hq
  have hqx : q.1 ≠ x := by
    intro hh
    exact hxk (hh ▸ List.mem_map_of_mem _ hq)
  simp [List.mem_append, hqx]

/-- Popping one more source removes exactly its own occurrences from the
remaining count. -/
theorem remCount_pop (adj : Adj) (hnk : NodupKeys adj) (P : List String) (x : String)
    (hx : x ∉ P) (y : String) :
    remCount adj P y = remCount adj (P ++ [x]) y + (adjGet adj x).count y := by
  induction adj with
  | nil => simp [remCount, adjGet]
  | cons p rest ih =>
      have hnk2 : NodupKeys rest := by
        rw [NodupKeys] at hnk ⊢
        simp only [List.map_cons, List.nodup_cons] at hnk
        exact hnk.2
      have hpkey : p.1 ∉ rest.map Prod.fst := by
        rw [NodupKeys] at hnk
        simp only [List.map_cons, List.nodup_cons] at hnk
        exact hnk.1
      rw [remCount_cons, remCount_cons]
      by_cases hpx : p.1 = x
      · have hget : adjGet (p :: rest) x = p.2 := by
          rw [← hpx]
          exact adjGet_eq_of_mem hnk (List.mem_cons_self _ _)
        have hrest : remCount rest (P ++ [x]) y = remCount rest P y :=
          remCount_congr_notkey rest P x y (hpx ▸ hpkey)
        rw [hget, hrest]
        have hnotp : p.1 ∉ P := hpx ▸ hx
        have hinp : p.1 ∈ P ++ [x] := by simp [hpx]
        rw [if_neg hnotp, if_pos hinp]
        omega
      · have hget : adjGet (p :: rest) x = adjGet rest x := by
          rw [adjGet, adjGet, List.find?_cons,
            show (p.1 == x) = false by simpa using hpx]
        rw [hget]
        by_cases hpP : p.1 ∈ P
        · rw [if_pos hpP, if_pos (List.mem_append_left _ hpP), ih hnk2]
          omega
        · rw [if_neg hpP, if_neg (by simp [List.mem_append, hpx, hpP]), ih hnk2]
          omega

theorem remCount_pos {adj : Adj} {P : List String} {y : String}
    (h : 0 < remCount adj P y) : ∃ p ∈ adj, p.1 ∉ P ∧ 0 < p.2.count y := by
  induction adj with
  | nil => simp [remCount] at h
  | cons p rest ih =>
      rw [remCount_cons] at h
      by_cases hp : p.1 ∈ P
      · rw [if_pos hp] at h
        simp only [Nat.zero_add] at h
        rcases ih h with ⟨q, hq, hq2, hq3⟩
        exact ⟨q, List.mem_cons_of_mem _ hq, hq2, hq3⟩
      · rw [if_neg hp] at h
        by_cases hc : 0 < p.2.count y
        · exact ⟨p, List.mem_cons_self _ _, hp, hc⟩
        · have h2 : 0 < remCount rest P y := by omega
          rcases ih h2 with ⟨q, hq, hq2, hq3⟩
          exact ⟨q, List.mem_cons_of_mem _ hq, hq2, hq3⟩

theorem count_le_remCount (adj : Adj) (hnk : NodupKeys adj) (P : List String) (x : String)
    (hx : x ∉ P) (y : String) : (adjGet adj x).count y ≤ remCount adj P y := by
  rw [remCount_pop adj hnk P x hx y]
  omega

theorem edge_exists_entry {adj : Adj} {x y : String} (h : Edge adj x y) :
    ∃ p ∈ adj, p.1 = x ∧ y ∈ p.2 := by
  rw [Edge, adjGet] at h
  cases hf : adj.find? (fun p => p.1 == x) with
  | none => rw [hf] at h; simp at h
  | some p =>
      rw [hf] at h
      rcases find_key_mem hf with ⟨hm, hk⟩
      exact ⟨p, hm, hk, by simpa using h⟩

theorem edge_target_tot {adj : Adj} {x y : String} (h : Edge adj x y) :
    0 < totCount adj y := by
  rcases edge_exists_entry h with ⟨p, hm, _, hy⟩
  have h1 : 0 < p.2.count y := List.count_pos_iff.mpr hy
  have h2 : p.2.count y ≤ totCount adj y := by
    apply List.single_le_sum (by intro a _; exact Nat.zero_le a)
    exact List.mem_map_of_mem _ hm
  omega

theorem edge_of_count {adj : Adj} (hnk : NodupKeys adj) {p : String × List String}
    (hp : p ∈ adj) {y : String} (hc : 0 < p.2.count y) : Edge adj p.1 y := by
  rw [Edge, adjGet_eq_of_mem hnk hp]
  exact List.count_pos_iff.mp hc

theorem indexOf_lt_of_mem_take {P : List String} (hn : P.Nodup) {x : String} {i : Nat}
    (hx : x ∈ P.take i) : P.indexOf x < i := by
  rcases List.mem_iff_getElem.mp hx with ⟨j, hj, hje⟩
  have hjlen : j < P.length := by
    simp only [List.length_take] at hj
    omega
  have hji : j < i := by
    simp only [List.length_take] at hj
    omega
  rw [List.getElem_take] at hje
  have hidx := List.indexOf_getElem hn j hjlen
  rw [hje] at hidx
  omega

/-- A list that is closed under predecessors and topologically ordered has no
cycle through its members; with all edge endpoints in the list, no cycle at
all. -/
theorem no_cycle_of_order (adj : Adj) (P : List String) (hPn : P.Nodup)
    (htgt : ∀ x y, Edge adj x y → y ∈ P)
    (hord : ∀ (i : Nat) (hi : i < P.length) (x : String),
      Edge adj x (P.get ⟨i, hi⟩) → x ∈ P.take i) :
    ¬ HasCycle adj := by
  have hmono : ∀ x y, Edge adj x y → P.indexOf x < P.indexOf y := by
    intro x y he
    have hy : y ∈ P := htgt x y he
    have hi : P.indexOf y < P.length := List.indexOf_lt_length.mpr hy
    have hget : P.get ⟨P.indexOf y, hi⟩ = y := List.indexOf_get hi
    have hx := hord (P.indexOf y) hi x (by rw [hget]; exact he)
    exact indexOf_lt_of_mem_take hPn hx
  rintro ⟨a, ha⟩
  have hlift : ∀ {u w : String}, Relation.TransGen (Edge adj) u w →
      P.indexOf u < P.indexOf w := by
    intro u w h
    induction h with
    | single h1 => exact hmono _ _ h1
    | tail _ h2 ih => exact lt_trans ih (hmono _ _ h2)
  exact lt_irrefl _ (hlift ha)

/-- A nonempty finite set of nodes in which every node has a predecessor
inside the set contains a cycle. -/
theorem cycle_of_predecessors (adj : Adj) (U : List String) (hne : U ≠ [])
    (hpred : ∀ y ∈ U, ∃ x ∈ U, Edge adj x y) : HasCycle adj := by
  classical
  let S := {y : String // y ∈ U}
  let g : S → S := fun y => ⟨(hpred y.1 y.2).choose, ((hpred y.1 y.2).choose_spec).1⟩
  have hg : ∀ y : S, Edge adj (g y).1 y.1 := fun y => ((hpred y.1 y.2).choose_spec).2
  let y0 : S := ⟨U.head hne, List.head_mem hne⟩
  let f : ℕ → S := fun n => g^[n] y0
  have hf : ∀ n, Edge adj (f (n + 1)).1 (f n).1 := by
    intro n
    have h1 : f (n + 1) = g (f n) := Function.iterate_succ_apply' g n y0
    rw [h1]
    exact hg (f n)
  have hchain : ∀ i d, Relation.TransGen (Edge adj) (f (i + d + 1)).1 (f i).1 := by
    intro i d
    induction d with
    | zero => exact Relation.TransGen.single (hf i)
    | succ d ihd =>
        have heq : i + (d + 1) + 1 = (i + d + 1) + 1 := by ring
        refine Relation.TransGen.head ?_ ihd
        rw [heq]
        exact hf (i + d + 1)
  have hmaps : ∀ i : Fin (U.length + 1), (i ∈ (Finset.univ : Finset (Fin (U.length + 1)))) →
      (f i.1).1 ∈ U.toFinset := by
    intro i _
    rw [List.mem_toFinset]
    exact (f i.1).2
  have hcard : U.toFinset.card < (Finset.univ : Finset (Fin (U.length + 1))).card := by
    rw [Finset.card_univ, Fintype.card_fin]
    exact lt_of_le_of_lt (List.toFinset_card_le U) (Nat.lt_succ_self _)
  obtain ⟨i, _, j, _, hij, hfe⟩ :=
    Finset.exists_ne_map_eq_of_card_lt_of_maps_to hcard hmaps
  have main : ∀ a b : Nat, a < b → (f a).1 = (f b).1 → HasCycle adj := by
    intro a b hab he
    have hb : b = a + (b - a - 1) + 1 := by omega
    have hch := hchain a (b - a - 1)
    rw [← hb] at hch
    rw [← he] at hch
    exact ⟨(f a).1, hch⟩
  rcases lt_or_gt_of_ne (show i.1 ≠ j.1 from fun hh => hij (Fin.ext hh)) with hlt | hlt
  · exact main i.1 j.1 hlt hfe
  · exact main j.1 i.1 hlt hfe.symm

/-- The invariant of the Kahn loop: `P` is the (ordered, duplicate-free)
list of already-popped ids; every table value equals the number of in-edges
from not-yet-popped sources; the queue holds exactly the unpopped ids of
in-degree zero; `P` is topologically sorted. -/
def KahnInv (adj : Adj) (K : List String) (indeg : List (String × Int))
    (queue : List String) (seen : Nat) (P : List String) : Prop :=
  P.Nodup ∧
  seen = P.length ∧
  indeg.map Prod.fst = K ∧
  (∀ x ∈ P, x ∈ K) ∧
  (∀ y v, ilook indeg y = some v → v = (remCount adj P y : Int)) ∧
  (∀ z ∈ queue, ilook indeg z = some 0) ∧
  queue.Nodup ∧
  (∀ z ∈ queue, z ∈ K ∧ z ∉ P) ∧
  (∀ y, y ∈ K → y ∉ P → y ∉ queue → ¬ ilook indeg y = some 0) ∧
  (∀ (i : Nat) (hi : i < P.length) (x : String), Edge adj x (P.get ⟨i, hi⟩) → x ∈ P.take i)

theorem kahnLoop_iff (adj : Adj) (K : List String) (hnk : NodupKeys adj) (hKn : K.Nodup)
    (hKsrc : ∀ p ∈ adj, p.1 ∈ K) (hKtgt : ∀ p ∈ adj, ∀ y ∈ p.2, y ∈ K) :
    ∀ indeg queue seen, (∃ P, KahnInv adj K indeg queue seen P) →
      (kahnLoop adj indeg queue seen = true ↔ ¬ HasCycle adj) := by
  intro indeg queue seen
  induction indeg, queue, seen using kahnLoop.induct adj with
  | case1 indeg seen =>
      rintro ⟨P, hPn, hseen, hkeys, hPK, hval, hq0, hqn, hqm, hzero, hord⟩
      rw [kahnLoop]
      have hlen : indeg.length = K.length := by
        rw [← hkeys]
        simp
      have htgtK : ∀ x y, Edge adj x y → y ∈ K := by
        intro x y he
        rcases edge_exists_entry he with ⟨p, hm, _, hy⟩
        exact hKtgt p hm y hy
      by_cases hfull : ∀ k ∈ K, k ∈ P
      · -- every id was popped: P is a complete topological order
        have hnc : ¬ HasCycle adj := by
          apply no_cycle_of_order adj P hPn
          · intro x y he
            exact hfull y (htgtK x y he)
          · exact hord
        have hcount : P.length = K.length := by
          apply le_antisymm
          · have : P.toFinset.card ≤ K.toFinset.card :=
              Finset.card_le_card (fun k hk => by
                rw [List.mem_toFinset] at hk ⊢
                exact hPK k hk)
            rwa [List.toFinset_card_of_nodup hPn, List.toFinset_card_of_nodup hKn] at this
          · have : K.toFinset.card ≤ P.toFinset.card :=
              Finset.card_le_card (fun k hk => by
                rw [List.mem_toFinset] at hk ⊢
                exact hfull k hk)
            rwa [List.toFinset_card_of_nodup hPn, List.toFinset_card_of_nodup hKn] at this
        have hres : (seen == indeg.length) = true := by
          rw [hseen, hlen, hcount]
          simp
        rw [hres]
        simp [hnc]
      · -- some id was never popped: the leftovers contain a cycle
        push_neg at hfull
        rcases hfull with ⟨k0, hk0K, hk0P⟩
        have hc : HasCycle adj := by
          apply cycle_of_predecessors adj (K.filter (fun k => decide (k ∉ P)))
          · intro hU
            have : k0 ∈ K.filter (fun k => decide (k ∉ P)) := by
              rw [List.mem_filter]
              exact ⟨hk0K, by simpa using hk0P⟩
            rw [hU] at this
            simp at this
          · intro y hy
            rw [List.mem_filter] at hy
            have hyK : y ∈ K := hy.1
            have hyP : y ∉ P := by simpa using hy.2
            have hsome : (ilook indeg y).isSome := by
              rw [ilook_isSome, hkeys]
              exact hyK
            rcases Option.isSome_iff_exists.mp hsome with ⟨v, hv⟩
            have hvne : v ≠ 0 := by
              intro hh
              exact hzero y hyK hyP (by simp) (hh ▸ hv)
            have hrem : 0 < remCount adj P y := by
              have := hval y v hv
              omega
            rcases remCount_pos hrem with ⟨p, hpm, hpP, hpc⟩
            refine ⟨p.1, ?_, edge_of_count hnk hpm hpc⟩
            rw [List.mem_filter]
            exact ⟨hKsrc p hpm, by simpa using hpP⟩
        have hne : seen ≠ indeg.length := by
          intro hh
          apply hk0P
          -- if the counts agreed, `P` would exhaust `K`
          have hcount : P.length = K.length := by rw [← hseen, hh, hlen]
          have hsub : P.toFinset ⊆ K.toFinset := fun k hk => by
            rw [List.mem_toFinset] at hk ⊢
            exact hPK k hk
          have hcard : K.toFinset.card ≤ P.toFinset.card := by
            rw [List.toFinset_card_of_nodup hPn, List.toFinset_card_of_nodup hKn, hcount]
          have := Finset.eq_of_subset_of_card_le hsub hcard
          have hmem : k0 ∈ P.toFinset := by
            rw [this, List.mem_toFinset]
            exact hk0K
          rwa [List.mem_toFinset] at hmem
        have hres : (seen == indeg.length) = false := by
          simpa using hne
        rw [hres]
        constructor
        · intro hh
          cases hh
        · intro hh
          exact absurd hc hh
  | case2 indeg x queue seen st ih =>
      rintro ⟨P, hPn, hseen, hkeys, hPK, hval, hq0, hqn, hqm, hzero, hord⟩
      rw [kahnLoop]
      have hx0 : ilook indeg x = some 0 := hq0 x (List.mem_cons_self _ _)
      have hxK : x ∈ K := (hqm x (List.mem_cons_self _ _)).1
      have hxP : x ∉ P := (hqm x (List.mem_cons_self _ _)).2
      have hxq : x ∉ queue := (List.nodup_cons.mp hqn).1
      have hqn2 : queue.Nodup := (List.nodup_cons.mp hqn).2
      have hremx : remCount adj P x = 0 := by
        have := hval x 0 hx0
        omega
      have houts : ∀ y ∈ adjGet adj x, y ∈ K := by
        intro y hy
        rcases edge_exists_entry (show Edge adj x y from hy) with ⟨p, hm, _, hyp⟩
        exact hKtgt p hm y hyp
      have hkeysP : ∀ y ∈ adjGet adj x, (ilook indeg y).isSome := by
        intro y hy
        rw [ilook_isSome, hkeys]
        exact houts y hy
      have hgeP : ∀ y v, ilook indeg y = some v → (((adjGet adj x).count y : Int) ≤ v) := by
        intro y v hv
        have h1 := hval y v hv
        have h2 := count_le_remCount adj hnk P x hxP y
        omega
      have hq0P : ∀ z ∈ queue, ilook indeg z = some 0 := by
        intro z hz
        exact hq0 z (List.mem_cons_of_mem _ hz)
      obtain ⟨C1, C2, C3, C4, C5⟩ :=
        kahnProcess_spec (adjGet adj x) indeg queue hkeysP hgeP hq0P hqn2
      apply ih
      refine ⟨P ++ [x], ?_, ?_, ?_, ?_, ?_, ?_, ?_, ?_, ?_, ?_⟩
      · simp [List.nodup_append, hPn, hxP]
      · rw [hseen]
        simp
      · rw [C1, hkeys]
      · intro z hz
        rcases List.mem_append.mp hz with hz2 | hz2
        · exact hPK z hz2
        · rw [List.mem_singleton.mp hz2]
          exact hxK
      · intro y v2 hv2
        have hySome : (ilook indeg y).isSome := by
          rw [ilook_isSome, ← C1]
          rw [← ilook_isSome]
          exact Option.isSome_iff_exists.mpr ⟨v2, hv2⟩
        rcases Option.isSome_iff_exists.mp hySome with ⟨v, hv⟩
        have hnew := C2 y v hv
        rw [hnew] at hv2
        have hveq := Option.some.inj hv2
        have hold := hval y v hv
        have hpop := remCount_pop adj hnk P x hxP y
        have hle := count_le_remCount adj hnk P x hxP y
        omega
      · exact C5
      · exact C4
      · intro z hz
        rcases (C3 z).mp hz with hz2 | ⟨v, hv, hveq, hvge⟩
        · have hm := hqm z (List.mem_cons_of_mem _ hz2)
          refine ⟨hm.1, ?_⟩
          intro hmem
          rcases List.mem_append.mp hmem with h3 | h3
          · exact hm.2 h3
          · rw [List.mem_singleton.mp h3] at hz2
            exact hxq hz2
        · have hzK : z ∈ K := by
            rw [← hkeys]
            rw [← ilook_isSome]
            exact Option.isSome_iff_exists.mpr ⟨v, hv⟩
          have hzx : z ≠ x := by
            intro hh
            rw [hh, hx0] at hv
            have := Option.some.inj hv
            omega
          have hzout : z ∈ adjGet adj x := by
            apply List.count_pos_iff.mp
            omega
          have hzP : z ∉ P := by
            intro hmem
            rcases List.mem_iff_getElem.mp hmem with ⟨i, hi, hie⟩
            have hedge : Edge adj x (P.get ⟨i, hi⟩) := by
              rw [List.get_eq_getElem, hie]
              exact hzout
            have := hord i hi x hedge
            exact hxP (List.mem_of_mem_take this)
          refine ⟨hzK, ?_⟩
          intro hmem
          rcases List.mem_append.mp hmem with h3 | h3
          · exact hzP h3
          · exact hzx (List.mem_singleton.mp h3)
      · intro y hyK hyP hyq
        have hyx : y ≠ x := by
          intro hh
          apply hyP
          rw [hh]
          exact List.mem_append_right _ (List.mem_singleton.mpr rfl)
        have hyP0 : y ∉ P := fun hh => hyP (List.mem_append_left _ hh)
        have hyq0 : y ∉ x :: queue := by
          intro hh
          rcases List.mem_cons.mp hh with hh2 | hh2
          · exact hyx hh2
          · -- y would be in the old queue and hence in the new one
            apply hyq
            exact (C3 y).mpr (Or.inl hh2)
        have hold := hzero y hyK hyP0 hyq0
        have hySome : (ilook indeg y).isSome := by
          rw [ilook_isSome, hkeys]
          exact hyK
        rcases Option.isSome_iff_exists.mp hySome with ⟨v, hv⟩
        have hvne : v ≠ 0 := fun hh => hold (hh ▸ hv)
        have hvnn : 0 ≤ v := by
          have := hval y v hv
          omega
        intro hzero2
        have hnew := C2 y v hv
        rw [hnew] at hzero2
        have h4 := Option.some.inj hzero2
        apply hyq
        apply (C3 y).mpr
        refine Or.inr ⟨v, hv, by omega, by omega⟩
      · intro i hi w hedge
        have hilen : i ≤ P.length := by
          simp only [List.length_append, List.length_singleton] at hi
          omega
        rcases Nat.lt_or_ge i P.length with hlt | hge
        · have hget : (P ++ [x]).get ⟨i, hi⟩ = P.get ⟨i, hlt⟩ := by
            rw [List.get_eq_getElem, List.get_eq_getElem, List.getElem_append_left]
          rw [hget] at hedge
          have := hord i hlt w hedge
          rw [List.take_append_of_le_length (by omega)]
          exact this
        · have hieq : i = P.length := by omega
          have hget : (P ++ [x]).get ⟨i, hi⟩ = x := by
            rw [List.get_eq_getElem]
            subst hieq
            simp
          rw [hget] at hedge
          have hwP : w ∈ P := by
            by_contra hwP
            have h1 := count_le_remCount adj hnk P w hwP x
            have h2 : 0 < (adjGet adj w).count x := List.count_pos_iff.mpr hedge
            omega
          rw [hieq, List.take_append_of_le_length (le_refl _), List.take_length]
          exact hwP

/-- Kahn's algorithm as implemented by `_is_dag` is sound and complete:
it returns `true` iff the graph has no directed cycle.  The hypotheses hold
for every graph produced by `_build_graph`: one adjacency entry per id, and
every source id in the node set. -/
theorem is_dag_iff (adj : Adj) (nodes : List String) (hnk : NodupKeys adj)
    (hsrc : ∀ p ∈ adj, p.1 ∈ nodes) :
    is_dag adj nodes = true ↔ ¬ HasCycle adj := by
  have hKn : ((buildIndeg adj nodes).map Prod.fst).Nodup := nodup_keys_buildIndeg adj nodes
  have hKiff : ∀ y, y ∈ (buildIndeg adj nodes).map Prod.fst ↔
      (y ∈ nodes ∨ 0 < totCount adj y) := by
    intro y
    rw [← ilook_isSome (buildIndeg adj nodes) y, ilook_buildIndeg]
    by_cases hyn : y ∈ nodes
    · simp [hyn, addCount]
    · by_cases ht : 0 < totCount adj y <;> simp [hyn, ht, addCount]
  have hKsrc : ∀ p ∈ adj, p.1 ∈ (buildIndeg adj nodes).map Prod.fst := by
    intro p hp
    exact (hKiff p.1).mpr (Or.inl (hsrc p hp))
  have hKtgt : ∀ p ∈ adj, ∀ y ∈ p.2, y ∈ (buildIndeg adj nodes).map Prod.fst := by
    intro p hp y hy
    apply (hKiff y).mpr
    refine Or.inr ?_
    have h1 : 0 < p.2.count y := List.count_pos_iff.mpr hy
    have h2 : p.2.count y ≤ totCount adj y := by
      apply List.single_le_sum (by intro a _; exact Nat.zero_le a)
      exact List.mem_map_of_mem _ hp
    omega
  rw [is_dag]
  apply kahnLoop_iff adj ((buildIndeg adj nodes).map Prod.fst) hnk hKn hKsrc hKtgt
  refine ⟨[], by simp, by simp, rfl, by simp, ?_, ?_, ?_, ?_, ?_, ?_⟩
  · intro y v hv
    rw [remCount_nil_pops]
    rw [ilook_buildIndeg] at hv
    by_cases hyn : y ∈ nodes
    · rw [if_pos hyn] at hv
      simp only [addCount] at hv
      have := Option.some.inj hv
      omega
    · rw [if_neg hyn] at hv
      simp only [addCount] at hv
      split at hv
      · have := Option.some.inj hv
        omega
      · cases hv
  · intro z hz
    rcases List.mem_map.mp hz with ⟨p, hpf, hpz⟩
    rw [List.mem_filter] at hpf
    have hp0 : p.2 = 0 := by simpa using hpf.2
    have : (z, (0 : Int)) ∈ buildIndeg adj nodes := by
      have : p = (z, (0 : Int)) := by
        cases p
        simp only at hpz hp0
        rw [hpz, hp0]
      exact this ▸ hpf.1
    exact ilook_of_mem_nodup hKn this
  · have hsub : ((buildIndeg adj nodes).filter (fun p => p.2 == 0)).map (fun p => p.1)
        = ((buildIndeg adj nodes).filter (fun p => p.2 == 0)).map Prod.fst := rfl
    rw [hsub]
    exact ((List.filter_sublist _).map Prod.fst).nodup hKn
  · intro z hz
    refine ⟨?_, by simp⟩
    rcases List.mem_map.mp hz with ⟨p, hpf, hpz⟩
    rw [List.mem_filter] at hpf
    exact hpz ▸ List.mem_map_of_mem _ hpf.1
  · intro y hyK _ hyq hy0
    apply hyq
    have hmem : (y, (0 : Int)) ∈ buildIndeg adj nodes := ilook_mem hy0
    apply List.mem_map.mpr
    refine ⟨(y, (0 : Int)), ?_, rfl⟩
    rw [List.mem_filter]
    exact ⟨hmem, by simp⟩
  · intro i hi
    simp at hi

/-! `_build_graph` produces one adjacency entry per id, and every adjacency
key is in the node set — the hypotheses of `is_dag_iff`. -/

theorem mem_setAdd {s : List String} {x : String} (y : String) (h : x ∈ s) :
    x ∈ setAdd s y := by
  rw [setAdd]
  split
  · exact h
  · exact List.mem_append_left _ h

theorem mem_setAdd_self (s : List String) (x : String) : x ∈ setAdd s x := by
  rw [setAdd]
  split
  · assumption
  · exact List.mem_append_right _ (by simp)

/-- The invariant carried through graph construction. -/
def GoodGraph (st : Adj × List String) : Prop :=
  NodupKeys st.1 ∧ ∀ p ∈ st.1, p.1 ∈ st.2

theorem adjSetdefault_good {adj : Adj} {ns : List String} {k : String}
    (h1 : NodupKeys adj) (h2 : ∀ p ∈ adj, p.1 ∈ ns) (hk : k ∈ ns) :
    GoodGraph (adjSetdefault adj k, ns) := by
  rw [GoodGraph, adjSetdefault]
  split
  · exact ⟨h1, h2⟩
  · rename_i hp
    have hk2 : k ∉ adj.map Prod.fst := by
      rw [← find_key_isSome]
      simpa using hp
    constructor
    · rw [NodupKeys]
      simp only [List.map_append, List.map_cons, List.map_nil]
      rw [List.nodup_append]
      exact ⟨h1, by simp, by simpa using hk2⟩
    · intro p hp2
      rcases List.mem_append.mp hp2 with h3 | h3
      · exact h2 p h3
      · rw [List.mem_singleton.mp h3]
        exact hk

theorem adjAppend_good {adj : Adj} {ns : List String} {a b : String}
    (h1 : NodupKeys adj) (h2 : ∀ p ∈ adj, p.1 ∈ ns) (ha : a ∈ ns) :
    GoodGraph (adjAppend adj a b, ns) := by
  rw [GoodGraph, adjAppend]
  split
  · have hkeys : (adj.map (fun p => if p.1 == a then (p.1, p.2 ++ [b]) else p)).map Prod.fst
        = adj.map Prod.fst := by
      rw [List.map_map]
      apply List.map_congr_left
      intro p _
      by_cases hp : p.1 = a <;> simp [hp]
    constructor
    · rw [NodupKeys, hkeys]
      exact h1
    · intro p hp
      rcases List.mem_map.mp hp with ⟨q, hq, hqe⟩
      have : p.1 = q.1 := by
        rw [← hqe]
        by_cases hqa : q.1 = a <;> simp [hqa]
      rw [this]
      exact h2 q hq
  · rename_i hp
    have hk2 : a ∉ adj.map Prod.fst := by
      rw [← find_key_isSome]
      simpa using hp
    constructor
    · rw [NodupKeys]
      simp only [List.map_append, List.map_cons, List.map_nil]
      rw [List.nodup_append]
      exact ⟨h1, by simp, by simpa using hk2⟩
    · intro p hp2
      rcases List.mem_append.mp hp2 with h3 | h3
      · exact h2 p h3
      · rw [List.mem_singleton.mp h3]
        exact ha

theorem buildNodeStepT_good (st : Adj × List String) (n : JValue) (h : GoodGraph st) :
    GoodGraph (buildNodeStepT st n) := by
  rw [buildNodeStepT]
  split
  · split
    · exact adjSetdefault_good h.1 (fun p hp => mem_setAdd _ (h.2 p hp)) (mem_setAdd_self _ _)
    · exact h
  · exact h

theorem buildEdgeStepT_good (st : Adj × List String) (e : JValue) (h : GoodGraph st) :
    GoodGraph (buildEdgeStepT st e) := by
  rw [buildEdgeStepT]
  split
  · split
    · exact adjAppend_good h.1 (fun p hp => mem_setAdd _ (mem_setAdd _ (h.2 p hp)))
        (mem_setAdd _ (mem_setAdd_self _ _))
    · exact h
  · exact h

theorem foldl_nodeStepT_good (l : List JValue) :
    ∀ st, GoodGraph st → GoodGraph (l.foldl buildNodeStepT st) := by
  induction l with
  | nil => intro st h; exact h
  | cons x xs ih =>
      intro st h
      rw [List.foldl_cons]
      exact ih _ (buildNodeStepT_good st x h)

theorem foldl_edgeStepT_good (l : List JValue) :
    ∀ st, GoodGraph st → GoodGraph (l.foldl buildEdgeStepT st) := by
  induction l with
  | nil => intro st h; exact h
  | cons x xs ih =>
      intro st h
      rw [List.foldl_cons]
      exact ih _ (buildEdgeStepT_good st x h)

theorem foldl_setdefault_good (l : List String) (ns : List String) (hl : ∀ n ∈ l, n ∈ ns) :
    ∀ adj, NodupKeys adj → (∀ p ∈ adj, p.1 ∈ ns) →
      GoodGraph (l.foldl adjSetdefault adj, ns) := by
  induction l with
  | nil => intro adj h1 h2; exact ⟨h1, h2⟩
  | cons n nsl ih =>
      intro adj h1 h2
      rw [List.foldl_cons]
      have hstep := adjSetdefault_good h1 h2 (hl n (List.mem_cons_self _ _))
      exact ih (fun m hm => hl m (List.mem_cons_of_mem _ hm)) _ hstep.1 hstep.2

theorem buildGraphT_good (tcc : JValue) : GoodGraph (buildGraphT tcc) := by
  rw [buildGraphT]
  have h1 := foldl_nodeStepT_good (iterT (getTD tcc "nodes" (.arr []))) ([], [])
    ⟨by simp [NodupKeys], by simp⟩
  have h2 := foldl_edgeStepT_good (iterT (getTD tcc "edges" (.arr []))) _ h1
  exact foldl_setdefault_good _ _ (fun n hn => hn) _ h2.1 h2.2

/-- Acyclicity of the certificate graph is exactly what `_is_dag` decides on
the output of `_build_graph`. -/
theorem is_dag_buildGraphT (tcc : JValue) :
    is_dag (buildGraphT tcc).1 (buildGraphT tcc).2 = true ↔
      ¬ HasCycle (buildGraphT tcc).1 :=
  is_dag_iff _ _ (buildGraphT_good tcc).1 (buildGraphT_good tcc).2

/-! ### Key-order independence of the canonical serialization

`StructEq a b` says `b` is `a` rebuilt with its dictionaries in possibly
different key insertion orders: scalars are equal, arrays are related
pointwise, and an object's item list is, up to a permutation, pointwise
key-equal with structurally equal values.  `validDict` says every object
inside the value has pairwise distinct keys, as every value produced by
`json.load` or built as a Python `dict` does. -/

mutual

inductive StructEq : JValue → JValue → Prop where
  | null : StructEq .null .null
  | bool (b : Bool) : StructEq (.bool b) (.bool b)
  | int (n : Int) : StructEq (.int n) (.int n)
  | str (s : String) : StructEq (.str s) (.str s)
  | arr : ∀ {xs ys : List JValue}, StructEqList xs ys → StructEq (.arr xs) (.arr ys)
  | obj : ∀ {kvs1 kvs2p kvs2 : List (String × JValue)},
      StructEqKV kvs1 kvs2p → kvs2p.Perm kvs2 → StructEq (.obj kvs1) (.obj kvs2)

inductive StructEqList : List JValue → List JValue → Prop where
  | nil : StructEqList [] []
  | cons : ∀ {x y : JValue} {xs ys : List JValue},
      StructEq x y → StructEqList xs ys → StructEqList (x :: xs) (y :: ys)

inductive StructEqKV : List (String × JValue) →
    List (String × JValue) → Prop where
  | nil : StructEqKV [] []
  | cons : ∀ (k : String) {v w : JValue} {kvs ws : List (String × JValue)},
      StructEq v w → StructEqKV kvs ws → StructEqKV ((k, v) :: kvs) ((k, w) :: ws)

end

mutual

def validDict : JValue → Bool
  | .arr xs => validDictList xs
  | .obj kvs => decide ((kvs.map Prod.fst).Nodup) && validDictKV kvs
  | _ => true
termination_by v => sizeOf v
decreasing_by all_goals simp_arith

def validDictList : List JValue → Bool
  | [] => true
  | x :: xs => validDict x && validDictList xs
termination_by l => sizeOf l
decreasing_by all_goals simp_arith

def validDictKV : List (String × JValue) → Bool
  | [] => true
  | (_, v) :: rest => validDict v && validDictKV rest
termination_by l => sizeOf l
decreasing_by all_goals simp_arith

end

theorem validDictKV_mem {kvs : List (String × JValue)} (h : validDictKV kvs = true)
    {k : String} {v : JValue} (hm : (k, v) ∈ kvs) : validDict v = true := by
  induction kvs with
  | nil => simp at hm
  | cons p rest ih =>
      obtain ⟨k1, v1⟩ := p
      simp only [validDictKV, Bool.and_eq_true] at h
      rcases List.mem_cons.mp hm with heq | hm2
      · cases heq
        exact h.1
      · exact ih h.2 hm2

theorem alget_cons (k1 : String) (v : JValue) (l : List (String × JValue)) (k : String) :
    alget ((k1, v) :: l) k = if k1 = k then some v else alget l k := by
  by_cases h : k1 = k
  · simp [alget, List.find?_cons, h]
  · simp [alget, List.find?_cons, h]

theorem alget_of_mem_nodup {l : List (String × JValue)} {k : String} {v : JValue}
    (hn : (l.map Prod.fst).Nodup) (hm : (k, v) ∈ l) : alget l k = some v := by
  rw [alget, find_key_of_mem_nodup hn hm]

theorem mem_of_alget {l : List (String × JValue)} {k : String} {v : JValue}
    (h : alget l k = some v) : (k, v) ∈ l := by
  rw [alget] at h
  cases hf : l.find? (fun p => p.1 == k) with
  | none => rw [hf] at h; exact absurd h (by simp)
  | some p =>
      rw [hf] at h
      have hpv : p.2 = v := by simpa using h
      rcases find_key_mem hf with ⟨hpl, hpk⟩
      have hp : p = (k, v) := by cases p; simp_all
      exact hp ▸ hpl

theorem alget_isSome (l : List (String × JValue)) (k : String) :
    (alget l k).isSome ↔ k ∈ l.map Prod.fst := by
  have h : (alget l k).isSome = (l.find? (fun p => p.1 == k)).isSome := by
    rw [alget]
    cases l.find? (fun p => p.1 == k) <;> rfl
  rw [h]
  exact find_key_isSome l k

theorem alget_eq_none {l : List (String × JValue)} {k : String}
    (h : k ∉ l.map Prod.fst) : alget l k = none := by
  cases hf : alget l k with
  | none => rfl
  | some v =>
      exact absurd ((alget_isSome l k).mp (by rw [hf]; rfl)) h

/-- With distinct keys, the first-occurrence lookup only depends on the set
of items: it is invariant under permutation. -/
theorem alget_perm {l l' : List (String × JValue)} (hp : l.Perm l')
    (hn : (l.map Prod.fst).Nodup) (k : String) : alget l k = alget l' k := by
  have hn' : (l'.map Prod.fst).Nodup := ((hp.map Prod.fst).nodup_iff).mp hn
  cases ha : alget l k with
  | some v =>
      have hm : (k, v) ∈ l := mem_of_alget ha
      exact (alget_of_mem_nodup hn' (hp.mem_iff.mp hm)).symm
  | none =>
      have hk : k ∉ l.map Prod.fst := by
        intro hmem
        have h2 := (alget_isSome l k).mpr hmem
        rw [ha] at h2
        simp at h2
      have hk' : k ∉ l'.map Prod.fst :=
        fun hmem => hk (((hp.map Prod.fst).mem_iff).mpr hmem)
      exact (alget_eq_none hk').symm

theorem structEqKV_keys : ∀ {l1 l2 : List (String × JValue)}, StructEqKV l1 l2 →
    l1.map Prod.fst = l2.map Prod.fst := by
  intro l1
  induction l1 with
  | nil => intro l2 h; cases h; rfl
  | cons p rest ih =>
      intro l2 h
      cases h with
      | cons k1 hv hrest =>
          simp only [List.map_cons]
          rw [ih hrest]

theorem structEqKV_alget : ∀ {l1 l2 : List (String × JValue)}, StructEqKV l1 l2 →
    ∀ {k : String} {v1 v2 : JValue}, alget l1 k = some v1 → alget l2 k = some v2 →
    StructEq v1 v2 := by
  intro l1
  induction l1 with
  | nil =>
      intro l2 h k v1 v2 h1 h2
      cases h
      simp [alget] at h1
  | cons p rest ih =>
      intro l2 h k v1 v2 h1 h2
      cases h with
      | cons k1 hv hrest =>
          rw [alget_cons] at h1 h2
          by_cases hk : k1 = k
          · rw [if_pos hk] at h1 h2
            cases h1
            cases h2
            exact hv
          · rw [if_neg hk] at h1 h2
            exact ih hrest h1 h2

theorem sortKVs_perm (l : List (String × JValue)) : (sortKVs l).Perm l :=
  List.mergeSort_perm l _

theorem sortKVs_sorted (l : List (String × JValue)) :
    (sortKVs l).Pairwise (fun a b => a.1 ≤ b.1) := by
  have htrans : ∀ a b c : String × JValue, (decide (a.1 ≤ b.1)) = true →
      (decide (b.1 ≤ c.1)) = true → (decide (a.1 ≤ c.1)) = true := by
    intro a b c hab hbc
    simp only [decide_eq_true_eq] at *
    exact le_trans hab hbc
  have htotal : ∀ a b : String × JValue,
      ((decide (a.1 ≤ b.1)) || (decide (b.1 ≤ a.1))) = true := by
    intro a b
    rcases le_total a.1 b.1 with h | h
    · simp [h]
    · simp [h]
  have h := List.sorted_mergeSort htrans htotal l
  exact h.imp (fun hab => by simpa using hab)

theorem sortKVs_keys_sorted (l : List (String × JValue)) :
    List.Sorted (fun a b : String => a ≤ b) ((sortKVs l).map Prod.fst) := by
  have h : ((sortKVs l).map Prod.fst).Pairwise (fun a b : String => a ≤ b) := by
    rw [List.pairwise_map]
    exact sortKVs_sorted l
  exact h

theorem canonicalJsonItems_congr : ∀ (s1 s2 : List (String × JValue)),
    s1.map Prod.fst = s2.map Prod.fst →
    (∀ p1 p2, p1 ∈ s1 → p2 ∈ s2 → p1.1 = p2.1 →
      canonicalJson p1.2 = canonicalJson p2.2) →
    canonicalJsonItems s1 = canonicalJsonItems s2 := by
  intro s1
  induction s1 with
  | nil =>
      intro s2 hk hv
      cases s2 with
      | nil => rfl
      | cons q r => simp at hk
  | cons p rest ih =>
      intro s2 hk hv
      cases s2 with
      | nil => simp at hk
      | cons q rest2 =>
          obtain ⟨k1, v1⟩ := p
          obtain ⟨k2, v2⟩ := q
          simp only [List.map_cons, List.cons.injEq] at hk
          have hval : canonicalJson v1 = canonicalJson v2 :=
            hv (k1, v1) (k2, v2) (List.mem_cons_self _ _) (List.mem_cons_self _ _) hk.1
          simp only [canonicalJsonItems]
          rw [hk.1, hval, ih rest2 hk.2 (fun p1 p2 h1 h2 he =>
            hv p1 p2 (List.mem_cons_of_mem _ h1) (List.mem_cons_of_mem _ h2) he)]

theorem canonicalJsonList_congr : ∀ {xs ys : List JValue}, StructEqList xs ys →
    (∀ x ∈ xs, ∀ y : JValue, StructEq x y → validDict x = true → validDict y = true →
      canonicalJson x = canonicalJson y) →
    validDictList xs = true → validDictList ys = true →
    canonicalJsonList xs = canonicalJsonList ys := by
  intro xs
  induction xs with
  | nil =>
      intro ys h hel hx hy
      cases h
      rfl
  | cons x rest ih =>
      intro ys h hel hx hy
      cases h with
      | @cons x2 y rest2 ys2 hxy hrest =>
          simp only [validDictList, Bool.and_eq_true] at hx hy
          simp only [canonicalJsonList]
          rw [hel x (List.mem_cons_self _ _) y hxy hx.1 hy.1,
            ih hrest (fun x2 h2 y2 hy2 va vb =>
              hel x2 (List.mem_cons_of_mem _ h2) y2 hy2 va vb) hx.2 hy.2]

theorem sizeOf_mem_arr {xs : List JValue} {x : JValue} (h : x ∈ xs) :
    sizeOf x < sizeOf (JValue.arr xs) := by
  have h1 := List.sizeOf_lt_of_mem h
  simp only [JValue.arr.sizeOf_spec]
  omega

theorem sizeOf_val_obj {kvs : List (String × JValue)} {k : String} {v : JValue}
    (h : (k, v) ∈ kvs) : sizeOf v < sizeOf (JValue.obj kvs) := by
  have h1 := List.sizeOf_lt_of_mem h
  simp only [Prod.mk.sizeOf_spec] at h1
  simp only [JValue.obj.sizeOf_spec]
  omega

theorem canonicalJson_structEq_aux : ∀ (N : Nat) (a b : JValue), sizeOf a < N →
    StructEq a b → validDict a = true → validDict b = true →
    canonicalJson a = canonicalJson b := by
  intro N
  induction N with
  | zero => intro a b h; exact absurd h (Nat.not_lt_zero _)
  | succ N ih =>
      intro a b hsz heq hva hvb
      cases heq with
      | null => rfl
      | bool b1 => rfl
      | int n => rfl
      | str s => rfl
      | @arr xs ys hlist =>
          simp only [canonicalJson]
          simp only [validDict] at hva hvb
          have hth : canonicalJsonList xs = canonicalJsonList ys := by
            apply canonicalJsonList_congr hlist _ hva hvb
            intro x hx y hxy hvx hvy
            apply ih x y _ hxy hvx hvy
            have h2 := sizeOf_mem_arr hx
            have h3 : sizeOf (JValue.arr xs) < N + 1 := hsz
            omega
          rw [hth]
      | @obj kvs1 kvs2p kvs2 hkv hperm =>
          simp only [canonicalJson]
          simp only [validDict, Bool.and_eq_true, decide_eq_true_eq] at hva hvb
          obtain ⟨hnd1, hkv1⟩ := hva
          obtain ⟨hnd2, hkv2⟩ := hvb
          have hnd2p : (kvs2p.map Prod.fst).Nodup :=
            ((hperm.map Prod.fst).nodup_iff).mpr hnd2
          have hkeys12p : kvs1.map Prod.fst = kvs2p.map Prod.fst := structEqKV_keys hkv
          have p1 : ((sortKVs kvs1).map Prod.fst).Perm (kvs2p.map Prod.fst) := by
            rw [← hkeys12p]
            exact (sortKVs_perm kvs1).map Prod.fst
          have hkperm : ((sortKVs kvs1).map Prod.fst).Perm
              ((sortKVs kvs2).map Prod.fst) :=
            (p1.trans (hperm.map Prod.fst)).trans
              ((sortKVs_perm kvs2).map Prod.fst).symm
          have hkeys : (sortKVs kvs1).map Prod.fst = (sortKVs kvs2).map Prod.fst :=
            List.eq_of_perm_of_sorted hkperm (sortKVs_keys_sorted kvs1)
              (sortKVs_keys_sorted kvs2)
          have hitems : canonicalJsonItems (sortKVs kvs1) =
              canonicalJsonItems (sortKVs kvs2) := by
            apply canonicalJsonItems_congr _ _ hkeys
            intro q1 q2 hp1 hp2 hpk
            obtain ⟨ka, va⟩ := q1
            obtain ⟨kb, vb⟩ := q2
            simp only at hpk
            have hm1 : (ka, va) ∈ kvs1 := (sortKVs_perm kvs1).subset hp1
            have hm2 : (kb, vb) ∈ kvs2 := (sortKVs_perm kvs2).subset hp2
            have ha1 : alget kvs1 ka = some va := alget_of_mem_nodup hnd1 hm1
            have ha2 : alget kvs2 kb = some vb := alget_of_mem_nodup hnd2 hm2
            have ha2p : alget kvs2p ka = some vb := by
              rw [alget_perm hperm hnd2p ka, hpk]
              exact ha2
            have hse : StructEq va vb := structEqKV_alget hkv ha1 ha2p
            apply ih va vb _ hse (validDictKV_mem hkv1 hm1) (validDictKV_mem hkv2 hm2)
            have h2 := sizeOf_val_obj hm1
            have h3 : sizeOf (JValue.obj kvs1) < N + 1 := hsz
            omega
          rw [hitems]

/-- Structurally equal values with distinct dictionary keys have the same
canonical JSON serialization. -/
theorem canonicalJson_structEq {a b : JValue} (h : StructEq a b)
    (hva : validDict a = true) (hvb : validDict b = true) :
    canonicalJson a = canonicalJson b :=
  canonicalJson_structEq_aux (sizeOf a + 1) a b (Nat.lt_succ_self _) h hva hvb

/-- C5: canonical hashing is key-order-independent: for every two
structurally equal values (`StructEq`: the same value rebuilt with its
dictionaries in possibly different key insertion orders, every dictionary
having distinct keys as Python dictionaries do), the canonical
serialization `_canonical_json_bytes` and therefore `compute_witness_hash`
produce identical results — the output depends only on structure and
content, never on insertion order. -/
theorem c5_hash_key_order_independent (a b : JValue) (h : StructEq a b)
    (hva : validDict a = true) (hvb : validDict b = true) :
    canonicalJsonBytes a = canonicalJsonBytes b ∧
      compute_witness_hash a = compute_witness_hash b := by
  have hc : canonicalJson a = canonicalJson b := canonicalJson_structEq h hva hvb
  exact ⟨by simp only [canonicalJsonBytes, hc],
    by simp only [compute_witness_hash, canonicalJsonBytes, hc]⟩

/-! ### A total mirror of `verify`

`verify` runs in `Except`: any Python fault aborts it.  `verifyT` computes
the same result wherever `verify` returns one (`verify_ok` below), using
the total counterparts of each partial operation; the per-claim theorems
about returned triples are proved against `verifyT` and transported. -/

/-- Total `action_class in ALLOWED_ACTIONS` (the set-membership test of the
schema stage) for the hashable values; the unhashable ones raise in the
source and are excluded by `verify` succeeding. -/
def actInT : JValue → Bool
  | .str s => decide (s ∈ ALLOWED_ACTIONS)
  | _ => false

/-- The items of a dictionary value (`[]` for non-dictionaries). -/
def objItems : JValue → List (String × JValue)
  | .obj kvs => kvs
  | _ => []

theorem getTD_null (v : JValue) (k : String) : getTD v k .null = getT v k := by
  cases v <;> rfl

theorem pyGet_ok {v : JValue} {k : String} {x : JValue}
    (h : pyGet v k = .ok x) : x = getT v k := by
  have h2 := pyGetD_ok h
  rw [h2, getTD_null]

theorem pyInActions_ok {v : JValue} {b : Bool}
    (h : pyInActions v = .ok b) : b = actInT v := by
  cases v <;> simp [pyInActions, actInT] at h ⊢ <;>
    first
    | exact h
    | exact h.symm

theorem pyDictItems_ok {v : JValue} {l : List (String × JValue)}
    (h : pyDictItems v = .ok l) : l = objItems v := by
  cases v <;> simp [pyDictItems, objItems] at h ⊢
  exact h.symm

/-- The total gate chain: branch for branch the chain of `verify`, with the
partial operations replaced by their total counterparts. -/
def verifyT (env anchors : JValue) : Bool × String × JValue :=
  if ¬ basic_schema_ok env then (false, "schema_invalid", dbgS "schema")
  else
  let proposal_digest := getT env "proposal_digest"
  let action_class := getT env "action_class"
  let energy_est_uj := getT env "energy_est_uj"
  let tcc := getT env "tcc"
  let witness_hash := getT env "witness_hash"
  if ¬ isNonEmptyStr proposal_digest then
    (false, "schema_invalid", dbgD "schema" "invalid proposal_digest")
  else if ¬ actInT action_class then
    (false, "schema_invalid", dbgD "schema" "invalid action_class")
  else if ¬ (isPyInt energy_est_uj && 0 ≤ pyIntVal energy_est_uj) then
    (false, "schema_invalid", dbgD "schema" "invalid energy_est_uj")
  else if ¬ isDict tcc then
    (false, "schema_invalid", dbgD "schema" "tcc not dict")
  else
  let adj := (buildGraphT tcc).1
  let nodeset := (buildGraphT tcc).2
  let root := getT tcc "root"
  let receipt := getT tcc "receipt"
  if ¬ (isNonEmptyStr root && isNonEmptyStr receipt) then
    (false, "invalid_tcc_topology", dbgD "topology" "missing root/receipt")
  else if ¬ is_dag adj nodeset then
    (false, "invalid_tcc_topology", dbgD "topology" "not a DAG")
  else if ¬ reachable adj (strVal root) (strVal receipt) then
    (false, "invalid_tcc_topology", dbgD "topology" "receipt not reachable from root")
  else
  let tnodes := findNodesT tcc "TargetRef"
  if tnodes.length ≠ 1 then
    (false, "missing_or_invalid_targetref",
      dbgD "targetref" ("TargetRef count=" ++ toString tnodes.length))
  else
  let td := getT (getTD (tnodes.headD .null) "payload" (.obj [])) "target_digest"
  if ¬ pyEq td proposal_digest then
    (false, "missing_or_invalid_targetref",
      dbgD "targetref" "target_digest != proposal_digest")
  else
  let anodes := findNodesT tcc "IntentAnchor"
  if anodes.length ≠ 1 then
    (false, "schema_invalid",
      dbgD "anchor" ("IntentAnchor count=" ++ toString anodes.length))
  else
  let payloadA := getTD (anodes.headD .null) "payload" (.obj [])
  if ¬ pyEq (getT payloadA "h_constitution") (getT anchors "constitution_hash_current") then
    (false, "outdated_or_missing_constitution_anchor",
      dbgD "anchor_const" "h_constitution mismatch")
  else if ¬ pyEq (getT payloadA "h_energy_policy") (getT anchors "energy_policy_hash_current") then
    (false, "outdated_or_missing_energy_anchor",
      dbgD "anchor_energy" "h_energy_policy mismatch")
  else
  let gnodes := findNodesT tcc "GateVector"
  if gnodes.length ≠ 1 then
    (false, "schema_invalid",
      dbgD "gatevector" ("GateVector count=" ++ toString gnodes.length))
  else
  let gate_outputs := getTD (getTD (gnodes.headD .null) "payload" (.obj [])) "gate_outputs" (.arr [])
  if ¬ isList gate_outputs then
    (false, "schema_invalid", dbgD "gatevector" "gate_outputs not list")
  else
  let passed := gatePassed (arrVal gate_outputs)
  if ¬ REQ_GATES_MIN.all (fun g => g ∈ passed) then
    (false, "missing_gatevector_coverage",
      dbgD "coverage"
        ("missing=" ++ pyListRepr (sortStrings (REQ_GATES_MIN.filter (fun g => ¬ g ∈ passed)))))
  else
  let budget := getT (getTD anchors "energy_budget_uj" (.obj [])) (strVal action_class)
  if ¬ isPyInt budget then
    (false, "schema_invalid", dbgD "budget" "missing budget")
  else if pyIntVal energy_est_uj > pyIntVal budget then
    (false, "egl_budget_exceeded",
      dbgD "budget" ("est=" ++ pyStrIntBool energy_est_uj ++ " > budget=" ++ pyStrIntBool budget))
  else
  if ¬ pyEq witness_hash (.str (compute_witness_hash (.obj (eraseKey (objItems env) "witness_hash")))) then
    (false, "witness_mismatch", dbgD "witness" "witness_hash mismatch")
  else (true, "OK", dbgS "ok")

theorem bind_ok_ex {α β : Type} {x : Except String α} {f : α → Except String β} {r : β}
    (h : (x >>= f) = .ok r) : ∃ a, x = .ok a ∧ f a = .ok r := by
  cases x with
  | error e => rw [exc_bind_error] at h; cases h
  | ok a => exact ⟨a, rfl, by rwa [exc_bind_ok] at h⟩

theorem basic_schema_obj {env : JValue} (h : basic_schema_ok env = true) :
    ∃ kvs, env = .obj kvs := by
  cases env <;>
    first
    | exact ⟨_, rfl⟩
    | simp [basic_schema_ok, subscr] at h

theorem isDict_obj {v : JValue} (h : isDict v = true) : ∃ kvs, v = .obj kvs := by
  cases v <;>
    first
    | exact ⟨_, rfl⟩
    | simp [isDict] at h

theorem pyDictItems_obj (kvs : List (String × JValue)) :
    pyDictItems (.obj kvs) = .ok kvs := rfl

/-- Wherever `verify` returns a triple (no Python fault), that triple is
`verifyT` of the same arguments. -/
theorem verify_ok {env anchors : JValue} {r : Bool × String × JValue}
    (h : verify env anchors = .ok r) : r = verifyT env anchors := by
  simp only [verify] at h
  simp only [exc_pure, exc_bind_ok] at h
  simp only [verifyT]
  by_cases hb : basic_schema_ok env = true
  swap
  · rw [if_pos hb] at h
    rw [if_pos hb]
    simp only [exc_bind_ok, exc_pure, Except.ok.injEq] at h
    exact h.symm
  rw [if_neg (not_not_intro hb)] at h
  rw [if_neg (not_not_intro hb)]
  obtain ⟨kvs, rfl⟩ := basic_schema_obj hb
  simp only [pyGet_obj, exc_bind_ok] at h
  by_cases hc1 : isNonEmptyStr (getT (.obj kvs) "proposal_digest") = true
  swap
  · rw [if_pos hc1] at h
    rw [if_pos hc1]
    simp only [exc_bind_ok, exc_pure, Except.ok.injEq] at h
    exact h.symm
  rw [if_neg (not_not_intro hc1)] at h
  rw [if_neg (not_not_intro hc1)]
  obtain ⟨b0, hact, h⟩ := bind_ok_ex h
  rw [pyInActions_ok hact] at h
  by_cases hc2 : actInT (getT (.obj kvs) "action_class") = true
  swap
  · rw [if_pos hc2] at h
    rw [if_pos hc2]
    simp only [exc_bind_ok, exc_pure, Except.ok.injEq] at h
    exact h.symm
  rw [if_neg (not_not_intro hc2)] at h
  rw [if_neg (not_not_intro hc2)]
  by_cases hc3 : (isPyInt (getT (.obj kvs) "energy_est_uj") &&
      0 ≤ pyIntVal (getT (.obj kvs) "energy_est_uj")) = true
  swap
  · rw [if_pos hc3] at h
    rw [if_pos hc3]
    simp only [exc_bind_ok, exc_pure, Except.ok.injEq] at h
    exact h.symm
  rw [if_neg (not_not_intro hc3)] at h
  rw [if_neg (not_not_intro hc3)]
  by_cases hc4 : isDict (getT (.obj kvs) "tcc") = true
  swap
  · rw [if_pos hc4] at h
    rw [if_pos hc4]
    simp only [exc_bind_ok, exc_pure, Except.ok.injEq] at h
    exact h.symm
  rw [if_neg (not_not_intro hc4)] at h
  rw [if_neg (not_not_intro hc4)]
  obtain ⟨kvs2, htcc⟩ := isDict_obj hc4
  rw [htcc] at h ⊢
  obtain ⟨st, hbg, h⟩ := bind_ok_ex h
  rw [buildGraph_ok hbg] at h
  simp only [pyGet_obj, exc_bind_ok] at h
  by_cases hc5 : (isNonEmptyStr (getT (.obj kvs2) "root") &&
      isNonEmptyStr (getT (.obj kvs2) "receipt")) = true
  swap
  · rw [if_pos hc5] at h
    rw [if_pos hc5]
    simp only [exc_bind_ok, exc_pure, Except.ok.injEq] at h
    exact h.symm
  rw [if_neg (not_not_intro hc5)] at h
  rw [if_neg (not_not_intro hc5)]
  by_cases hc6 : is_dag (buildGraphT (.obj kvs2)).1 (buildGraphT (.obj kvs2)).2 = true
  swap
  · rw [if_pos hc6] at h
    rw [if_pos hc6]
    simp only [exc_bind_ok, exc_pure, Except.ok.injEq] at h
    exact h.symm
  rw [if_neg (not_not_intro hc6)] at h
  rw [if_neg (not_not_intro hc6)]
  by_cases hc7 : reachable (buildGraphT (.obj kvs2)).1 (strVal (getT (.obj kvs2) "root"))
      (strVal (getT (.obj kvs2) "receipt")) = true
  swap
  · rw [if_pos hc7] at h
    rw [if_pos hc7]
    simp only [exc_bind_ok, exc_pure, Except.ok.injEq] at h
    exact h.symm
  rw [if_neg (not_not_intro hc7)] at h
  rw [if_neg (not_not_intro hc7)]
  obtain ⟨tn, htn, h⟩ := bind_ok_ex h
  rw [findNodesByType_ok htn] at h
  by_cases hc8 : (findNodesT (.obj kvs2) "TargetRef").length = 1
  swap
  · rw [if_pos hc8] at h
    rw [if_pos hc8]
    simp only [exc_bind_ok, exc_pure, Except.ok.injEq] at h
    exact h.symm
  rw [if_neg (not_not_intro hc8)] at h
  rw [if_neg (not_not_intro hc8)]
  obtain ⟨tp, htp, h⟩ := bind_ok_ex h
  rw [pyGetD_ok htp] at h
  obtain ⟨td, htd, h⟩ := bind_ok_ex h
  rw [pyGet_ok htd] at h
  by_cases hc9 : pyEq (getT (getTD ((findNodesT (.obj kvs2) "TargetRef").headD .null)
      "payload" (.obj [])) "target_digest") (getT (.obj kvs) "proposal_digest") = true
  swap
  · rw [if_pos hc9] at h
    rw [if_pos hc9]
    simp only [exc_bind_ok, exc_pure, Except.ok.injEq] at h
    exact h.symm
  rw [if_neg (not_not_intro hc9)] at h
  rw [if_neg (not_not_intro hc9)]
  obtain ⟨an, han, h⟩ := bind_ok_ex h
  rw [findNodesByType_ok han] at h
  by_cases hc10 : (findNodesT (.obj kvs2) "IntentAnchor").length = 1
  swap
  · rw [if_pos hc10] at h
    rw [if_pos hc10]
    simp only [exc_bind_ok, exc_pure, Except.ok.injEq] at h
    exact h.symm
  rw [if_neg (not_not_intro hc10)] at h
  rw [if_neg (not_not_intro hc10)]
  obtain ⟨pa, hpa, h⟩ := bind_ok_ex h
  rw [pyGetD_ok hpa] at h
  obtain ⟨hcv, hhc, h⟩ := bind_ok_ex h
  rw [pyGet_ok hhc] at h
  obtain ⟨hev, hhe, h⟩ := bind_ok_ex h
  rw [pyGet_ok hhe] at h
  obtain ⟨acv, hac, h⟩ := bind_ok_ex h
  rw [pyGet_ok hac] at h
  by_cases hc11 : pyEq (getT (getTD ((findNodesT (.obj kvs2) "IntentAnchor").headD .null)
      "payload" (.obj [])) "h_constitution") (getT anchors "constitution_hash_current") = true
  swap
  · rw [if_pos hc11] at h
    rw [if_pos hc11]
    simp only [exc_bind_ok, exc_pure, Except.ok.injEq] at h
    exact h.symm
  rw [if_neg (not_not_intro hc11)] at h
  rw [if_neg (not_not_intro hc11)]
  obtain ⟨aev, hae, h⟩ := bind_ok_ex h
  rw [pyGet_ok hae] at h
  by_cases hc12 : pyEq (getT (getTD ((findNodesT (.obj kvs2) "IntentAnchor").headD .null)
      "payload" (.obj [])) "h_energy_policy") (getT anchors "energy_policy_hash_current") = true
  swap
  · rw [if_pos hc12] at h
    rw [if_pos hc12]
    simp only [exc_bind_ok, exc_pure, Except.ok.injEq] at h
    exact h.symm
  rw [if_neg (not_not_intro hc12)] at h
  rw [if_neg (not_not_intro hc12)]
  obtain ⟨gn, hgn, h⟩ := bind_ok_ex h
  rw [findNodesByType_ok hgn] at h
  by_cases hc13 : (findNodesT (.obj kvs2) "GateVector").length = 1
  swap
  · rw [if_pos hc13] at h
    rw [if_pos hc13]
    simp only [exc_bind_ok, exc_pure, Except.ok.injEq] at h
    exact h.symm
  rw [if_neg (not_not_intro hc13)] at h
  rw [if_neg (not_not_intro hc13)]
  obtain ⟨gp, hgp, h⟩ := bind_ok_ex h
  rw [pyGetD_ok hgp] at h
  obtain ⟨go, hgo, h⟩ := bind_ok_ex h
  rw [pyGetD_ok hgo] at h
  by_cases hc14 : isList (getTD (getTD ((findNodesT (.obj kvs2) "GateVector").headD .null)
      "payload" (.obj [])) "gate_outputs" (.arr [])) = true
  swap
  · rw [if_pos hc14] at h
    rw [if_pos hc14]
    simp only [exc_bind_ok, exc_pure, Except.ok.injEq] at h
    exact h.symm
  rw [if_neg (not_not_intro hc14)] at h
  rw [if_neg (not_not_intro hc14)]
  by_cases hc15 : REQ_GATES_MIN.all (fun g => g ∈ gatePassed (arrVal
      (getTD (getTD ((findNodesT (.obj kvs2) "GateVector").headD .null)
        "payload" (.obj [])) "gate_outputs" (.arr [])))) = true
  swap
  · rw [if_pos hc15] at h
    rw [if_pos hc15]
    simp only [exc_bind_ok, exc_pure, Except.ok.injEq] at h
    exact h.symm
  rw [if_neg (not_not_intro hc15)] at h
  rw [if_neg (not_not_intro hc15)]
  obtain ⟨bm, hbm, h⟩ := bind_ok_ex h
  rw [pyGetD_ok hbm] at h
  obtain ⟨bv, hbv, h⟩ := bind_ok_ex h
  rw [pyGet_ok hbv] at h
  by_cases hc16 : isPyInt (getT (getTD anchors "energy_budget_uj" (.obj []))
      (strVal (getT (.obj kvs) "action_class"))) = true
  swap
  · rw [if_pos hc16] at h
    rw [if_pos hc16]
    simp only [exc_bind_ok, exc_pure, Except.ok.injEq] at h
    exact h.symm
  rw [if_neg (not_not_intro hc16)] at h
  rw [if_neg (not_not_intro hc16)]
  by_cases hc17 : pyIntVal (getT (.obj kvs) "energy_est_uj") >
      pyIntVal (getT (getTD anchors "energy_budget_uj" (.obj []))
        (strVal (getT (.obj kvs) "action_class")))
  · rw [if_pos hc17] at h
    rw [if_pos hc17]
    simp only [exc_bind_ok, exc_pure, Except.ok.injEq] at h
    exact h.symm
  rw [if_neg hc17] at h
  rw [if_neg hc17]
  simp only [pyDictItems_obj, exc_bind_ok, objItems] at h ⊢
  by_cases hc18 : pyEq (getT (.obj kvs) "witness_hash")
      (.str (compute_witness_hash (.obj (eraseKey kvs "witness_hash")))) = true
  swap
  · rw [if_pos hc18] at h
    rw [if_pos hc18]
    simp only [exc_bind_ok, exc_pure, Except.ok.injEq] at h
    exact h.symm
  rw [if_neg (not_not_intro hc18)] at h
  rw [if_neg (not_not_intro hc18)]
  simp only [exc_bind_ok, exc_pure, Except.ok.injEq] at h
  exact h.symm

/-! ### The spec's invariants, and the admit characterization -/

/-- The schema stage: the basic key probe and the four typed checks that
precede the topology gate. -/
def SchemaStagePass (env : JValue) : Prop :=
  basic_schema_ok env = true ∧
  isNonEmptyStr (getT env "proposal_digest") = true ∧
  actInT (getT env "action_class") = true ∧
  (isPyInt (getT env "energy_est_uj") && 0 ≤ pyIntVal (getT env "energy_est_uj")) = true ∧
  isDict (getT env "tcc") = true

/-- The `target_digest` carried by the first `TargetRef` node's payload. -/
def targetDigestOf (env : JValue) : JValue :=
  getT (getTD ((findNodesT (getT env "tcc") "TargetRef").headD .null)
    "payload" (.obj [])) "target_digest"

/-- The payload of the first `IntentAnchor` node. -/
def payloadAOf (env : JValue) : JValue :=
  getTD ((findNodesT (getT env "tcc") "IntentAnchor").headD .null) "payload" (.obj [])

/-- The `gate_outputs` carried by the first `GateVector` node's payload. -/
def gateOutputsOf (env : JValue) : JValue :=
  getTD (getTD ((findNodesT (getT env "tcc") "GateVector").headD .null)
    "payload" (.obj [])) "gate_outputs" (.arr [])

/-- The stated invariants of the specification, over the envelope's
artefacts: schema, acyclicity, root-to-receipt reachability, uniqueness of
the three distinguished nodes, digest and anchor agreement, required-gate
coverage, budget, and witness integrity. -/
def Invariants (env anchors : JValue) : Prop :=
  SchemaStagePass env ∧
  (isNonEmptyStr (getT (getT env "tcc") "root") &&
    isNonEmptyStr (getT (getT env "tcc") "receipt")) = true ∧
  ¬ HasCycle (buildGraphT (getT env "tcc")).1 ∧
  Relation.ReflTransGen (Edge (buildGraphT (getT env "tcc")).1)
    (strVal (getT (getT env "tcc") "root")) (strVal (getT (getT env "tcc") "receipt")) ∧
  (findNodesT (getT env "tcc") "TargetRef").length = 1 ∧
  pyEq (targetDigestOf env) (getT env "proposal_digest") = true ∧
  (findNodesT (getT env "tcc") "IntentAnchor").length = 1 ∧
  pyEq (getT (payloadAOf env) "h_constitution") (getT anchors "constitution_hash_current") = true ∧
  pyEq (getT (payloadAOf env) "h_energy_policy") (getT anchors "energy_policy_hash_current") = true ∧
  (findNodesT (getT env "tcc") "GateVector").length = 1 ∧
  isList (gateOutputsOf env) = true ∧
  (∀ g ∈ REQ_GATES_MIN, g ∈ gatePassed (arrVal (gateOutputsOf env))) ∧
  isPyInt (getT (getTD anchors "energy_budget_uj" (.obj []))
    (strVal (getT env "action_class"))) = true ∧
  pyIntVal (getT env "energy_est_uj") ≤
    pyIntVal (getT (getTD anchors "energy_budget_uj" (.obj []))
      (strVal (getT env "action_class"))) ∧
  pyEq (getT env "witness_hash")
    (.str (compute_witness_hash (.obj (eraseKey (objItems env) "witness_hash")))) = true

/-- `verifyT` admits exactly the envelopes satisfying the invariants. -/
theorem verifyT_admit_iff (env anchors : JValue) :
    verifyT env anchors = (true, "OK", dbgS "ok") ↔ Invariants env anchors := by
  simp only [verifyT, Invariants, SchemaStagePass, payloadAOf, targetDigestOf, gateOutputsOf]
  by_cases hb : basic_schema_ok env = true
  swap
  · rw [if_pos hb]
    refine iff_of_false (by simp) ?_
    rintro ⟨⟨h1, -⟩, -⟩
    exact hb h1
  rw [if_neg (not_not_intro hb)]
  by_cases hc1 : isNonEmptyStr (getT env "proposal_digest") = true
  swap
  · rw [if_pos hc1]
    refine iff_of_false (by simp) ?_
    rintro ⟨⟨-, h2, -⟩, -⟩
    exact hc1 h2
  rw [if_neg (not_not_intro hc1)]
  by_cases hc2 : actInT (getT env "action_class") = true
  swap
  · rw [if_pos hc2]
    refine iff_of_false (by simp) ?_
    rintro ⟨⟨-, -, h3, -⟩, -⟩
    exact hc2 h3
  rw [if_neg (not_not_intro hc2)]
  by_cases hc3 : (isPyInt (getT env "energy_est_uj") &&
      0 ≤ pyIntVal (getT env "energy_est_uj")) = true
  swap
  · rw [if_pos hc3]
    refine iff_of_false (by simp) ?_
    rintro ⟨⟨-, -, -, h4, -⟩, -⟩
    exact hc3 h4
  rw [if_neg (not_not_intro hc3)]
  by_cases hc4 : isDict (getT env "tcc") = true
  swap
  · rw [if_pos hc4]
    refine iff_of_false (by simp) ?_
    rintro ⟨⟨-, -, -, -, h5⟩, -⟩
    exact hc4 h5
  rw [if_neg (not_not_intro hc4)]
  by_cases hc5 : (isNonEmptyStr (getT (getT env "tcc") "root") &&
      isNonEmptyStr (getT (getT env "tcc") "receipt")) = true
  swap
  · rw [if_pos hc5]
    refine iff_of_false (by simp) ?_
    rintro ⟨-, h6, -⟩
    exact hc5 h6
  rw [if_neg (not_not_intro hc5)]
  by_cases hc6 : is_dag (buildGraphT (getT env "tcc")).1 (buildGraphT (getT env "tcc")).2 = true
  swap
  · rw [if_pos hc6]
    refine iff_of_false (by simp) ?_
    rintro ⟨-, -, h7, -⟩
    exact hc6 ((is_dag_buildGraphT (getT env "tcc")).mpr h7)
  rw [if_neg (not_not_intro hc6)]
  by_cases hc7 : reachable (buildGraphT (getT env "tcc")).1
      (strVal (getT (getT env "tcc") "root")) (strVal (getT (getT env "tcc") "receipt")) = true
  swap
  · rw [if_pos hc7]
    refine iff_of_false (by simp) ?_
    rintro ⟨-, -, -, h8, -⟩
    exact hc7 ((reachable_iff _ _ _).mpr h8)
  rw [if_neg (not_not_intro hc7)]
  by_cases hc8 : (findNodesT (getT env "tcc") "TargetRef").length = 1
  swap
  · rw [if_pos hc8]
    refine iff_of_false (by simp) ?_
    rintro ⟨-, -, -, -, h9, -⟩
    exact hc8 h9
  rw [if_neg (not_not_intro hc8)]
  by_cases hc9 : pyEq (getT (getTD ((findNodesT (getT env "tcc") "TargetRef").headD .null)
      "payload" (.obj [])) "target_digest") (getT env "proposal_digest") = true
  swap
  · rw [if_pos hc9]
    refine iff_of_false (by simp) ?_
    rintro ⟨-, -, -, -, -, h10, -⟩
    exact hc9 h10
  rw [if_neg (not_not_intro hc9)]
  by_cases hc10 : (findNodesT (getT env "tcc") "IntentAnchor").length = 1
  swap
  · rw [if_pos hc10]
    refine iff_of_false (by simp) ?_
    rintro ⟨-, -, -, -, -, -, h11, -⟩
    exact hc10 h11
  rw [if_neg (not_not_intro hc10)]
  by_cases hc11 : pyEq (getT (getTD ((findNodesT (getT env "tcc") "IntentAnchor").headD .null)
      "payload" (.obj [])) "h_constitution") (getT anchors "constitution_hash_current") = true
  swap
  · rw [if_pos hc11]
    refine iff_of_false (by simp) ?_
    rintro ⟨-, -, -, -, -, -, -, h12, -⟩
    exact hc11 h12
  rw [if_neg (not_not_intro hc11)]
  by_cases hc12 : pyEq (getT (getTD ((findNodesT (getT env "tcc") "IntentAnchor").headD .null)
      "payload" (.obj [])) "h_energy_policy") (getT anchors "energy_policy_hash_current") = true
  swap
  · rw [if_pos hc12]
    refine iff_of_false (by simp) ?_
    rintro ⟨-, -, -, -, -, -, -, -, h13, -⟩
    exact hc12 h13
  rw [if_neg (not_not_intro hc12)]
  by_cases hc13 : (findNodesT (getT env "tcc") "GateVector").length = 1
  swap
  · rw [if_pos hc13]
    refine iff_of_false (by simp) ?_
    rintro ⟨-, -, -, -, -, -, -, -, -, h14, -⟩
    exact hc13 h14
  rw [if_neg (not_not_intro hc13)]
  by_cases hc14 : isList (getTD (getTD ((findNodesT (getT env "tcc") "GateVector").headD .null)
      "payload" (.obj [])) "gate_outputs" (.arr [])) = true
  swap
  · rw [if_pos hc14]
    refine iff_of_false (by simp) ?_
    rintro ⟨-, -, -, -, -, -, -, -, -, -, h15, -⟩
    exact hc14 h15
  rw [if_neg (not_not_intro hc14)]
  by_cases hc15 : REQ_GATES_MIN.all (fun g => g ∈ gatePassed (arrVal
      (getTD (getTD ((findNodesT (getT env "tcc") "GateVector").headD .null)
        "payload" (.obj [])) "gate_outputs" (.arr [])))) = true
  swap
  · rw [if_pos hc15]
    refine iff_of_false (by simp) ?_
    rintro ⟨-, -, -, -, -, -, -, -, -, -, -, h16, -⟩
    exact hc15 (List.all_eq_true.mpr (fun g hg => by simpa using h16 g hg))
  rw [if_neg (not_not_intro hc15)]
  by_cases hc16 : isPyInt (getT (getTD anchors "energy_budget_uj" (.obj []))
      (strVal (getT env "action_class"))) = true
  swap
  · rw [if_pos hc16]
    refine iff_of_false (by simp) ?_
    rintro ⟨-, -, -, -, -, -, -, -, -, -, -, -, h17, -⟩
    exact hc16 h17
  rw [if_neg (not_not_intro hc16)]
  by_cases hc17 : pyIntVal (getT env "energy_est_uj") >
      pyIntVal (getT (getTD anchors "energy_budget_uj" (.obj []))
        (strVal (getT env "action_class")))
  · rw [if_pos hc17]
    refine iff_of_false (by simp) ?_
    rintro ⟨-, -, -, -, -, -, -, -, -, -, -, -, -, h18, -⟩
    exact absurd h18 (not_le.mpr hc17)
  rw [if_neg hc17]
  by_cases hc18 : pyEq (getT env "witness_hash")
      (.str (compute_witness_hash (.obj (eraseKey (objItems env) "witness_hash")))) = true
  swap
  · rw [if_pos hc18]
    refine iff_of_false (by simp) ?_
    rintro ⟨-, -, -, -, -, -, -, -, -, -, -, -, -, -, h19⟩
    exact hc18 h19
  rw [if_neg (not_not_intro hc18)]
  refine iff_of_true rfl ?_
  refine ⟨⟨hb, hc1, hc2, hc3, hc4⟩, hc5,
    (is_dag_buildGraphT (getT env "tcc")).mp hc6,
    (reachable_iff _ _ _).mp hc7, hc8, hc9, hc10, hc11, hc12, hc13, hc14,
    fun g hg => by simpa using List.all_eq_true.mp hc15 g hg,
    hc16, not_lt.mp hc17, hc18⟩

/-! ### Ground-evaluation lemmas for `pyEq`, and simple graph facts -/

theorem pyEq_str_str (a b : String) : pyEq (.str a) (.str b) = (a == b) := by
  simp [pyEq]

theorem pyEq_null_str (s : String) : pyEq .null (.str s) = false := by
  simp [pyEq]

theorem pyEq_int_int (m n : Int) : pyEq (.int m) (.int n) = (m == n) := by
  simp [pyEq]

theorem pyEq_null_null : pyEq .null .null = true := by
  simp [pyEq]

theorem adjGet_nil_of_all_nil {adj : Adj} (h : ∀ p ∈ adj, p.2 = []) (x : String) :
    adjGet adj x = [] := by
  rw [adjGet]
  cases hf : adj.find? (fun p => p.1 == x) with
  | none => rfl
  | some p => simpa using h p (List.mem_of_find?_eq_some hf)

/-- A graph all of whose adjacency lists are empty has no cycle. -/
theorem no_cycle_of_no_edges {adj : Adj} (h : ∀ p ∈ adj, p.2 = []) : ¬ HasCycle adj := by
  rintro ⟨a, hT⟩
  cases hT with
  | single he => rw [Edge, adjGet_nil_of_all_nil h] at he; simp at he
  | tail hT2 he => rw [Edge, adjGet_nil_of_all_nil h] at he; simp at he

/-! ### C1: admit iff the invariants hold -/

/-- C1 (amended to the envelopes on which `verify` returns rather than
raises): `verify` returns the admit triple `(True, "OK", dbg)` exactly when
the envelope passes the schema checks and all stated invariants hold —
acyclic certificate graph, receipt reachable from root, unique
TargetRef/IntentAnchor/GateVector, target digest equal to the proposal
digest, anchor hashes equal to the current anchors, required gates covered,
budget respected, and witness hash equal to the canonical hash of the
envelope without `witness_hash`. -/
theorem c1_admit_iff_invariants (env anchors : JValue) (r : Bool × String × JValue)
    (h : verify env anchors = .ok r) :
    r = (true, "OK", dbgS "ok") ↔ Invariants env anchors := by
  rw [verify_ok h]
  exact verifyT_admit_iff env anchors

/-- Witness for C1: the empty envelope is rejected at the schema stage and
satisfies no invariants. -/
theorem c1_admit_iff_invariants_witness :
    verify (.obj []) (.obj []) = .ok (false, "schema_invalid", dbgS "schema") ∧
    ¬ Invariants (.obj []) (.obj []) := by
  refine ⟨rfl, fun hinv => ?_⟩
  have h := (c1_admit_iff_invariants (.obj []) (.obj [])
    (false, "schema_invalid", dbgS "schema") rfl).mpr hinv
  simp at h

/-- The TargetRef node of the C1 counterexample envelope. -/
def c1tNode : JValue := .obj [("id", .str "t"), ("type", .str "TargetRef"),
  ("payload", .obj [("target_digest", .str "d")])]

/-- The IntentAnchor node of the C1 counterexample envelope. -/
def c1aNode : JValue := .obj [("id", .str "a"), ("type", .str "IntentAnchor"),
  ("payload", .obj [("h_constitution", .str "hc"), ("h_energy_policy", .str "he")])]

/-- The GateVector node of the C1 counterexample envelope, all required
gates reported with output `0`. -/
def c1gNode : JValue := .obj [("id", .str "g"), ("type", .str "GateVector"),
  ("payload", .obj [("gate_outputs", .arr [
    .obj [("gate_id", .str "G_TOPO"), ("output", .int 0)],
    .obj [("gate_id", .str "G_TARGETREF"), ("output", .int 0)],
    .obj [("gate_id", .str "G_ANCHOR_CONST"), ("output", .int 0)],
    .obj [("gate_id", .str "G_ANCHOR_ENERGY"), ("output", .int 0)],
    .obj [("gate_id", .str "G_BUDGET"), ("output", .int 0)]])])]

/-- The certificate of the C1 counterexample: well-formed except for one
garbage integer entry in `nodes`, which every invariant tolerates but the
graph builder faults on (`(5).get` → `AttributeError`). -/
def c1tcc : JValue := .obj [
  ("root", .str "r"), ("receipt", .str "r"),
  ("nodes", .arr [c1tNode, c1aNode, c1gNode, .int 5]),
  ("edges", .arr [])]

def c1core : List (String × JValue) := [
  ("proposal_digest", .str "d"), ("action_class", .str "FAST"),
  ("energy_est_uj", .int 1), ("tcc", c1tcc)]

def c1env : JValue := .obj (c1core ++ [("witness_hash",
  .str (compute_witness_hash (.obj c1core)))])

def c1anchors : JValue := .obj [
  ("constitution_hash_current", .str "hc"),
  ("energy_policy_hash_current", .str "he"),
  ("energy_budget_uj", .obj [("FAST", .int 100)])]

/-- Counterexample to C1 as stated: an envelope and anchors satisfying every
stated invariant on which `verify` does not return `(True, "OK")` — it
raises an uncaught `AttributeError` instead, because `_build_graph` calls
`.get` on the garbage integer node entry.  The spec's biconditional between
admission and the invariants therefore fails without a no-fault proviso. -/
theorem c1_counterexample :
    Invariants c1env c1anchors ∧
    verify c1env c1anchors = .error "AttributeError: object has no attribute get" := by
  refine ⟨⟨⟨rfl, rfl, rfl, rfl, rfl⟩, rfl, ?_, Relation.ReflTransGen.refl,
    ?_, ?_, ?_, ?_, ?_, ?_, ?_, ?_, rfl, by decide, ?_⟩, rfl⟩
  · exact no_cycle_of_no_edges (by decide)
  · simp [findNodesT, iterT, getTD, getT, alget, c1env, c1core, c1tcc, c1tNode, c1aNode,
      c1gNode, pyEq_str_str, pyEq_null_str, List.filter]
  · have h2 : targetDigestOf c1env = .str "d" := by
      simp [targetDigestOf, findNodesT, iterT, getTD, getT, alget, c1env, c1core, c1tcc,
        c1tNode, c1aNode, c1gNode, pyEq_str_str, pyEq_null_str, List.filter]
    rw [h2]
    simp [getT, alget, c1env, c1core, pyEq_str_str]
  · simp [findNodesT, iterT, getTD, getT, alget, c1env, c1core, c1tcc, c1tNode, c1aNode,
      c1gNode, pyEq_str_str, pyEq_null_str, List.filter]
  · have h2 : payloadAOf c1env =
        .obj [("h_constitution", .str "hc"), ("h_energy_policy", .str "he")] := by
      simp [payloadAOf, findNodesT, iterT, getTD, getT, alget, c1env, c1core, c1tcc,
        c1tNode, c1aNode, c1gNode, pyEq_str_str, pyEq_null_str, List.filter]
    rw [h2]
    simp [getT, alget, c1anchors, pyEq_str_str]
  · have h2 : payloadAOf c1env =
        .obj [("h_constitution", .str "hc"), ("h_energy_policy", .str "he")] := by
      simp [payloadAOf, findNodesT, iterT, getTD, getT, alget, c1env, c1core, c1tcc,
        c1tNode, c1aNode, c1gNode, pyEq_str_str, pyEq_null_str, List.filter]
    rw [h2]
    simp [getT, alget, c1anchors, pyEq_str_str]
  · simp [findNodesT, iterT, getTD, getT, alget, c1env, c1core, c1tcc, c1tNode, c1aNode,
      c1gNode, pyEq_str_str, pyEq_null_str, List.filter]
  · have h2 : gateOutputsOf c1env = .arr [
      .obj [("gate_id", .str "G_TOPO"), ("output", .int 0)],
      .obj [("gate_id", .str "G_TARGETREF"), ("output", .int 0)],
      .obj [("gate_id", .str "G_ANCHOR_CONST"), ("output", .int 0)],
      .obj [("gate_id", .str "G_ANCHOR_ENERGY"), ("output", .int 0)],
      .obj [("gate_id", .str "G_BUDGET"), ("output", .int 0)]] := by
      simp [gateOutputsOf, findNodesT, iterT, getTD, getT, alget, c1env, c1core, c1tcc,
        c1tNode, c1aNode, c1gNode, pyEq_str_str, pyEq_null_str, List.filter]
    rw [h2]
    rfl
  · intro g hg
    have hcov : gatePassed (arrVal (gateOutputsOf c1env)) =
        ["G_TOPO", "G_TARGETREF", "G_ANCHOR_CONST", "G_ANCHOR_ENERGY", "G_BUDGET"] := by
      simp [gateOutputsOf, findNodesT, iterT, getTD, getT, alget, c1env, c1core, c1tcc,
        c1tNode, c1aNode, c1gNode, pyEq_str_str, pyEq_null_str, pyEq_int_int, List.filter,
        gatePassed, arrVal, isDict, setAdd]
    rw [hcov]
    simp [REQ_GATES_MIN] at hg
    rcases hg with rfl | rfl | rfl | rfl | rfl <;> simp
  · have h1 : getT c1env "witness_hash" = .str (compute_witness_hash (.obj c1core)) := rfl
    have h2 : eraseKey (objItems c1env) "witness_hash" = c1core := rfl
    rw [h2, h1, pyEq_str_str]
    simp

/-! ### C2: the no-fault guarantee (refuted) -/

/-- The C2 failing input: every schema-required key is present and the
typed checks pass, but `tcc.nodes` is the integer `0`. -/
def c2env : JValue := .obj [
  ("proposal_digest", .str "d"), ("action_class", .str "FAST"),
  ("energy_est_uj", .int 1),
  ("tcc", .obj [("root", .str "r"), ("receipt", .str "r"),
    ("nodes", .int 0), ("edges", .arr [])]),
  ("witness_hash", .str "w")]

/-- C2 (code bug): the spec says a failure can never reach the caller as a
thrown fault, but on this dictionary envelope — which even passes
`_basic_schema_ok` and the typed schema checks — `verify` raises an
uncaught `TypeError` (`for n in 0` inside `_build_graph`) instead of
returning a structured triple. -/
theorem c2_uncaught_fault :
    isDict c2env = true ∧ basic_schema_ok c2env = true ∧
    verify c2env (.obj []) = .error "TypeError: object is not iterable" :=
  ⟨rfl, rfl, rfl⟩

/-! ### C3: the chain short-circuits in order -/

/-- C3 (amended to the envelopes on which `verify` returns rather than
raises): whenever the schema stage is violated, the returned reason is
`schema_invalid` — never a topology or later-stage reason, whatever else
the envelope violates. -/
theorem c3_schema_first (env anchors : JValue) (r : Bool × String × JValue)
    (h : verify env anchors = .ok r) (hs : ¬ SchemaStagePass env) :
    r.1 = false ∧ r.2.1 = "schema_invalid" := by
  rw [verify_ok h]
  simp only [verifyT]
  by_cases hb : basic_schema_ok env = true
  swap
  · rw [if_pos hb]
    exact ⟨rfl, rfl⟩
  rw [if_neg (not_not_intro hb)]
  by_cases hc1 : isNonEmptyStr (getT env "proposal_digest") = true
  swap
  · rw [if_pos hc1]
    exact ⟨rfl, rfl⟩
  rw [if_neg (not_not_intro hc1)]
  by_cases hc2 : actInT (getT env "action_class") = true
  swap
  · rw [if_pos hc2]
    exact ⟨rfl, rfl⟩
  rw [if_neg (not_not_intro hc2)]
  by_cases hc3 : (isPyInt (getT env "energy_est_uj") &&
      0 ≤ pyIntVal (getT env "energy_est_uj")) = true
  swap
  · rw [if_pos hc3]
    exact ⟨rfl, rfl⟩
  rw [if_neg (not_not_intro hc3)]
  by_cases hc4 : isDict (getT env "tcc") = true
  swap
  · rw [if_pos hc4]
    exact ⟨rfl, rfl⟩
  exact absurd ⟨hb, hc1, hc2, hc3, hc4⟩ hs

/-- Witness for C3: the empty envelope violates the schema stage and is
reported with the schema reason. -/
theorem c3_schema_first_witness :
    ((false, "schema_invalid", dbgS "schema") : Bool × String × JValue).1 = false ∧
    ((false, "schema_invalid", dbgS "schema") : Bool × String × JValue).2.1 = "schema_invalid" :=
  c3_schema_first (.obj []) (.obj []) (false, "schema_invalid", dbgS "schema") rfl
    (fun hp => absurd hp.1 (by decide))

/-- The certificate of the C3 counterexample: a directed cycle `r → x → r`. -/
def c3tcc : JValue := .obj [
  ("root", .str "r"), ("receipt", .str "x"),
  ("nodes", .arr []),
  ("edges", .arr [
    .obj [("from", .str "r"), ("to", .str "x")],
    .obj [("from", .str "x"), ("to", .str "r")]])]

/-- The C3 counterexample envelope: `action_class` is an (unhashable) list,
violating the schema stage, and the certificate violates the topology
stage. -/
def c3env : JValue := .obj [
  ("proposal_digest", .str "d"), ("action_class", .arr []),
  ("energy_est_uj", .int 1), ("tcc", c3tcc), ("witness_hash", .str "w")]

/-- Counterexample to C3 as stated: an envelope that simultaneously
violates the schema stage (its `action_class` is a list) and the topology
stage (its certificate has a cycle) does not report `schema_invalid` — the
schema stage itself raises an uncaught `TypeError` out of the membership
test `action_class in ALLOWED_ACTIONS`, so nothing is reported at all. -/
theorem c3_counterexample :
    ¬ SchemaStagePass c3env ∧
    HasCycle (buildGraphT (getT c3env "tcc")).1 ∧
    verify c3env (.obj []) = .error "TypeError: unhashable type: list" := by
  have h1 : Edge (buildGraphT (getT c3env "tcc")).1 "r" "x" := by
    show "x" ∈ adjGet (buildGraphT (getT c3env "tcc")).1 "r"
    decide
  have h2 : Edge (buildGraphT (getT c3env "tcc")).1 "x" "r" := by
    show "r" ∈ adjGet (buildGraphT (getT c3env "tcc")).1 "x"
    decide
  exact ⟨fun hp => absurd hp.2.2.1 (by decide),
    ⟨"r", Relation.TransGen.head h1 (Relation.TransGen.single h2)⟩, rfl⟩

/-! ### C4: cycles anywhere are detected and rejected -/

/-- `root` and `receipt` of the certificate are non-empty strings. -/
def RootReceiptOk (env : JValue) : Prop :=
  (isNonEmptyStr (getT (getT env "tcc") "root") &&
    isNonEmptyStr (getT (getT env "tcc") "receipt")) = true

/-- C4 (amended to the envelopes on which `verify` returns rather than
raises): `_is_dag` over the full built node set decides exactly the
absence of a directed cycle anywhere in the certificate graph — on a
cyclic graph it returns false — and an envelope whose certificate has a
cycle is, when it passes the schema stage with non-empty string root and
receipt, rejected exactly with `invalid_tcc_topology` ("not a DAG"). -/
theorem c4_cycle_rejected (env anchors : JValue) (r : Bool × String × JValue)
    (h : verify env anchors = .ok r)
    (hcyc : HasCycle (buildGraphT (getT env "tcc")).1) :
    is_dag (buildGraphT (getT env "tcc")).1 (buildGraphT (getT env "tcc")).2 = false ∧
    (SchemaStagePass env → RootReceiptOk env →
      r = (false, "invalid_tcc_topology", dbgD "topology" "not a DAG")) := by
  have hdag : is_dag (buildGraphT (getT env "tcc")).1 (buildGraphT (getT env "tcc")).2
      = false := by
    cases hd : is_dag (buildGraphT (getT env "tcc")).1 (buildGraphT (getT env "tcc")).2 with
    | false => rfl
    | true => exact absurd hcyc ((is_dag_buildGraphT (getT env "tcc")).mp hd)
  refine ⟨hdag, fun hs hrr => ?_⟩
  rw [verify_ok h]
  obtain ⟨hb, hc1, hc2, hc3, hc4⟩ := hs
  have hrr2 : (isNonEmptyStr (getT (getT env "tcc") "root") &&
      isNonEmptyStr (getT (getT env "tcc") "receipt")) = true := hrr
  simp only [verifyT]
  rw [if_neg (not_not_intro hb), if_neg (not_not_intro hc1), if_neg (not_not_intro hc2),
    if_neg (not_not_intro hc3), if_neg (not_not_intro hc4), if_neg (not_not_intro hrr2),
    if_pos (by rw [hdag]; simp)]

/-- The C4 witness certificate: a two-node cycle. -/
def c4wtcc : JValue := .obj [
  ("edges", .arr [
    .obj [("from", .str "r"), ("to", .str "x")],
    .obj [("from", .str "x"), ("to", .str "r")]])]

def c4wenv : JValue := .obj [("tcc", c4wtcc)]

/-- Witness for C4 at a concrete cyclic certificate. -/
theorem c4_cycle_rejected_witness :
    is_dag (buildGraphT (getT c4wenv "tcc")).1 (buildGraphT (getT c4wenv "tcc")).2 = false ∧
    (SchemaStagePass c4wenv → RootReceiptOk c4wenv →
      ((false, "schema_invalid", dbgS "schema") : Bool × String × JValue) =
        (false, "invalid_tcc_topology", dbgD "topology" "not a DAG")) :=
  c4_cycle_rejected c4wenv (.obj []) (false, "schema_invalid", dbgS "schema") rfl
    ⟨"r", Relation.TransGen.head
      (show Edge (buildGraphT (getT c4wenv "tcc")).1 "r" "x" from by
        show "x" ∈ adjGet (buildGraphT (getT c4wenv "tcc")).1 "r"
        decide)
      (Relation.TransGen.single
        (show Edge (buildGraphT (getT c4wenv "tcc")).1 "x" "r" from by
          show "r" ∈ adjGet (buildGraphT (getT c4wenv "tcc")).1 "x"
          decide))⟩

/-- The C4 counterexample certificate: a cycle plus one garbage integer
node entry. -/
def c4ctcc : JValue := .obj [
  ("root", .str "r"), ("receipt", .str "x"),
  ("nodes", .arr [.int 5]),
  ("edges", .arr [
    .obj [("from", .str "r"), ("to", .str "x")],
    .obj [("from", .str "x"), ("to", .str "r")]])]

def c4cenv : JValue := .obj [
  ("proposal_digest", .str "d"), ("action_class", .str "FAST"),
  ("energy_est_uj", .int 1), ("tcc", c4ctcc), ("witness_hash", .str "w")]

/-- Counterexample to C4 as stated: this envelope passes the schema stage,
has non-empty string root and receipt and a cyclic certificate, yet is not
rejected with `invalid_tcc_topology` — `_build_graph` faults on the
garbage integer node entry before `_is_dag` ever runs. -/
theorem c4_counterexample :
    SchemaStagePass c4cenv ∧ RootReceiptOk c4cenv ∧
    HasCycle (buildGraphT (getT c4cenv "tcc")).1 ∧
    verify c4cenv (.obj []) = .error "AttributeError: object has no attribute get" := by
  have h1 : Edge (buildGraphT (getT c4cenv "tcc")).1 "r" "x" := by
    show "x" ∈ adjGet (buildGraphT (getT c4cenv "tcc")).1 "r"
    decide
  have h2 : Edge (buildGraphT (getT c4cenv "tcc")).1 "x" "r" := by
    show "r" ∈ adjGet (buildGraphT (getT c4cenv "tcc")).1 "x"
    decide
  exact ⟨⟨rfl, rfl, rfl, rfl, rfl⟩, rfl,
    ⟨"r", Relation.TransGen.head h1 (Relation.TransGen.single h2)⟩, rfl⟩

/-! ### C6: the witness round-trip -/

theorem alget_or_append (l1 l2 : List (String × JValue)) (k : String) :
    alget (l1 ++ l2) k = ((alget l1 k).or (alget l2 k)) := by
  rw [alget, alget, alget, List.find?_append]
  cases l1.find? (fun p => p.1 == k) <;> simp

/-- Removing a key from a distinct-key dictionary removes it entirely. -/
theorem eraseKey_not_key {l : List (String × JValue)} {k : String}
    (hnd : (l.map Prod.fst).Nodup) : k ∉ (eraseKey l k).map Prod.fst := by
  induction l with
  | nil => simp [eraseKey]
  | cons p rest ih =>
      simp only [List.map_cons, List.nodup_cons] at hnd
      rw [eraseKey, List.eraseP_cons]
      by_cases hk : (p.1 == k) = true
      · have hpk : p.1 = k := by simpa using hk
        simp only [hk, cond_true]
        rw [← hpk]
        exact hnd.1
      · simp only [Bool.not_eq_true] at hk
        simp only [hk, cond_false, List.map_cons, List.mem_cons, not_or]
        refine ⟨fun hh => ?_, ih hnd.2⟩
        rw [hh.symm] at hk
        simp at hk

/-- Appending a fresh entry and popping its key is the identity. -/
theorem eraseKey_append_self {l : List (String × JValue)} {k : String} (v : JValue)
    (h : k ∉ l.map Prod.fst) : eraseKey (l ++ [(k, v)]) k = l := by
  have h2 : ∀ p ∈ l, ¬((fun p : String × JValue => p.1 == k) p = true) := by
    intro p hp hpk
    simp only [beq_iff_eq] at hpk
    exact h (hpk ▸ List.mem_map_of_mem Prod.fst hp)
  rw [eraseKey, List.eraseP_append_right _ h2]
  simp

/-- `_auto_fill_witness` on an envelope without a (surviving) witness key:
remove any `witness_hash` entry, canonically hash the remainder and store
the digest under `witness_hash` (appended, as Python assignment of a fresh
key does). -/
def setWitness (env : JValue) : JValue :=
  .obj (eraseKey (objItems env) "witness_hash" ++
    [("witness_hash",
      .str (compute_witness_hash (.obj (eraseKey (objItems env) "witness_hash"))))])

/-- C6: for every dictionary envelope (distinct keys, as Python dictionaries
have), auto-filling `witness_hash` with the canonical hash of the envelope
without it yields an envelope for which the witness stage passes: wherever
`verify` returns, its reason is never `witness_mismatch`. -/
theorem c6_witness_roundtrip (env0 anchors : JValue) (r : Bool × String × JValue)
    (hnd : ((objItems env0).map Prod.fst).Nodup)
    (h : verify (setWitness env0) anchors = .ok r) :
    r.2.1 ≠ "witness_mismatch" := by
  rw [verify_ok h]
  have hknd : "witness_hash" ∉ (eraseKey (objItems env0) "witness_hash").map Prod.fst :=
    eraseKey_not_key hnd
  have hw1 : getT (setWitness env0) "witness_hash" =
      .str (compute_witness_hash (.obj (eraseKey (objItems env0) "witness_hash"))) := by
    simp only [setWitness, getT]
    rw [alget_or_append, alget_eq_none hknd]
    simp [alget_cons]
  have hw2 : eraseKey (objItems (setWitness env0)) "witness_hash" =
      eraseKey (objItems env0) "witness_hash" := by
    simp only [setWitness, objItems]
    exact eraseKey_append_self _ hknd
  have hcond : pyEq (getT (setWitness env0) "witness_hash")
      (.str (compute_witness_hash
        (.obj (eraseKey (objItems (setWitness env0)) "witness_hash")))) = true := by
    rw [hw2, hw1, pyEq_str_str]
    simp
  simp only [verifyT]
  by_cases hx1 : basic_schema_ok (setWitness env0) = true
  swap
  · rw [if_pos hx1]
    simp
  rw [if_neg (not_not_intro hx1)]
  by_cases hx2 : isNonEmptyStr (getT (setWitness env0) "proposal_digest") = true
  swap
  · rw [if_pos hx2]
    simp
  rw [if_neg (not_not_intro hx2)]
  by_cases hx3 : actInT (getT (setWitness env0) "action_class") = true
  swap
  · rw [if_pos hx3]
    simp
  rw [if_neg (not_not_intro hx3)]
  by_cases hx4 : (isPyInt (getT (setWitness env0) "energy_est_uj") &&
      0 ≤ pyIntVal (getT (setWitness env0) "energy_est_uj")) = true
  swap
  · rw [if_pos hx4]
    simp
  rw [if_neg (not_not_intro hx4)]
  by_cases hx5 : isDict (getT (setWitness env0) "tcc") = true
  swap
  · rw [if_pos hx5]
    simp
  rw [if_neg (not_not_intro hx5)]
  by_cases hx6 : (isNonEmptyStr (getT (getT (setWitness env0) "tcc") "root") &&
      isNonEmptyStr (getT (getT (setWitness env0) "tcc") "receipt")) = true
  swap
  · rw [if_pos hx6]
    simp
  rw [if_neg (not_not_intro hx6)]
  by_cases hx7 : is_dag (buildGraphT (getT (setWitness env0) "tcc")).1 (buildGraphT (getT (setWitness env0) "tcc")).2 = true
  swap
  · rw [if_pos hx7]
    simp
  rw [if_neg (not_not_intro hx7)]
  by_cases hx8 : reachable (buildGraphT (getT (setWitness env0) "tcc")).1 (strVal (getT (getT (setWitness env0) "tcc") "root"))
      (strVal (getT (getT (setWitness env0) "tcc") "receipt")) = true
  swap
  · rw [if_pos hx8]
    simp
  rw [if_neg (not_not_intro hx8)]
  by_cases hx9 : (findNodesT (getT (setWitness env0) "tcc") "TargetRef").length = 1
  swap
  · rw [if_pos hx9]
    simp
  rw [if_neg (not_not_intro hx9)]
  by_cases hx10 : pyEq (getT (getTD ((findNodesT (getT (setWitness env0) "tcc") "TargetRef").headD .null)
      "payload" (.obj [])) "target_digest") (getT (setWitness env0) "proposal_digest") = true
  swap
  · rw [if_pos hx10]
    simp
  rw [if_neg (not_not_intro hx10)]
  by_cases hx11 : (findNodesT (getT (setWitness env0) "tcc") "IntentAnchor").length = 1
  swap
  · rw [if_pos hx11]
    simp
  rw [if_neg (not_not_intro hx11)]
  by_cases hx12 : pyEq (getT (getTD ((findNodesT (getT (setWitness env0) "tcc") "IntentAnchor").headD .null)
      "payload" (.obj [])) "h_constitution") (getT anchors "constitution_hash_current") = true
  swap
  · rw [if_pos hx12]
    simp
  rw [if_neg (not_not_intro hx12)]
  by_cases hx13 : pyEq (getT (getTD ((findNodesT (getT (setWitness env0) "tcc") "IntentAnchor").headD .null)
      "payload" (.obj [])) "h_energy_policy") (getT anchors "energy_policy_hash_current") = true
  swap
  · rw [if_pos hx13]
    simp
  rw [if_neg (not_not_intro hx13)]
  by_cases hx14 : (findNodesT (getT (setWitness env0) "tcc") "GateVector").length = 1
  swap
  · rw [if_pos hx14]
    simp
  rw [if_neg (not_not_intro hx14)]
  by_cases hx15 : isList (getTD (getTD ((findNodesT (getT (setWitness env0) "tcc") "GateVector").headD .null)
      "payload" (.obj [])) "gate_outputs" (.arr [])) = true
  swap
  · rw [if_pos hx15]
    simp
  rw [if_neg (not_not_intro hx15)]
  by_cases hx16 : REQ_GATES_MIN.all (fun g => g ∈ gatePassed (arrVal
      (getTD (getTD ((findNodesT (getT (setWitness env0) "tcc") "GateVector").headD .null)
        "payload" (.obj [])) "gate_outputs" (.arr [])))) = true
  swap
  · rw [if_pos hx16]
    simp
  rw [if_neg (not_not_intro hx16)]
  by_cases hx17 : isPyInt (getT (getTD anchors "energy_budget_uj" (.obj []))
      (strVal (getT (setWitness env0) "action_class"))) = true
  swap
  · rw [if_pos hx17]
    simp
  rw [if_neg (not_not_intro hx17)]
  by_cases hx18 : pyIntVal (getT (setWitness env0) "energy_est_uj") >
      pyIntVal (getT (getTD anchors "energy_budget_uj" (.obj []))
        (strVal (getT (setWitness env0) "action_class")))
  · rw [if_pos hx18]
    simp
  rw [if_neg hx18]
  rw [if_neg (not_not_intro hcond)]
  simp

/-- Witness for C6: the auto-filled empty envelope (rejected at the schema
stage, but never with a witness mismatch). -/
theorem c6_witness_roundtrip_witness :
    ((false, "schema_invalid", dbgS "schema") : Bool × String × JValue).2.1 ≠
      "witness_mismatch" :=
  c6_witness_roundtrip (.obj []) (.obj []) (false, "schema_invalid", dbgS "schema")
    (by simp [objItems]) rfl

/-! ### C7: the passed set of the gate-coverage stage -/

theorem mem_setAdd_iff {s : List String} {x y : String} :
    y ∈ setAdd s x ↔ y ∈ s ∨ y = x := by
  by_cases h : x ∈ s
  · simp only [setAdd, if_pos h]
    constructor
    · exact Or.inl
    · rintro (hy | rfl)
      · exact hy
      · exact h
  · simp only [setAdd, if_neg h, List.mem_append, List.mem_singleton]

def gateStep (passed : List String) (it : JValue) : List String :=
  if isDict it then
    match getT it "gate_id" with
    | .str g => if pyEq (getT it "output") (.int 0) then setAdd passed g else passed
    | _ => passed
  else passed

theorem gatePassed_eq (l : List JValue) : gatePassed l = l.foldl gateStep [] := rfl

theorem mem_gateStep (gid : String) (acc : List String) (it : JValue) :
    gid ∈ gateStep acc it ↔ gid ∈ acc ∨ (isDict it = true ∧
      getT it "gate_id" = .str gid ∧ pyEq (getT it "output") (.int 0) = true) := by
  unfold gateStep
  split
  · rename_i hd
    split
    · rename_i g hm
      split
      · rename_i ho
        rw [mem_setAdd_iff]
        constructor
        · rintro (hy | rfl)
          · exact Or.inl hy
          · exact Or.inr ⟨hd, hm, ho⟩
        · rintro (hy | ⟨hdd, hgg, hoo⟩)
          · exact Or.inl hy
          · have hg2 : JValue.str g = JValue.str gid := hm.symm.trans hgg
            injection hg2 with hg3
            exact Or.inr hg3.symm
      · rename_i ho
        constructor
        · exact Or.inl
        · rintro (hy | ⟨hdd, hgg, hoo⟩)
          · exact hy
          · exact absurd hoo ho
    · rename_i x hm
      constructor
      · exact Or.inl
      · rintro (hy | ⟨hdd, hgg, hoo⟩)
        · exact hy
        · exact absurd hgg (hm gid)
  · rename_i hd
    constructor
    · exact Or.inl
    · rintro (hy | ⟨hdd, hgg, hoo⟩)
      · exact hy
      · exact absurd hdd hd

theorem gatePassed_mem_aux (gid : String) : ∀ (l : List JValue) (acc : List String),
    gid ∈ l.foldl gateStep acc ↔
    gid ∈ acc ∨ ∃ it ∈ l, isDict it = true ∧ getT it "gate_id" = .str gid ∧
      pyEq (getT it "output") (.int 0) = true := by
  intro l
  induction l with
  | nil => intro acc; simp
  | cons it rest ih =>
      intro acc
      rw [List.foldl_cons, ih, mem_gateStep, List.exists_mem_cons_iff]
      tauto

/-- C7 (amended: the code also admits the empty string as a gate id, so the
spec's "non-empty" qualifier is dropped; otherwise as stated): the passed
set contains a gate id iff some `gate_outputs` entry is a mapping whose
`gate_id` equals that string and whose `output` is Python-equal to `0`;
accumulation is monotone, so a later entry for an already-passed id never
revokes the pass; and whenever `verify` returns the coverage failure, its
diagnostic detail is exactly the sorted list of missing required ids. -/
theorem c7_gate_coverage (l : List JValue) (gid : String) (env anchors : JValue)
    (r : Bool × String × JValue) (h : verify env anchors = .ok r) :
    (gid ∈ gatePassed l ↔ ∃ it ∈ l, isDict it = true ∧
      getT it "gate_id" = .str gid ∧ pyEq (getT it "output") (.int 0) = true) ∧
    (∀ l2 : List JValue, gid ∈ gatePassed l → gid ∈ gatePassed (l ++ l2)) ∧
    (r.2.1 = "missing_gatevector_coverage" →
      r.2.2 = dbgD "coverage" ("missing=" ++ pyListRepr (sortStrings
        (REQ_GATES_MIN.filter (fun g => ¬ g ∈ gatePassed (arrVal (gateOutputsOf env))))))) := by
  refine ⟨?_, ?_, ?_⟩
  · rw [gatePassed_eq, gatePassed_mem_aux]
    simp
  · intro l2 hm
    rw [gatePassed_eq, gatePassed_mem_aux] at hm ⊢
    rcases hm with hm | ⟨it, hit, hP⟩
    · simp at hm
    · exact Or.inr ⟨it, List.mem_append_left _ hit, hP⟩
  rw [verify_ok h]
  simp only [verifyT]
  by_cases hx1 : basic_schema_ok env = true
  swap
  · rw [if_pos hx1]
    intro hf
    simp at hf
  rw [if_neg (not_not_intro hx1)]
  by_cases hx2 : isNonEmptyStr (getT env "proposal_digest") = true
  swap
  · rw [if_pos hx2]
    intro hf
    simp at hf
  rw [if_neg (not_not_intro hx2)]
  by_cases hx3 : actInT (getT env "action_class") = true
  swap
  · rw [if_pos hx3]
    intro hf
    simp at hf
  rw [if_neg (not_not_intro hx3)]
  by_cases hx4 : (isPyInt (getT env "energy_est_uj") &&
      0 ≤ pyIntVal (getT env "energy_est_uj")) = true
  swap
  · rw [if_pos hx4]
    intro hf
    simp at hf
  rw [if_neg (not_not_intro hx4)]
  by_cases hx5 : isDict (getT env "tcc") = true
  swap
  · rw [if_pos hx5]
    intro hf
    simp at hf
  rw [if_neg (not_not_intro hx5)]
  by_cases hx6 : (isNonEmptyStr (getT (getT env "tcc") "root") &&
      isNonEmptyStr (getT (getT env "tcc") "receipt")) = true
  swap
  · rw [if_pos hx6]
    intro hf
    simp at hf
  rw [if_neg (not_not_intro hx6)]
  by_cases hx7 : is_dag (buildGraphT (getT env "tcc")).1 (buildGraphT (getT env "tcc")).2 = true
  swap
  · rw [if_pos hx7]
    intro hf
    simp at hf
  rw [if_neg (not_not_intro hx7)]
  by_cases hx8 : reachable (buildGraphT (getT env "tcc")).1 (strVal (getT (getT env "tcc") "root"))
      (strVal (getT (getT env "tcc") "receipt")) = true
  swap
  · rw [if_pos hx8]
    intro hf
    simp at hf
  rw [if_neg (not_not_intro hx8)]
  by_cases hx9 : (findNodesT (getT env "tcc") "TargetRef").length = 1
  swap
  · rw [if_pos hx9]
    intro hf
    simp at hf
  rw [if_neg (not_not_intro hx9)]
  by_cases hx10 : pyEq (getT (getTD ((findNodesT (getT env "tcc") "TargetRef").headD .null)
      "payload" (.obj [])) "target_digest") (getT env "proposal_digest") = true
  swap
  · rw [if_pos hx10]
    intro hf
    simp at hf
  rw [if_neg (not_not_intro hx10)]
  by_cases hx11 : (findNodesT (getT env "tcc") "IntentAnchor").length = 1
  swap
  · rw [if_pos hx11]
    intro hf
    simp at hf
  rw [if_neg (not_not_intro hx11)]
  by_cases hx12 : pyEq (getT (getTD ((findNodesT (getT env "tcc") "IntentAnchor").headD .null)
      "payload" (.obj [])) "h_constitution") (getT anchors "constitution_hash_current") = true
  swap
  · rw [if_pos hx12]
    intro hf
    simp at hf
  rw [if_neg (not_not_intro hx12)]
  by_cases hx13 : pyEq (getT (getTD ((findNodesT (getT env "tcc") "IntentAnchor").headD .null)
      "payload" (.obj [])) "h_energy_policy") (getT anchors "energy_policy_hash_current") = true
  swap
  · rw [if_pos hx13]
    intro hf
    simp at hf
  rw [if_neg (not_not_intro hx13)]
  by_cases hx14 : (findNodesT (getT env "tcc") "GateVector").length = 1
  swap
  · rw [if_pos hx14]
    intro hf
    simp at hf
  rw [if_neg (not_not_intro hx14)]
  by_cases hx15 : isList (getTD (getTD ((findNodesT (getT env "tcc") "GateVector").headD .null)
      "payload" (.obj [])) "gate_outputs" (.arr [])) = true
  swap
  · rw [if_pos hx15]
    intro hf
    simp at hf
  rw [if_neg (not_not_intro hx15)]
  by_cases hx16 : REQ_GATES_MIN.all (fun g => g ∈ gatePassed (arrVal
      (getTD (getTD ((findNodesT (getT env "tcc") "GateVector").headD .null)
        "payload" (.obj [])) "gate_outputs" (.arr [])))) = true
  swap
  · rw [if_pos hx16]
    intro hf
    simp only [gateOutputsOf]
  rw [if_neg (not_not_intro hx16)]
  by_cases hx17 : isPyInt (getT (getTD anchors "energy_budget_uj" (.obj []))
      (strVal (getT env "action_class"))) = true
  swap
  · rw [if_pos hx17]
    intro hf
    simp at hf
  rw [if_neg (not_not_intro hx17)]
  by_cases hx18 : pyIntVal (getT env "energy_est_uj") >
      pyIntVal (getT (getTD anchors "energy_budget_uj" (.obj []))
        (strVal (getT env "action_class")))
  · rw [if_pos hx18]
    intro hf
    simp at hf
  rw [if_neg hx18]
  by_cases hx19 : pyEq (getT env "witness_hash")
      (.str (compute_witness_hash (.obj (eraseKey (objItems env) "witness_hash")))) = true
  swap
  · rw [if_pos hx19]
    intro hf
    simp at hf
  rw [if_neg (not_not_intro hx19)]
  intro hf
  simp at hf

/-- Witness for C7 at the empty outputs list and empty envelope. -/
theorem c7_gate_coverage_witness :
    (("G_TOPO" : String) ∈ gatePassed [] ↔ ∃ it ∈ ([] : List JValue), isDict it = true ∧
      getT it "gate_id" = .str "G_TOPO" ∧ pyEq (getT it "output") (.int 0) = true) ∧
    (∀ l2 : List JValue, ("G_TOPO" : String) ∈ gatePassed [] →
      ("G_TOPO" : String) ∈ gatePassed ([] ++ l2)) ∧
    (((false, "schema_invalid", dbgS "schema") : Bool × String × JValue).2.1 =
        "missing_gatevector_coverage" →
      ((false, "schema_invalid", dbgS "schema") : Bool × String × JValue).2.2 =
        dbgD "coverage" ("missing=" ++ pyListRepr (sortStrings
          (REQ_GATES_MIN.filter (fun g =>
            ¬ g ∈ gatePassed (arrVal (gateOutputsOf (.obj [])))))))) :=
  c7_gate_coverage [] "G_TOPO" (.obj []) (.obj [])
    (false, "schema_invalid", dbgS "schema") rfl

/-- Counterexample to C7 as stated: an entry whose `gate_id` is the empty
string — not a non-empty string — still enters the passed set. -/
theorem c7_counterexample :
    "" ∈ gatePassed [.obj [("gate_id", .str ""), ("output", .int 0)]] ∧
    isNonEmptyStr (.str "") = false := by
  constructor
  · simp [gatePassed, getT, alget, isDict, setAdd, pyEq_int_int]
  · rfl

/-! ### C8: structured outcomes -/

/-- C8 (amended: the basic-schema failure's diagnostic carries only the
stage and no detail entry; every other outcome is as stated): every result
is a triple of a boolean, a reason from the closed enumeration (or "OK"),
and a diagnostic object carrying a stage string; every failure other than
the basic-schema one also carries a detail string. -/
theorem c8_structured_outcomes (env anchors : JValue) (r : Bool × String × JValue)
    (h : verify env anchors = .ok r) :
    (r.2.1 = "OK" ∨ r.2.1 ∈ REASON_CODES) ∧
    (∃ st : String, getT r.2.2 "stage" = .str st) ∧
    (r.1 = false → r.2.2 = dbgS "schema" ∨ ∃ st d : String, r.2.2 = dbgD st d) := by
  rw [verify_ok h]
  simp only [verifyT]
  by_cases hx1 : basic_schema_ok env = true
  swap
  · rw [if_pos hx1]
    exact ⟨Or.inr (by simp [REASON_CODES]), ⟨_, rfl⟩, fun hf => Or.inl rfl⟩
  rw [if_neg (not_not_intro hx1)]
  by_cases hx2 : isNonEmptyStr (getT env "proposal_digest") = true
  swap
  · rw [if_pos hx2]
    exact ⟨Or.inr (by simp [REASON_CODES]), ⟨_, rfl⟩, fun hf => Or.inr ⟨_, _, rfl⟩⟩
  rw [if_neg (not_not_intro hx2)]
  by_cases hx3 : actInT (getT env "action_class") = true
  swap
  · rw [if_pos hx3]
    exact ⟨Or.inr (by simp [REASON_CODES]), ⟨_, rfl⟩, fun hf => Or.inr ⟨_, _, rfl⟩⟩
  rw [if_neg (not_not_intro hx3)]
  by_cases hx4 : (isPyInt (getT env "energy_est_uj") &&
      0 ≤ pyIntVal (getT env "energy_est_uj")) = true
  swap
  · rw [if_pos hx4]
    exact ⟨Or.inr (by simp [REASON_CODES]), ⟨_, rfl⟩, fun hf => Or.inr ⟨_, _, rfl⟩⟩
  rw [if_neg (not_not_intro hx4)]
  by_cases hx5 : isDict (getT env "tcc") = true
  swap
  · rw [if_pos hx5]
    exact ⟨Or.inr (by simp [REASON_CODES]), ⟨_, rfl⟩, fun hf => Or.inr ⟨_, _, rfl⟩⟩
  rw [if_neg (not_not_intro hx5)]
  by_cases hx6 : (isNonEmptyStr (getT (getT env "tcc") "root") &&
      isNonEmptyStr (getT (getT env "tcc") "receipt")) = true
  swap
  · rw [if_pos hx6]
    exact ⟨Or.inr (by simp [REASON_CODES]), ⟨_, rfl⟩, fun hf => Or.inr ⟨_, _, rfl⟩⟩
  rw [if_neg (not_not_intro hx6)]
  by_cases hx7 : is_dag (buildGraphT (getT env "tcc")).1 (buildGraphT (getT env "tcc")).2 = true
  swap
  · rw [if_pos hx7]
    exact ⟨Or.inr (by simp [REASON_CODES]), ⟨_, rfl⟩, fun hf => Or.inr ⟨_, _, rfl⟩⟩
  rw [if_neg (not_not_intro hx7)]
  by_cases hx8 : reachable (buildGraphT (getT env "tcc")).1 (strVal (getT (getT env "tcc") "root"))
      (strVal (getT (getT env "tcc") "receipt")) = true
  swap
  · rw [if_pos hx8]
    exact ⟨Or.inr (by simp [REASON_CODES]), ⟨_, rfl⟩, fun hf => Or.inr ⟨_, _, rfl⟩⟩
  rw [if_neg (not_not_intro hx8)]
  by_cases hx9 : (findNodesT (getT env "tcc") "TargetRef").length = 1
  swap
  · rw [if_pos hx9]
    exact ⟨Or.inr (by simp [REASON_CODES]), ⟨_, rfl⟩, fun hf => Or.inr ⟨_, _, rfl⟩⟩
  rw [if_neg (not_not_intro hx9)]
  by_cases hx10 : pyEq (getT (getTD ((findNodesT (getT env "tcc") "TargetRef").headD .null)
      "payload" (.obj [])) "target_digest") (getT env "proposal_digest") = true
  swap
  · rw [if_pos hx10]
    exact ⟨Or.inr (by simp [REASON_CODES]), ⟨_, rfl⟩, fun hf => Or.inr ⟨_, _, rfl⟩⟩
  rw [if_neg (not_not_intro hx10)]
  by_cases hx11 : (findNodesT (getT env "tcc") "IntentAnchor").length = 1
  swap
  · rw [if_pos hx11]
    exact ⟨Or.inr (by simp [REASON_CODES]), ⟨_, rfl⟩, fun hf => Or.inr ⟨_, _, rfl⟩⟩
  rw [if_neg (not_not_intro hx11)]
  by_cases hx12 : pyEq (getT (getTD ((findNodesT (getT env "tcc") "IntentAnchor").headD .null)
      "payload" (.obj [])) "h_constitution") (getT anchors "constitution_hash_current") = true
  swap
  · rw [if_pos hx12]
    exact ⟨Or.inr (by simp [REASON_CODES]), ⟨_, rfl⟩, fun hf => Or.inr ⟨_, _, rfl⟩⟩
  rw [if_neg (not_not_intro hx12)]
  by_cases hx13 : pyEq (getT (getTD ((findNodesT (getT env "tcc") "IntentAnchor").headD .null)
      "payload" (.obj [])) "h_energy_policy") (getT anchors "energy_policy_hash_current") = true
  swap
  · rw [if_pos hx13]
    exact ⟨Or.inr (by simp [REASON_CODES]), ⟨_, rfl⟩, fun hf => Or.inr ⟨_, _, rfl⟩⟩
  rw [if_neg (not_not_intro hx13)]
  by_cases hx14 : (findNodesT (getT env "tcc") "GateVector").length = 1
  swap
  · rw [if_pos hx14]
    exact ⟨Or.inr (by simp [REASON_CODES]), ⟨_, rfl⟩, fun hf => Or.inr ⟨_, _, rfl⟩⟩
  rw [if_neg (not_not_intro hx14)]
  by_cases hx15 : isList (getTD (getTD ((findNodesT (getT env "tcc") "GateVector").headD .null)
      "payload" (.obj [])) "gate_outputs" (.arr [])) = true
  swap
  · rw [if_pos hx15]
    exact ⟨Or.inr (by simp [REASON_CODES]), ⟨_, rfl⟩, fun hf => Or.inr ⟨_, _, rfl⟩⟩
  rw [if_neg (not_not_intro hx15)]
  by_cases hx16 : REQ_GATES_MIN.all (fun g => g ∈ gatePassed (arrVal
      (getTD (getTD ((findNodesT (getT env "tcc") "GateVector").headD .null)
        "payload" (.obj [])) "gate_outputs" (.arr [])))) = true
  swap
  · rw [if_pos hx16]
    exact ⟨Or.inr (by simp [REASON_CODES]), ⟨_, rfl⟩, fun hf => Or.inr ⟨_, _, rfl⟩⟩
  rw [if_neg (not_not_intro hx16)]
  by_cases hx17 : isPyInt (getT (getTD anchors "energy_budget_uj" (.obj []))
      (strVal (getT env "action_class"))) = true
  swap
  · rw [if_pos hx17]
    exact ⟨Or.inr (by simp [REASON_CODES]), ⟨_, rfl⟩, fun hf => Or.inr ⟨_, _, rfl⟩⟩
  rw [if_neg (not_not_intro hx17)]
  by_cases hx18 : pyIntVal (getT env "energy_est_uj") >
      pyIntVal (getT (getTD anchors "energy_budget_uj" (.obj []))
        (strVal (getT env "action_class")))
  · rw [if_pos hx18]
    exact ⟨Or.inr (by simp [REASON_CODES]), ⟨_, rfl⟩, fun hf => Or.inr ⟨_, _, rfl⟩⟩
  rw [if_neg hx18]
  by_cases hx19 : pyEq (getT env "witness_hash")
      (.str (compute_witness_hash (.obj (eraseKey (objItems env) "witness_hash")))) = true
  swap
  · rw [if_pos hx19]
    exact ⟨Or.inr (by simp [REASON_CODES]), ⟨_, rfl⟩, fun hf => Or.inr ⟨_, _, rfl⟩⟩
  rw [if_neg (not_not_intro hx19)]
  exact ⟨Or.inl rfl, ⟨_, rfl⟩, fun hf => absurd hf (by simp)⟩

/-- Witness for C8 at the empty envelope. -/
theorem c8_structured_outcomes_witness :
    (((false, "schema_invalid", dbgS "schema") : Bool × String × JValue).2.1 = "OK" ∨
      ((false, "schema_invalid", dbgS "schema") : Bool × String × JValue).2.1 ∈ REASON_CODES) ∧
    (∃ st : String,
      getT ((false, "schema_invalid", dbgS "schema") : Bool × String × JValue).2.2 "stage" =
        .str st) ∧
    (((false, "schema_invalid", dbgS "schema") : Bool × String × JValue).1 = false →
      ((false, "schema_invalid", dbgS "schema") : Bool × String × JValue).2.2 = dbgS "schema" ∨
      ∃ st d : String,
        ((false, "schema_invalid", dbgS "schema") : Bool × String × JValue).2.2 = dbgD st d) :=
  c8_structured_outcomes (.obj []) (.obj []) (false, "schema_invalid", dbgS "schema") rfl

/-- Counterexample to C8 as stated: the basic-schema failure's diagnostic
has a stage but no detail entry at all. -/
theorem c8_counterexample :
    verify (.obj []) (.obj []) =
      .ok (false, "schema_invalid", .obj [("stage", .str "schema")]) ∧
    alget [("stage", JValue.str "schema")] "detail" = none :=
  ⟨rfl, rfl⟩

/-! ### C9: absent anchors compare equal -/

/-- C9: if the IntentAnchor payload and the anchor configuration both omit
the constitution hash, and likewise both omit the energy-policy hash, the
two `.get` calls of each comparison yield `None` and `None == None` holds —
so wherever `verify` returns, the envelope is not rejected at either anchor
stage. -/
theorem c9_absent_anchor_passes (env anchors : JValue) (r : Bool × String × JValue)
    (h : verify env anchors = .ok r)
    (hc : getT (payloadAOf env) "h_constitution" = .null)
    (hac : getT anchors "constitution_hash_current" = .null)
    (he : getT (payloadAOf env) "h_energy_policy" = .null)
    (hae : getT anchors "energy_policy_hash_current" = .null) :
    r.2.1 ≠ "outdated_or_missing_constitution_anchor" ∧
    r.2.1 ≠ "outdated_or_missing_energy_anchor" := by
  rw [verify_ok h]
  have h1 : pyEq (getT (payloadAOf env) "h_constitution")
      (getT anchors "constitution_hash_current") = true := by
    rw [hc, hac]
    exact pyEq_null_null
  have h2 : pyEq (getT (payloadAOf env) "h_energy_policy")
      (getT anchors "energy_policy_hash_current") = true := by
    rw [he, hae]
    exact pyEq_null_null
  simp only [payloadAOf] at h1 h2
  simp only [verifyT]
  by_cases hx1 : basic_schema_ok env = true
  swap
  · rw [if_pos hx1]
    exact ⟨by simp, by simp⟩
  rw [if_neg (not_not_intro hx1)]
  by_cases hx2 : isNonEmptyStr (getT env "proposal_digest") = true
  swap
  · rw [if_pos hx2]
    exact ⟨by simp, by simp⟩
  rw [if_neg (not_not_intro hx2)]
  by_cases hx3 : actInT (getT env "action_class") = true
  swap
  · rw [if_pos hx3]
    exact ⟨by simp, by simp⟩
  rw [if_neg (not_not_intro hx3)]
  by_cases hx4 : (isPyInt (getT env "energy_est_uj") &&
      0 ≤ pyIntVal (getT env "energy_est_uj")) = true
  swap
  · rw [if_pos hx4]
    exact ⟨by simp, by simp⟩
  rw [if_neg (not_not_intro hx4)]
  by_cases hx5 : isDict (getT env "tcc") = true
  swap
  · rw [if_pos hx5]
    exact ⟨by simp, by simp⟩
  rw [if_neg (not_not_intro hx5)]
  by_cases hx6 : (isNonEmptyStr (getT (getT env "tcc") "root") &&
      isNonEmptyStr (getT (getT env "tcc") "receipt")) = true
  swap
  · rw [if_pos hx6]
    exact ⟨by simp, by simp⟩
  rw [if_neg (not_not_intro hx6)]
  by_cases hx7 : is_dag (buildGraphT (getT env "tcc")).1 (buildGraphT (getT env "tcc")).2 = true
  swap
  · rw [if_pos hx7]
    exact ⟨by simp, by simp⟩
  rw [if_neg (not_not_intro hx7)]
  by_cases hx8 : reachable (buildGraphT (getT env "tcc")).1 (strVal (getT (getT env "tcc") "root"))
      (strVal (getT (getT env "tcc") "receipt")) = true
  swap
  · rw [if_pos hx8]
    exact ⟨by simp, by simp⟩
  rw [if_neg (not_not_intro hx8)]
  by_cases hx9 : (findNodesT (getT env "tcc") "TargetRef").length = 1
  swap
  · rw [if_pos hx9]
    exact ⟨by simp, by simp⟩
  rw [if_neg (not_not_intro hx9)]
  by_cases hx10 : pyEq (getT (getTD ((findNodesT (getT env "tcc") "TargetRef").headD .null)
      "payload" (.obj [])) "target_digest") (getT env "proposal_digest") = true
  swap
  · rw [if_pos hx10]
    exact ⟨by simp, by simp⟩
  rw [if_neg (not_not_intro hx10)]
  by_cases hx11 : (findNodesT (getT env "tcc") "IntentAnchor").length = 1
  swap
  · rw [if_pos hx11]
    exact ⟨by simp, by simp⟩
  rw [if_neg (not_not_intro hx11)]
  rw [if_neg (not_not_intro h1)]
  rw [if_neg (not_not_intro h2)]
  by_cases hx14 : (findNodesT (getT env "tcc") "GateVector").length = 1
  swap
  · rw [if_pos hx14]
    exact ⟨by simp, by simp⟩
  rw [if_neg (not_not_intro hx14)]
  by_cases hx15 : isList (getTD (getTD ((findNodesT (getT env "tcc") "GateVector").headD .null)
      "payload" (.obj [])) "gate_outputs" (.arr [])) = true
  swap
  · rw [if_pos hx15]
    exact ⟨by simp, by simp⟩
  rw [if_neg (not_not_intro hx15)]
  by_cases hx16 : REQ_GATES_MIN.all (fun g => g ∈ gatePassed (arrVal
      (getTD (getTD ((findNodesT (getT env "tcc") "GateVector").headD .null)
        "payload" (.obj [])) "gate_outputs" (.arr [])))) = true
  swap
  · rw [if_pos hx16]
    exact ⟨by simp, by simp⟩
  rw [if_neg (not_not_intro hx16)]
  by_cases hx17 : isPyInt (getT (getTD anchors "energy_budget_uj" (.obj []))
      (strVal (getT env "action_class"))) = true
  swap
  · rw [if_pos hx17]
    exact ⟨by simp, by simp⟩
  rw [if_neg (not_not_intro hx17)]
  by_cases hx18 : pyIntVal (getT env "energy_est_uj") >
      pyIntVal (getT (getTD anchors "energy_budget_uj" (.obj []))
        (strVal (getT env "action_class")))
  · rw [if_pos hx18]
    exact ⟨by simp, by simp⟩
  rw [if_neg hx18]
  by_cases hx19 : pyEq (getT env "witness_hash")
      (.str (compute_witness_hash (.obj (eraseKey (objItems env) "witness_hash")))) = true
  swap
  · rw [if_pos hx19]
    exact ⟨by simp, by simp⟩
  rw [if_neg (not_not_intro hx19)]
  exact ⟨by simp, by simp⟩

/-- Witness for C9 at the empty envelope and empty anchors, where all four
fields are absent. -/
theorem c9_absent_anchor_passes_witness :
    ((false, "schema_invalid", dbgS "schema") : Bool × String × JValue).2.1 ≠
      "outdated_or_missing_constitution_anchor" ∧
    ((false, "schema_invalid", dbgS "schema") : Bool × String × JValue).2.1 ≠
      "outdated_or_missing_energy_anchor" :=
  c9_absent_anchor_passes (.obj []) (.obj []) (false, "schema_invalid", dbgS "schema")
    rfl rfl rfl rfl rfl

/-- Witness for C5: a concrete dictionary given in two insertion orders. -/
theorem c5_hash_key_order_independent_witness :
    compute_witness_hash (.obj [("a", .int 1), ("b", .int 2)]) =
      compute_witness_hash (.obj [("b", .int 2), ("a", .int 1)]) :=
  (c5_hash_key_order_independent (.obj [("a", .int 1), ("b", .int 2)])
    (.obj [("b", .int 2), ("a", .int 1)])
    (StructEq.obj
      (StructEqKV.cons "a" (StructEq.int 1)
        (StructEqKV.cons "b" (StructEq.int 2) StructEqKV.nil))
      (List.Perm.swap ("b", JValue.int 2) ("a", JValue.int 1) []))
    (by simp [validDict, validDictKV]) (by simp [validDict, validDictKV])).2

end PccLite
